import Mathlib

/-!
# ESPTerm front-end: transport codec, escape-sequence parser and demo terminal

A shallow embedding of `src/js/utils.js` (2B/3B transport integers) and of the
`ANSIParser` / `ScrollingTerminal` classes of `src/js/term/demo.js`.

Conventions of the embedding

* A JavaScript string is the list of its characters, each character being its
  numeric code (`List Nat`).  For `utils.js` the characters are UTF-16 code units
  (what `charCodeAt` / `String.fromCharCode` handle); for the parser they are
  the code points that `for (let character of text)` iterates over.
* JavaScript numbers that hold integers are `Nat` / `Int`; the 32-bit operators
  (`|`, `<<`, `&`) wrap explicitly through `toInt32` / `toUint32`.
* `NaN` / `undefined` results are `none`; a thrown `TypeError` is `Except.error`.
-/

namespace ESPTerm

/-! ## `utils.js`: 2B / 3B transport integers -/

/-- A JavaScript string as the list of its UTF-16 code units. -/
abbrev JSString := List Nat

/-- `String.prototype.charCodeAt`: the code unit at index `i`, `none` (NaN) when out of range. -/
def charCodeAt (s : JSString) (i : Nat) : Option Int :=
  (s.get? i).map Int.ofNat

/-- `Chr (n) = String.fromCharCode(n)`: one code unit, the argument taken modulo `2^16`. -/
def Chr (n : Nat) : JSString := [n % 65536]

/-- `parse2B (s, i = 0)`:
`(s.charCodeAt(i++) - 1) + (s.charCodeAt(i) - 1) * 127`. -/
def parse2B (s : JSString) (i : Nat := 0) : Option Int := do
  let c0 ← charCodeAt s i
  let c1 ← charCodeAt s (i + 1)
  pure ((c0 - 1) + (c1 - 1) * 127)

/-- `parse3B (s, i = 0)`:
`(c(i) - 1) + (c(i + 1) - 1) * 127 + (c(i + 2) - 1) * 127 * 127`. -/
def parse3B (s : JSString) (i : Nat := 0) : Option Int := do
  let c0 ← charCodeAt s i
  let c1 ← charCodeAt s (i + 1)
  let c2 ← charCodeAt s (i + 2)
  pure ((c0 - 1) + (c1 - 1) * 127 + (c2 - 1) * 127 * 127)

/-- `encode2B (n)`: `lsb = n % 127; n = (n - lsb) / 127; lsb += 1; msb = n + 1`.  The
arithmetic is that of the integers; the doubles of the code follow it exactly for
`n < 2^53`, and round from there on. -/
def encode2B (n : Nat) : JSString :=
  let lsb := n % 127
  let n := (n - lsb) / 127
  let lsb := lsb + 1
  let msb := n + 1
  Chr lsb ++ Chr msb

/-- `encode3B (n)`: three digits, each `+ 1`, least significant first.  The arithmetic is
that of the integers; the doubles of the code follow it exactly for `n < 2^53`, and round
from there on. -/
def encode3B (n : Nat) : JSString :=
  let lsb := n % 127
  let n := (n - lsb) / 127
  let lsb := lsb + 1
  let msb := n % 127
  let n := (n - msb) / 127
  let msb := msb + 1
  let xsb := n + 1
  Chr lsb ++ Chr msb ++ Chr xsb

/-! ## `demo.js`: 32-bit integer operators -/

/-- `ToUint32`: the argument modulo `2^32`. -/
def toUint32 (n : Int) : Nat := (n % 4294967296).toNat

/-- `ToInt32`: the argument modulo `2^32`, read as a signed 32-bit integer (this is `n | 0`). -/
def toInt32 (n : Int) : Int :=
  let m := n % 4294967296
  if 2147483648 ≤ m then m - 4294967296 else m

/-- The operator `a << k` on 32-bit integers. -/
def shl32 (a : Int) (k : Nat) : Int := toInt32 (toInt32 a * 2 ^ (k % 32))

/-- The operator `a | b` on 32-bit integers. -/
def or32 (a b : Int) : Int := toInt32 (Int.ofNat (toUint32 a ||| toUint32 b))

/-- The operator `a & b` on 32-bit integers. -/
def and32 (a b : Int) : Int := toInt32 (Int.ofNat (toUint32 a &&& toUint32 b))

/-! ## `demo.js`: `ANSIParser` -/

/-- The calls `this.handler(action, ...args)` made by `ANSIParser`, one constructor per
action string (`'set-cursor'` is `setCursor`, `'_null'` is `null`, `'return'` is
`carriageReturn`, and so on). -/
inductive Event where
  | write (character : Nat)
  | delete (n : Nat)
  | insertBlanks (n : Nat)
  | clear
  | bell
  | back
  | tab
  | newLine
  | carriageReturn
  | setCursor (row col : Int)
  | moveCursorY (n : Int)
  | moveCursorX (n : Int)
  | moveCursorLine (n : Int)
  | setCursorX (n : Int)
  | setCursorStyle (n : Nat)
  | resetStyle
  | addAttrs (bits : Nat)
  | setColorFg (color : Int)
  | setColorBg (color : Int)
  | resetColorFg
  | resetColorBg
  | hideCursor
  | showCursor
  | null
  | sigint
  | deleteLine
  | deleteWord
  deriving DecidableEq, Repr

/-- `String.prototype.substring (a, b)`: both indices are clamped to the length and swapped
when `a > b`. -/
def substring (s : List Nat) (a b : Nat) : List Nat :=
  let a := min a s.length
  let b := min b s.length
  (s.drop (min a b)).take (max a b - min a b)

/-- `String.prototype.split (sep)` for a one-character separator: always at least one part. -/
def split (sep : Nat) : List Nat → List (List Nat)
  | [] => [[]]
  | c :: cs =>
    if c = sep then [] :: split sep cs
    else
      match split sep cs with
      | [] => [[c]]
      | part :: parts => (c :: part) :: parts

/-- The characters `0`..`9`, the ones `/\D/g` does not remove. -/
def isDigit (c : Nat) : Bool := 48 ≤ c && c ≤ 57

/-- Unary plus on a string of decimal digits (`+''` is `0`).  The value is kept exact; a
JavaScript double agrees with it below `2^53`. -/
def toNumber (digits : List Nat) : Nat :=
  digits.foldl (fun acc d => acc * 10 + (d - 48)) 0

/-- One parameter: `+i.replace(/\D/g, '')`. -/
def parseParam (i : List Nat) : Nat := toNumber (i.filter isDigit)

/-- The event of an SGR code that takes no further parameter (the `else if` chain of the
`while` loop, codes `38` and `48` excluded); an unknown code emits nothing. -/
def sgrSimple (type : Nat) : List Event :=
  if type = 0 then [Event.resetStyle]
  else if type = 1 then [Event.addAttrs (1 <<< 2)]
  else if type = 2 then [Event.addAttrs (1 <<< 9)]
  else if type = 3 then [Event.addAttrs (1 <<< 6)]
  else if type = 4 then [Event.addAttrs (1 <<< 3)]
  else if type = 5 ∨ type = 6 then [Event.addAttrs (1 <<< 5)]
  else if type = 7 then [Event.addAttrs (1 <<< 4)]
  else if type = 9 then [Event.addAttrs (1 <<< 7)]
  else if type = 20 then [Event.addAttrs (1 <<< 10)]
  else if 30 ≤ type ∧ type ≤ 37 then [Event.setColorFg (Int.ofNat (type % 10))]
  else if 40 ≤ type ∧ type ≤ 47 then [Event.setColorBg (Int.ofNat (type % 10))]
  else if type = 39 then [Event.resetColorFg]
  else if type = 49 then [Event.resetColorBg]
  else if 90 ≤ type ∧ type ≤ 98 then [Event.setColorFg (Int.ofNat (type % 10 + 8))]
  else if 100 ≤ type ∧ type ≤ 108 then [Event.setColorBg (Int.ofNat (type % 10 + 8))]
  else []

/-- The two `if (type === 38) ... if (type === 48) ...` lines that end an extended colour. -/
def sgrColor (type : Nat) (color : Int) : List Event :=
  (if type = 38 then [Event.setColorFg color] else []) ++
  (if type = 48 then [Event.setColorBg color] else [])

/-- `(r << 16 | g << 8 | b) + 256`; a missing parameter (`undefined`) counts as `0`. -/
def rgbColor (r g b : Option Nat) : Int :=
  or32 (or32 (shl32 (Int.ofNat (r.getD 0)) 16) (shl32 (Int.ofNat (g.getD 0)) 8))
    (Int.ofNat (b.getD 0)) + 256

/-- `(numbers.shift() | 0) & 0xFF`. -/
def indexedColor (n : Option Nat) : Int :=
  and32 (or32 (Int.ofNat (n.getD 0)) 0) 0xFF

/-- The loop `while ((type = numbers.shift())) { ... }` of the SGR branch.  The loop ends
when the queue is empty and also when the code taken from it is `0`, which is falsy. -/
def sgrLoop : List Nat → List Event
  | [] => []
  | type :: numbers =>
    if type = 0 then []
    else if type = 38 ∨ type = 48 then
      match numbers with
      | [] => []
      | mode :: numbers =>
        if mode = 2 then
          match numbers with
          | [] => sgrColor type (rgbColor none none none)
          | [r] => sgrColor type (rgbColor (some r) none none)
          | [r, g] => sgrColor type (rgbColor (some r) (some g) none)
          | r :: g :: b :: numbers =>
            sgrColor type (rgbColor (some r) (some g) (some b)) ++ sgrLoop numbers
        else if mode = 5 then
          match numbers with
          | [] => sgrColor type (indexedColor none)
          | n :: numbers => sgrColor type (indexedColor (some n)) ++ sgrLoop numbers
        else sgrLoop numbers
    else sgrSimple type ++ sgrLoop numbers

/-- `ANSIParser.parseSequence (sequence)`: the handler calls it makes, in order. -/
def ANSIParser.parseSequence (sequence : List Nat) : List Event :=
  if sequence.head? = some 0x5b then
    match sequence.getLast? with
    | none => []
    | some type =>
      let content := substring sequence 1 (sequence.length - 1)
      let numbers := if content.isEmpty then [] else (split 0x3b content).map parseParam
      let numOr1 : Nat := match numbers with
        | [] => 1
        | n :: _ => n
      if type = 0x48 then
        [Event.setCursor (toInt32 (Int.ofNat ((numbers.get? 0).getD 0)) - 1)
          (toInt32 (Int.ofNat ((numbers.get? 1).getD 0)) - 1)]
      else if 0x41 ≤ type ∧ type ≤ 0x44 then
        let n : Int := (if type = 0x42 ∨ type = 0x43 then 1 else -1) * Int.ofNat numOr1
        if type ≤ 0x42 then [Event.moveCursorY n] else [Event.moveCursorX n]
      else if type = 0x45 ∨ type = 0x46 then
        [Event.moveCursorLine ((if type = 0x45 then 1 else -1) * Int.ofNat numOr1)]
      else if type = 0x47 then [Event.setCursorX (Int.ofNat numOr1 - 1)]
      else if type = 0x4a then
        let number : Nat := match numbers with
          | [] => 2
          | n :: _ => n
        if number = 2 then [Event.clear] else []
      else if type = 0x50 then [Event.delete numOr1]
      else if type = 0x40 then [Event.insertBlanks numOr1]
      else if type = 0x71 then [Event.setCursorStyle numOr1]
      else if type = 0x6d then
        if numbers.isEmpty then [Event.resetStyle] else sgrLoop numbers
      else if type = 0x68 ∨ type = 0x6c then
        if content = [0x3f, 0x32, 0x35] then
          if type = 0x68 then [Event.showCursor] else [Event.hideCursor]
        else []
      else []
  else []

/-- The fields of an `ANSIParser`; the handler is not a field, its calls are returned as a
list of events. -/
structure ANSIParser where
  currentSequence : Nat
  sequence : List Nat
  joinChunks : Bool
  deriving DecidableEq, Repr

/-- `ANSIParser.reset ()`. -/
def ANSIParser.reset (p : ANSIParser) : ANSIParser :=
  { p with currentSequence := 0, sequence := [] }

/-- `new ANSIParser (handler)`: `this.reset()` and `this.joinChunks = true`. -/
def ANSIParser.new : ANSIParser :=
  { currentSequence := 0, sequence := [], joinChunks := true }

/-- One iteration of the `for (let character of text)` loop of `ANSIParser.write`: the
handler calls made for this character and the parser afterwards. -/
def ANSIParser.step (p : ANSIParser) (character : Nat) : List Event × ANSIParser :=
  let code := character
  if code = 0x1b then ([], { p with currentSequence := 1 })
  else if p.currentSequence = 1 ∧ character = 0x5b then
    ([], { p with currentSequence := 2, sequence := p.sequence ++ [0x5b] })
  else if p.currentSequence ≠ 0 ∧ (0x40 ≤ character ∧ character ≤ 0x7e) then
    (ANSIParser.parseSequence (p.sequence ++ [character]),
      { p with currentSequence := 0, sequence := [] })
  else if p.currentSequence > 1 then
    ([], { p with sequence := p.sequence ++ [character] })
  else if p.currentSequence = 1 then
    ([Event.write character], { p with currentSequence := 0 })
  else if code < 0x03 then ([Event.null], p)
  else if code = 0x03 then ([Event.sigint], p)
  else if code ≤ 0x06 then ([Event.null], p)
  else if code = 0x07 then ([Event.bell], p)
  else if code = 0x08 then ([Event.back], p)
  else if code = 0x09 then ([Event.tab], p)
  else if code = 0x0a then ([Event.newLine], p)
  else if code = 0x0d then ([Event.carriageReturn], p)
  else if code = 0x15 then ([Event.deleteLine], p)
  else if code = 0x17 then ([Event.deleteWord], p)
  else ([Event.write character], p)

/-- The `for` loop of `ANSIParser.write`: all handler calls, in order, and the parser after
the last character. -/
def ANSIParser.writeLoop (p : ANSIParser) : List Nat → List Event × ANSIParser
  | [] => ([], p)
  | character :: text =>
    let r := p.step character
    let r' := ANSIParser.writeLoop r.2 text
    (r.1 ++ r'.1, r'.2)

/-- `ANSIParser.write (text)`: the loop, then `if (!this.joinChunks) this.reset()`. -/
def ANSIParser.write (p : ANSIParser) (text : List Nat) : List Event × ANSIParser :=
  let r := p.writeLoop text
  if r.2.joinChunks then r else (r.1, r.2.reset)

/-- Feeding chunks one by one to `write`, collecting the events of all calls. -/
def ANSIParser.writeChunks (p : ANSIParser) : List (List Nat) → List Event × ANSIParser
  | [] => ([], p)
  | chunk :: chunks =>
    let r := p.write chunk
    let r' := ANSIParser.writeChunks r.2 chunks
    (r.1 ++ r'.1, r'.2)

/-! ## `demo.js`: JavaScript arrays -/

/-- `Array.prototype.splice (start, deleteCount, ...items)`: a negative `start` counts from
the end, `start` and `deleteCount` are clamped to the array. -/
def splice {α : Type} (a : List α) (start deleteCount : Int) (items : List α) : List α :=
  let len : Int := a.length
  let s : Nat := if start < 0 then (max (len + start) 0).toNat else (min start len).toNat
  let d : Nat := (min (max deleteCount 0) (len - s)).toNat
  a.take s ++ items ++ a.drop (s + d)

/-- The assignment `a[i] = v` on an array whose elements are `some _` and whose holes are
`none`: inside the array it replaces the element, at or past the end it extends the array
(leaving holes in between), and a negative index only adds a property to the object, the
elements and `length` stay as they are. -/
def arraySet {α : Type} (a : List (Option α)) (i : Int) (v : α) : List (Option α) :=
  if i < 0 then a
  else if i.toNat < a.length then a.set i.toNat (some v)
  else a ++ List.replicate (i.toNat - a.length) none ++ [some v]

/-! ## `demo.js`: `ScrollingTerminal` -/

/-- A style triple `[foreground, background, attributes]`.  The attribute word is a set of
flag bits (bits 0 to 10 are in use), far from the 32-bit limit of `|=` and `^=`, so it is a
natural number with the bitwise operators of `Nat`. -/
structure Style where
  fg : Int
  bg : Int
  attrs : Nat
  deriving DecidableEq, Repr

/-- `TERM_DEFAULT_STYLE = [0, 0, 0]`. -/
def TERM_DEFAULT_STYLE : Style := { fg := 0, bg := 0, attrs := 0 }

/-- A screen cell `[character, style]`. -/
structure Cell where
  character : Nat
  style : Style
  deriving DecidableEq, Repr

/-- The object `this.cursor`. -/
structure Cursor where
  x : Int
  y : Int
  style : Nat
  visible : Bool
  deriving DecidableEq, Repr

/-- The fields of a `ScrollingTerminal`.  `termScreen` (the display the updates are sent to)
and the timer are outside the embedding.  The fields `_screenOpts` to `_screen` hold the
blobs remembered by `getUpdate`; they are `undefined` (`none`) until the first update. -/
structure ScrollingTerminal where
  width : Nat
  height : Nat
  parser : ANSIParser
  buttonLabels : List (List Nat)
  style : Style
  cursor : Cursor
  trackMouse : Bool
  theme : Nat
  defaultFG : Int
  defaultBG : Int
  rainbow : Bool
  superRainbow : Bool
  screen : List (Option Cell)
  _screenOpts : Option JSString
  _title : Option JSString
  _buttons : Option JSString
  _cursor : Option JSString
  _screen : Option JSString
  deriving DecidableEq, Repr

namespace ScrollingTerminal

/-- The blank cell `[' ', TERM_DEFAULT_STYLE.slice()]`. -/
def blank : Cell := { character := 0x20, style := TERM_DEFAULT_STYLE }

/-- `clear ()`: a fresh array of `width * height` cells `[' ', this.style.slice()]`. -/
def clear (t : ScrollingTerminal) : ScrollingTerminal :=
  let cell : Cell := { character := 0x20, style := t.style }
  { t with screen := List.replicate (t.width * t.height) (some cell) }

/-- `reset ()`. -/
def reset (t : ScrollingTerminal) : ScrollingTerminal :=
  clear { t with
    style := TERM_DEFAULT_STYLE
    cursor := { x := 0, y := 0, style := 1, visible := true }
    trackMouse := false
    theme := 0
    defaultFG := 7
    defaultBG := 0
    rainbow := false
    superRainbow := false
    parser := t.parser.reset }

/-- `new ScrollingTerminal (screen)`: 80 columns, 25 rows, a new parser, no button labels,
then `this.reset()`. -/
def new : ScrollingTerminal :=
  reset {
    width := 80
    height := 25
    parser := ANSIParser.new
    buttonLabels := []
    style := TERM_DEFAULT_STYLE
    cursor := { x := 0, y := 0, style := 1, visible := true }
    trackMouse := false
    theme := 0
    defaultFG := 7
    defaultBG := 0
    rainbow := false
    superRainbow := false
    screen := []
    _screenOpts := none
    _title := none
    _buttons := none
    _cursor := none
    _screen := none }

/-- `scroll ()`: drop the first `width` cells, push `width` default blanks, `cursor.y--`. -/
def scroll (t : ScrollingTerminal) : ScrollingTerminal :=
  { t with
    screen := splice t.screen 0 t.width [] ++ List.replicate t.width (some blank)
    cursor := { t.cursor with y := t.cursor.y - 1 } }

/-- `newLine ()`: `cursor.y++`, then `scroll ()` when `cursor.y >= height`. -/
def newLine (t : ScrollingTerminal) : ScrollingTerminal :=
  let t1 := { t with cursor := { t.cursor with y := t.cursor.y + 1 } }
  if t1.cursor.y ≥ t1.height then scroll t1 else t1

/-- `writeChar (character)`. -/
def writeChar (t : ScrollingTerminal) (character : Nat) : ScrollingTerminal :=
  let cell : Cell := { character := character, style := t.style }
  let t1 := { t with screen := arraySet t.screen (t.cursor.y * t.width + t.cursor.x) cell }
  let t2 := { t1 with cursor := { t1.cursor with x := t1.cursor.x + 1 } }
  if t2.cursor.x ≥ t2.width then newLine { t2 with cursor := { t2.cursor with x := 0 } }
  else t2

/-- The body of the loop of `moveBack`. -/
def moveBackStep (t : ScrollingTerminal) : ScrollingTerminal :=
  let t1 := { t with cursor := { t.cursor with x := t.cursor.x - 1 } }
  if t1.cursor.x < 0 then
    let x : Int := if t1.cursor.y > 0 then t1.width - 1 else 0
    { t1 with cursor := { t1.cursor with x := x, y := max 0 (t1.cursor.y - 1) } }
  else t1

/-- `moveBack (n = 1)`. -/
def moveBack (t : ScrollingTerminal) : (n : Nat) → ScrollingTerminal
  | 0 => t
  | n + 1 => moveBack (moveBackStep t) n

/-- The body of the loop of `moveForward`. -/
def moveForwardStep (t : ScrollingTerminal) : ScrollingTerminal :=
  let t1 := { t with cursor := { t.cursor with x := t.cursor.x + 1 } }
  if t1.cursor.x ≥ t1.width then
    let t2 := { t1 with cursor := { t1.cursor with x := 0, y := t1.cursor.y + 1 } }
    if t2.cursor.y ≥ t2.height then scroll t2 else t2
  else t1

/-- `moveForward (n = 1)`. -/
def moveForward (t : ScrollingTerminal) : (n : Nat) → ScrollingTerminal
  | 0 => t
  | n + 1 => moveForward (moveForwardStep t) n

/-- The loop of `deleteForward`: `n` times
`this.screen.splice((this.cursor.y + 1) * this.width, 0, [' ', TERM_DEFAULT_STYLE.slice()])`. -/
def insertBlankLoop (screen : List (Option Cell)) (start : Int) : Nat → List (Option Cell)
  | 0 => screen
  | n + 1 => insertBlankLoop (splice screen start 0 [some blank]) start n

/-- `deleteChar ()`. -/
def deleteChar (t : ScrollingTerminal) : ScrollingTerminal :=
  let t1 := moveBack t 1
  let s1 := splice t1.screen ((t1.cursor.y + 1) * t1.width) 0 [some blank]
  { t1 with screen := splice s1 (t1.cursor.y * t1.width + t1.cursor.x) 1 [] }

/-- `deleteForward (n)`. -/
def deleteForward (t : ScrollingTerminal) (n : Nat) : ScrollingTerminal :=
  let n := min t.width n
  let s1 := insertBlankLoop t.screen ((t.cursor.y + 1) * t.width) n
  { t with screen := splice s1 (t.cursor.y * t.width + t.cursor.x) n [] }

/-- `clampCursor ()`: four `if`s, one after the other. -/
def clampCursor (t : ScrollingTerminal) : ScrollingTerminal :=
  let x1 : Int := if t.cursor.x < 0 then 0 else t.cursor.x
  let y1 : Int := if t.cursor.y < 0 then 0 else t.cursor.y
  let x2 : Int := if x1 > t.width - 1 then t.width - 1 else x1
  let y2 : Int := if y1 > t.height - 1 then t.height - 1 else y1
  { t with cursor := { t.cursor with x := x2, y := y2 } }

/-- `handleParsed (action, ...args)`.  The action `'insert-blanks'` calls
`this.insertBlanks`, which no class defines: the call throws a `TypeError`.  `'bell'` only
talks to `termScreen`; the actions without a branch leave the terminal as it is. -/
def handleParsed (t : ScrollingTerminal) : Event → Except String ScrollingTerminal
  | Event.write character => pure (writeChar t character)
  | Event.delete n => pure (deleteForward t n)
  | Event.insertBlanks _ => throw "TypeError: this.insertBlanks is not a function"
  | Event.clear => pure (clear t)
  | Event.bell => pure t
  | Event.back => pure (moveBack t 1)
  | Event.newLine =>
    let t1 := newLine t
    pure { t1 with cursor := { t1.cursor with x := 0 } }
  | Event.carriageReturn => pure { t with cursor := { t.cursor with x := 0 } }
  | Event.setCursor row col =>
    pure (clampCursor { t with cursor := { t.cursor with x := col, y := row } })
  | Event.moveCursorY n =>
    pure (clampCursor { t with cursor := { t.cursor with y := t.cursor.y + n } })
  | Event.moveCursorX n =>
    pure (clampCursor { t with cursor := { t.cursor with x := t.cursor.x + n } })
  | Event.moveCursorLine n =>
    pure (clampCursor { t with cursor := { t.cursor with x := 0, y := t.cursor.y + n } })
  | Event.setCursorX n => pure { t with cursor := { t.cursor with x := n } }
  | Event.setCursorStyle n => pure { t with cursor := { t.cursor with style := max 0 (min 6 n) } }
  | Event.resetStyle => pure { t with style := TERM_DEFAULT_STYLE }
  | Event.addAttrs bits => pure { t with style := { t.style with attrs := t.style.attrs ||| bits } }
  | Event.setColorFg color =>
    pure { t with style := { t.style with fg := color, attrs := t.style.attrs ||| 1 } }
  | Event.setColorBg color =>
    pure { t with style := { t.style with bg := color, attrs := t.style.attrs ||| (1 <<< 1) } }
  | Event.resetColorFg =>
    let attrs := if t.style.attrs &&& 1 ≠ 0 then t.style.attrs ^^^ 1 else t.style.attrs
    pure { t with style := { t.style with fg := 0, attrs := attrs } }
  | Event.resetColorBg =>
    let attrs := if t.style.attrs &&& (1 <<< 1) ≠ 0 then t.style.attrs ^^^ (1 <<< 1)
      else t.style.attrs
    pure { t with style := { t.style with bg := 0, attrs := attrs } }
  | Event.hideCursor => pure { t with cursor := { t.cursor with visible := false } }
  | Event.showCursor => pure { t with cursor := { t.cursor with visible := true } }
  | Event.null => pure t
  | Event.sigint => pure t
  | Event.tab => pure t
  | Event.deleteLine => pure t
  | Event.deleteWord => pure t

/-- The handler calls of one parser step, applied in order; the first exception ends it. -/
def handleAll (t : ScrollingTerminal) : List Event → Except String ScrollingTerminal
  | [] => pure t
  | e :: es =>
    match handleParsed t e with
    | Except.ok t1 => handleAll t1 es
    | Except.error err => Except.error err

/-- The loop of `this.parser.write (text)` with `handleParsed` as the handler: each
character is one parser step whose handler calls are applied at once. -/
def writeLoop (t : ScrollingTerminal) : List Nat → Except String ScrollingTerminal
  | [] => pure t
  | character :: text =>
    match handleAll t (t.parser.step character).1 with
    | Except.ok t1 => writeLoop { t1 with parser := (t.parser.step character).2 } text
    | Except.error err => Except.error err

/-- `write (text)`: `this.parser.write (text)`, the parser resetting itself at the end of
the chunk when `joinChunks` is off. -/
def write (t : ScrollingTerminal) (text : List Nat) : Except String ScrollingTerminal :=
  match writeLoop t text with
  | Except.ok t1 =>
    pure (if t1.parser.joinChunks then t1 else { t1 with parser := t1.parser.reset })
  | Except.error err => Except.error err

/-- The terminal with its parser replaced (the handler never touches the parser). -/
def withParser (p : ANSIParser) (t : ScrollingTerminal) : ScrollingTerminal :=
  { t with parser := p }

end ScrollingTerminal

/-! ## `demo.js`: the update sent to the screen

Wire strings are lists of UTF-16 code units, the level at which `!==` compares them. -/

/-- The UTF-16 code units of the one-character string of a code point. -/
def charUnits (c : Nat) : JSString :=
  if c < 0x10000 then [c]
  else [(c - 0x10000) / 0x400 + 0xD800, (c - 0x10000) % 0x400 + 0xDC00]

/-- `String.fromCodePoint (n)`: a `RangeError` unless `n` is an integer of `0..0x10FFFF`. -/
def fromCodePoint (n : Int) : Except String JSString :=
  if n < 0 ∨ 0x10FFFF < n then throw "RangeError: Invalid code point"
  else pure (charUnits n.toNat)

/-- `encodeAsCodePoint = i => String.fromCodePoint(i + (i >= 0xD800 ? 0x801 : 1))`. -/
def encodeAsCodePoint (i : Int) : Except String JSString :=
  fromCodePoint (i + (if 0xD800 ≤ i then 0x801 else 1))

/-- The operator `a >> k` on 32-bit integers (the sign is kept). -/
def sar32 (a : Int) (k : Nat) : Int := toInt32 a / 2 ^ (k % 32)

namespace ScrollingTerminal

/-- `encodeColor (color)`. -/
def encodeColor (color : Int) : Except String JSString :=
  if color < 256 then encodeAsCodePoint color
  else do
    let color := color - 256
    let low ← encodeAsCodePoint (or32 (and32 color 0xFFF) 0x10000)
    let high ← encodeAsCodePoint (sar32 color 12)
    pure (low ++ high)

/-- `getScreenOpts ()`: the topic `O`. -/
def getScreenOpts (t : ScrollingTerminal) : Except String JSString := do
  let data : JSString := [0x4f]
  let data := data ++ (← encodeAsCodePoint 25)
  let data := data ++ (← encodeAsCodePoint 80)
  let data := data ++ (← encodeAsCodePoint t.theme)
  let data := data ++ (← encodeColor t.defaultFG)
  let data := data ++ (← encodeColor t.defaultBG)
  let attributes : Int := if t.cursor.visible then 1 else 0
  let attributes := or32 attributes (shl32 3 5 * (if t.trackMouse then 1 else 0))
  let attributes := or32 attributes (shl32 3 7)
  let attributes := or32 attributes (shl32 t.cursor.style 9)
  let data := data ++ (← encodeAsCodePoint attributes)
  pure data

/-- `getButtons ()`: the topic `B`. -/
def getButtons (t : ScrollingTerminal) : Except String JSString := do
  let data : JSString := [0x42]
  let data := data ++ (← encodeAsCodePoint t.buttonLabels.length)
  let data := data ++ (t.buttonLabels.map (fun x => [0x01] ++ x ++ [0x01])).flatten
  pure data

/-- `getTitle ()`: the topic `T`, the constant `'TESPTerm Web UI Demo\x01'`. -/
def getTitle : JSString :=
  "TESPTerm Web UI Demo".toList.map Char.toNat ++ [0x01]

/-- `getCursor ()`: the topic `C`. -/
def getCursor (t : ScrollingTerminal) : Except String JSString := do
  let data : JSString := [0x43]
  let data := data ++ (← encodeAsCodePoint t.cursor.y)
  let data := data ++ (← encodeAsCodePoint t.cursor.x)
  let data := data ++ (← encodeAsCodePoint 0)
  pure data

/-- The body of the loop of `serializeScreen` for one cell: the style that becomes
`lastStyle`, the next `index` and the characters appended to `serialized`.  A hole in the
array is `undefined`, and `cell[1]` throws.  `lastStyle` is `none` for `[null, null, null]`.
The rainbow colours depend on the clock and on `Math.sin`; they are outside the embedding
and come from `rainbowColor`, which gives for the index of a cell the values of
`getRainbowColor(t)` and `getRainbowColor(t / 10)`. -/
def serializeCell (rainbow superRainbow : Bool) (rainbowColor : Nat → Int × Int)
    (lastStyle : Option Style) (index : Nat) (cell : Option Cell) :
    Except String (Style × Nat × JSString) :=
  match cell with
  | none => throw "TypeError: Cannot read properties of undefined"
  | some cell => do
    let style := cell.style
    let rainbowStyle : Style :=
      let attrs := style.attrs ||| 1
      { fg := (rainbowColor index).1
        bg := if superRainbow then (rainbowColor index).2 else 0
        attrs := if !superRainbow ∧ attrs &&& (1 <<< 1) ≠ 0 then attrs ^^^ (1 <<< 1) else attrs }
    let style := if rainbow then rainbowStyle else style
    let index := if rainbow then index + 1 else index
    let foreground := style.fg
    let background := style.bg
    let attributes := style.attrs
    let setForeground : Bool := lastStyle.map (fun l => l.fg) ≠ some foreground
    let setBackground : Bool := lastStyle.map (fun l => l.bg) ≠ some background
    let setAttributes : Bool := lastStyle.map (fun l => l.attrs) ≠ some attributes
    let colours : JSString ←
      if setForeground ∧ setBackground then
        if foreground < 256 ∧ background < 256 then do
          pure ([0x03] ++ (← encodeAsCodePoint (or32 (shl32 background 8) foreground)))
        else do
          let fg ← encodeColor foreground
          let bg ← encodeColor background
          pure ([0x05] ++ fg ++ [0x06] ++ bg)
      else if setForeground then do pure ([0x05] ++ (← encodeColor foreground))
      else if setBackground then do pure ([0x06] ++ (← encodeColor background))
      else pure []
    let attrs : JSString ←
      if setAttributes then do pure ([0x04] ++ (← encodeAsCodePoint attributes))
      else pure []
    pure (style, index, colours ++ attrs ++ charUnits cell.character)

/-- The loop `for (let cell of this.screen)` of `serializeScreen`: what it appends. -/
def serializeCells (rainbow superRainbow : Bool) (rainbowColor : Nat → Int × Int) :
    List (Option Cell) → Option Style → Nat → Except String JSString
  | [], _, _ => pure []
  | cell :: cells, lastStyle, index => do
    let r ← serializeCell rainbow superRainbow rainbowColor lastStyle index cell
    let rest ← serializeCells rainbow superRainbow rainbowColor cells (some r.1) r.2.1
    pure (r.2.2 ++ rest)

/-- `serializeScreen ()`: the topic `S`. -/
def serializeScreen (rainbowColor : Nat → Int × Int) (t : ScrollingTerminal) :
    Except String JSString := do
  let serialized : JSString := [0x53]
  let serialized := serialized ++ (← encodeAsCodePoint 0) ++ (← encodeAsCodePoint 0)
  let serialized := serialized ++ (← encodeAsCodePoint t.height) ++ (← encodeAsCodePoint t.width)
  let cells ← serializeCells t.rainbow t.superRainbow rainbowColor t.screen none 0
  pure (serialized ++ cells)

/-- `getUpdate ()`: the update string and the terminal with the blobs it remembers. -/
def getUpdate (rainbowColor : Nat → Int × Int) (t : ScrollingTerminal) :
    Except String (JSString × ScrollingTerminal) := do
  let topics : Int := 0
  let topicData : List JSString := []
  let screenOpts ← getScreenOpts t
  let title := getTitle
  let buttons ← getButtons t
  let cursor ← getCursor t
  let screen ← serializeScreen rainbowColor t
  let (t, topicData) :=
    if t._screenOpts ≠ some screenOpts then
      ({ t with _screenOpts := some screenOpts }, topicData ++ [screenOpts])
    else (t, topicData)
  let (t, topicData) :=
    if t._title ≠ some title then ({ t with _title := some title }, topicData ++ [title])
    else (t, topicData)
  let (t, topicData) :=
    if t._buttons ≠ some buttons then ({ t with _buttons := some buttons }, topicData ++ [buttons])
    else (t, topicData)
  let (t, topicData) :=
    if t._cursor ≠ some cursor then ({ t with _cursor := some cursor }, topicData ++ [cursor])
    else (t, topicData)
  let (t, topicData) :=
    if t._screen ≠ some screen then ({ t with _screen := some screen }, topicData ++ [screen])
    else (t, topicData)
  if topicData.isEmpty then pure ([], t)
  else pure ([0x55] ++ (← encodeAsCodePoint topics) ++ topicData.flatten, t)

/-- The terminal with the five remembered blobs replaced. -/
def withBlobs (o ti b c s : JSString) (t : ScrollingTerminal) : ScrollingTerminal :=
  { t with
    _screenOpts := some o
    _title := some ti
    _buttons := some b
    _cursor := some c
    _screen := some s }

/-- The terminal with the cursor moved to column `x`, row `y`. -/
def withCursorAt (x y : Int) (t : ScrollingTerminal) : ScrollingTerminal :=
  { t with cursor := { t.cursor with x := x, y := y } }

end ScrollingTerminal

/-! ## `screen_renderer.js`: `CanvasRenderer`

Of the renderer, the embedding keeps what decides which cells a draw pass repaints and what
it remembers as drawn: the calls on the canvas context itself are left out. -/

/-- The oscillator of `resetBlink ()`: the flag `blinkStyleOn` and the counter `intervals`
of the timer callback. -/
structure BlinkTimer where
  blinkStyleOn : Bool
  intervals : Nat
deriving DecidableEq, Repr

/-- `resetBlink ()`: the flag is on and the counter of the new timer is 0. -/
def resetBlink : BlinkTimer := { blinkStyleOn := true, intervals := 0 }

/-- One run of the callback that `resetBlink ()` gives to `setInterval (.., 200)`.
`blinkingCellCount` is `none` when the property is `undefined` (no code under `src/` sets
it), and `undefined <= 0` is `false`. -/
def blinkTick (blinkingCellCount : Option Int) (s : BlinkTimer) : BlinkTimer :=
  if (match blinkingCellCount with | some n => decide (n ≤ 0) | none => false) then s
  else
    let intervals := s.intervals + 1
    if intervals ≥ 4 ∧ s.blinkStyleOn then { blinkStyleOn := false, intervals := 0 }
    else if intervals ≥ 1 ∧ ¬ s.blinkStyleOn then { blinkStyleOn := true, intervals := 0 }
    else { s with intervals := intervals }

/-- The timer after `n` runs of its callback. -/
def blinkTicks (blinkingCellCount : Option Int) : Nat → BlinkTimer → BlinkTimer
  | 0, s => s
  | n + 1, s => blinkTicks blinkingCellCount n (blinkTick blinkingCellCount s)

/-- The read `a[i]` of an array with holes: `undefined` (`none`) at a hole and outside. -/
def arrayGet {α : Type} (a : List (Option α)) (i : Nat) : Option α := (a[i]?).getD none

/-- The attribute bits that `screen_renderer.js` takes from `./screen_attr_bits`, a file that
is not among the sources: they are parameters of the embedding. -/
structure AttrBits where
  ATTR_FG : Int
  ATTR_BG : Int
  ATTR_BOLD : Int
  ATTR_INVERSE : Int
  ATTR_BLINK : Int
  ATTR_ITALIC : Int

/-- The fields of `this.cursor` that `draw` reads; `none` is `undefined`. -/
structure RendererCursor where
  x : Option Int
  y : Option Int
  visible : Bool
  style : Option JSString
  hanging : Option Bool
deriving DecidableEq

/-- The array `drawnCursor = [x, y, style, hanging]`. -/
structure DrawnCursor where
  x : Int
  y : Int
  style : Option JSString
  hanging : Option Bool
deriving DecidableEq

/-- The state of a `CanvasRenderer` that `draw` reads and writes.  `statusScreen` says
whether a status screen is set; the elements of the drawn arrays are `some v` for a stored
`v` and `none` for a hole, and a stored text may itself be `undefined` (`none`), which reads
like a hole. -/
structure CanvasRenderer where
  width : Nat
  height : Nat
  graphics : Int
  screen : List JSString
  screenFG : List Int
  screenBG : List Int
  screenAttrs : List Int
  screenSelection : List Bool
  screenLines : List Int
  cursor : RendererCursor
  cursorBlinkOn : Bool
  reverseVideo : Bool
  blinkStyleOn : Bool
  defaultFG : Int
  defaultBG : Int
  statusScreen : Bool
  drawnScreen : List (Option (Option JSString))
  drawnScreenFG : List (Option Int)
  drawnScreenBG : List (Option Int)
  drawnScreenAttrs : List (Option Int)
  drawnScreenLines : List Int
  drawnCursor : DrawnCursor

/-- The object that the first loop of `draw` pushes for a cell. -/
structure CellData where
  cell : Nat
  x : Nat
  y : Nat
  text : Option JSString
  fg : Int
  bg : Int
  attrs : Int
  isCursor : Bool
  inSelection : Bool
  isDefaultBG : Bool
deriving DecidableEq

/-- A clip region `[regionStart, y, endX, endY]` of `draw`. -/
structure Region where
  startX : Nat
  startY : Nat
  endX : Nat
  endY : Nat
deriving DecidableEq, Repr

/-- Whether the cell at column `x`, row `y` lies in the rectangle of a region: `ctx.rect`
takes it from column `startX` to `endX` and from row `startY` to `endY`, ends excluded. -/
def Region.contains (g : Region) (x y : Nat) : Bool :=
  g.startX ≤ x ∧ x < g.endX ∧ g.startY ≤ y ∧ y < g.endY

/-- What a draw pass decides: the update map (after the holes are filled), the redraw map
and the masked cells, each a list indexed by the cell (a key that is absent or `false` is
`false`), and the clip regions when `graphics >= 1`. -/
structure DrawPlan where
  updateMap : List Bool
  redrawMap : List Bool
  maskedCells : List Bool
  regions : Option (List Region)

/-- `map.get (key) || false` on a map whose keys are the cells `0 .. length - 1`. -/
def mapGet (m : List Bool) (key : Int) : Bool :=
  if key < 0 then false else m.getD key.toNat false

namespace CanvasRenderer

/-- `getAdjacentCells (cell, radius)`: the two nested loops over `-radius .. radius`, then
the filter on `0 <= cell < width * height`. -/
def getAdjacentCells (width height : Nat) (cell : Int) (radius : Nat) : List Int :=
  let screenLength : Int := width * height
  let offsets : List Int := (List.range (2 * radius + 1)).map (fun n => (n : Int) - radius)
  let cells := (offsets.map (fun x =>
    (offsets.filter (fun y => ¬ (x = 0 ∧ y = 0))).map (fun y => cell + x + y * width))).flatten
  cells.filter (fun c => 0 ≤ c ∧ c < screenLength)

/-- The body of the first loop of `draw` for one cell: the data pushed to its font group and
`didUpdate`. -/
def drawCell (k : AttrBits) (r : CanvasRenderer) (cell : Nat) : CellData × Bool :=
  let x := cell % r.width
  let y := cell / r.width
  let isCursor : Bool := r.cursorBlinkOn ∧ r.cursor.x = some (x : Int) ∧
    r.cursor.y = some (y : Int) ∧ r.cursor.visible
  let wasCursor : Bool := (x : Int) = r.drawnCursor.x ∧ (y : Int) = r.drawnCursor.y
  let text : Option JSString := r.screen[cell]?
  let fg : Int := toInt32 ((r.screenFG[cell]?).getD 0)
  let bg : Int := toInt32 ((r.screenBG[cell]?).getD 0)
  let attrs : Int := toInt32 ((r.screenAttrs[cell]?).getD 0)
  let inSelection : Bool := (r.screenSelection[cell]?).getD false
  let fg := if and32 attrs k.ATTR_FG = 0 then r.defaultFG else fg
  let isDefaultBG : Bool := and32 attrs k.ATTR_BG = 0
  let bg := if and32 attrs k.ATTR_BG = 0 then r.defaultBG else bg
  let (fg, bg) := if and32 attrs k.ATTR_INVERSE ≠ 0 then (bg, fg) else (fg, bg)
  let (fg, bg) := if r.reverseVideo then (bg, fg) else (fg, bg)
  let text := if and32 attrs k.ATTR_BLINK ≠ 0 ∧ ¬ r.blinkStyleOn then some [0x20] else text
  let fg := if inSelection then -1 else fg
  let bg := if inSelection then -2 else bg
  let didUpdate : Bool :=
    text ≠ (arrayGet r.drawnScreen cell).join ∨
    some fg ≠ arrayGet r.drawnScreenFG cell ∨
    some bg ≠ arrayGet r.drawnScreenBG cell ∨
    some attrs ≠ arrayGet r.drawnScreenAttrs cell ∨
    r.screenLines[y]? ≠ r.drawnScreenLines[y]? ∨
    isCursor ∨ wasCursor ∨
    (isCursor ∧ r.cursor.style ≠ r.drawnCursor.style) ∨
    (isCursor ∧ r.cursor.hanging ≠ r.drawnCursor.hanging)
  ({ cell := cell, x := x, y := y, text := text, fg := fg, bg := bg, attrs := attrs,
     isCursor := isCursor, inSelection := inSelection, isDefaultBG := isDefaultBG },
   didUpdate)

/-- `fontGroups.get (font).push (data)`, with `fontGroups.set (font, [])` first when the map
has no such key: a `Map` keeps its keys in the order in which they were added. -/
def groupPush (groups : List (Int × List CellData)) (font : Int) (data : CellData) :
    List (Int × List CellData) :=
  match groups with
  | [] => [(font, [data])]
  | (f, ds) :: rest =>
    if f = font then (f, ds ++ [data]) :: rest else (f, ds) :: groupPush rest font data

/-- The first loop of `draw`, over the cells `0 .. width * height - 1`: the font groups and
the update map. -/
def updateLoop (k : AttrBits) (r : CanvasRenderer) :
    List Nat → List (Int × List CellData) → List Bool → List (Int × List CellData) × List Bool
  | [], fontGroups, updateMap => (fontGroups, updateMap)
  | cell :: cells, fontGroups, updateMap =>
    let d := drawCell k r cell
    let font := and32 d.1.attrs (or32 k.ATTR_BOLD k.ATTR_ITALIC)
    updateLoop k r cells (groupPush fontGroups font d.1) (updateMap ++ [d.2])

/-- The loop that fills the holes of the update map (run when `graphics >= 1`): it goes
over the keys in order and writes into the map it reads. -/
def fillHoles : List Nat → List Bool → List Bool
  | [], updateMap => updateMap
  | cell :: cells, updateMap =>
    if mapGet updateMap cell then fillHoles cells updateMap
    else
      let previous := mapGet updateMap ((cell : Int) - 1)
      let next := mapGet updateMap ((cell : Int) + 1)
      if previous ∧ next then fillHoles cells (updateMap.set cell true)
      else fillHoles cells updateMap

/-- `isTextWide (text)`: `measureText` belongs to the canvas, `wide` stands for
`ctx.measureText(text).width >= (cellWidth + 0.05)`. -/
def isTextWide (wide : Option JSString → Bool) (text : Option JSString) : Bool :=
  text ≠ some [0x20] ∧ wide text

/-- The loop over the adjacent cells of a cell that did not update, with its `break`:
whether an adjacent cell updated, and whether the cell is set in `maskedCells`. -/
def checkAdjacent (wide : Option JSString → Bool) (r : CanvasRenderer) (updateMap : List Bool)
    (cell : Nat) (isWideCell : Bool) : List Int → Bool × Bool
  | [] => (false, false)
  | adjacentCell :: rest =>
    if mapGet updateMap adjacentCell ∧
        (r.graphics < 2 ∨ isWideCell ∨ isTextWide wide (r.screen[adjacentCell.toNat]?)) ∧
        ((r.screenLines[cell / r.width]?).getD 0 = 0 ∧
          (r.screenLines[adjacentCell.toNat / r.width]?).getD 0 = 0) then
      (true, (getAdjacentCells r.width r.height cell 1).contains adjacentCell)
    else checkAdjacent wide r updateMap cell isWideCell rest

/-- The loop of `draw` that decides for each cell whether it is redrawn and whether it is
masked. -/
def redrawLoop (wide : Option JSString → Bool) (r : CanvasRenderer) (updateMap : List Bool) :
    List Nat → List Bool → List Bool → List Bool × List Bool
  | [], redrawMap, maskedCells => (redrawMap, maskedCells)
  | cell :: cells, redrawMap, maskedCells =>
    let shouldUpdate := mapGet updateMap cell || mapGet redrawMap cell
    let isWideCell := isTextWide wide (r.screen[cell]?)
    let checkRadius := if isWideCell then 2 else 1
    let adjacent : Bool × Bool :=
      if ¬ shouldUpdate then
        checkAdjacent wide r updateMap cell isWideCell
          (getAdjacentCells r.width r.height cell checkRadius)
      else (false, false)
    let shouldUpdate := shouldUpdate || adjacent.1
    let masked := adjacent.2 || mapGet updateMap cell
    redrawLoop wide r updateMap cells (redrawMap ++ [shouldUpdate]) (maskedCells ++ [masked])

/-- The loop over the columns of row `y` that cuts the masked cells into runs. -/
def rowLoop (width : Nat) (maskedCells : List Bool) (y : Nat) :
    List Nat → Option Nat → List Region → Option Nat × List Region
  | [], regionStart, regions => (regionStart, regions)
  | x :: xs, regionStart, regions =>
    if mapGet maskedCells ((y * width + x : Nat) : Int) then
      rowLoop width maskedCells y xs (if regionStart = none then some x else regionStart) regions
    else
      match regionStart with
      | some s => rowLoop width maskedCells y xs none (regions ++ [Region.mk s y x (y + 1)])
      | none => rowLoop width maskedCells y xs none regions

/-- The loop over the rows: the runs of every row, in order. -/
def regionLoop (width : Nat) (maskedCells : List Bool) : List Nat → List Region → List Region
  | [], regions => regions
  | y :: ys, regions =>
    let r := rowLoop width maskedCells y (List.range width) none regions
    match r.1 with
    | some s => regionLoop width maskedCells ys (r.2 ++ [Region.mk s y width (y + 1)])
    | none => regionLoop width maskedCells ys r.2

/-- The inner `while (j < regions.length)` of the join loop, for the region at index `i`;
`other === region` holds exactly at `j = i`.  The result is `none` when the fuel runs out. -/
def joinInner : Nat → List Region → Nat → Nat → Option (List Region × Nat)
  | 0, _, _, _ => none
  | fuel + 1, regions, i, j =>
    if j < regions.length then
      match regions[i]?, regions[j]? with
      | some region, some other =>
        if j = i then joinInner fuel regions i (j + 1)
        else if other.startX = region.startX ∧ other.endX = region.endX ∧
            other.endY = region.startY then
          joinInner fuel ((regions.set i { region with startY := other.startY }).eraseIdx j)
            (if i > j then i - 1 else i) j
        else joinInner fuel regions i (j + 1)
      | _, _ => none
    else some (regions, i)

/-- The outer `while (i < regions.length)` of the join loop. -/
def joinOuter : Nat → List Region → Nat → Option (List Region)
  | 0, _, _ => none
  | fuel + 1, regions, i =>
    if i < regions.length then
      match joinInner (regions.length + 1) regions i 0 with
      | some (regions, i) => joinOuter fuel regions (i + 1)
      | none => none
    else some regions

/-- The clip regions of `draw`: the runs of the rows, joined.  Each of the two loops of the
join gets a fuel of the number of regions plus one. -/
def clipRegions (width height : Nat) (maskedCells : List Bool) : Option (List Region) :=
  let regions := regionLoop width maskedCells (List.range height) []
  joinOuter (regions.length + 1) regions 0

/-- A run of row `y`, the horizontal span of masked cells that the spec speaks of: the
cells of the columns `a` to `b - 1` are masked cells of the grid, and the stretch cannot be
extended, it
starts at the first column or after an unmasked cell and ends at the last column or before
an unmasked cell.  The loop over a row pushes a run as `[a, y, b, y + 1]`. -/
def isRun (width height : Nat) (maskedCells : List Bool) (y a b : Nat) : Prop :=
  y < height ∧ a < b ∧ b ≤ width ∧
  (∀ x, a ≤ x → x < b → mapGet maskedCells ((y * width + x : Nat) : Int) = true) ∧
  (a = 0 ∨ mapGet maskedCells ((y * width + (a - 1) : Nat) : Int) = false) ∧
  (b = width ∨ mapGet maskedCells ((y * width + b : Nat) : Int) = false)

/-- The second pass of `draw` for the cells of one font group: the drawn arrays and the
drawn cursor. -/
def snapshotLoop (redrawMap : List Bool) : List CellData → CanvasRenderer → CanvasRenderer
  | [], r => r
  | data :: rest, r =>
    if mapGet redrawMap data.cell then
      let r := { r with
        drawnScreen := arraySet r.drawnScreen data.cell data.text
        drawnScreenFG := arraySet r.drawnScreenFG data.cell data.fg
        drawnScreenBG := arraySet r.drawnScreenBG data.cell data.bg
        drawnScreenAttrs := arraySet r.drawnScreenAttrs data.cell data.attrs }
      let r := if data.isCursor then
          { r with drawnCursor := DrawnCursor.mk data.x data.y r.cursor.style r.cursor.hanging }
        else r
      snapshotLoop redrawMap rest r
    else snapshotLoop redrawMap rest r

/-- The second pass of `draw` over the font groups. -/
def snapshotGroups (redrawMap : List Bool) :
    List (Int × List CellData) → CanvasRenderer → CanvasRenderer
  | [], r => r
  | group :: groups, r => snapshotGroups redrawMap groups (snapshotLoop redrawMap group.2 r)

/-- `draw (why)`: the renderer after the pass and what the pass decided.  With a status
screen set it draws that instead and returns: `drawStatus` empties `drawnScreen`, to force
a redraw once the status screen is gone, and no cell is planned. -/
def draw (k : AttrBits) (wide : Option JSString → Bool) (r : CanvasRenderer) :
    CanvasRenderer × Option DrawPlan :=
  if r.statusScreen then ({ r with drawnScreen := [] }, none)
  else
    let cells := List.range (r.width * r.height)
    let u := updateLoop k r cells [] []
    let fontGroups := u.1
    let r1 := { r with drawnScreenLines := r.screenLines }
    let updateMap := if r.graphics ≥ 1 then fillHoles cells u.2 else u.2
    let m := redrawLoop wide r1 updateMap cells [] []
    let regions := if r.graphics ≥ 1 then clipRegions r.width r.height m.2 else none
    let r2 := { r1 with drawnCursor := DrawnCursor.mk (-1) (-1) (some []) (some false) }
    let r3 := snapshotGroups m.1 fontGroups r2
    (r3, some { updateMap := updateMap, redrawMap := m.1, maskedCells := m.2, regions := regions })

/-- `new CanvasRenderer (canvas)`: the fields as the constructor leaves them, an empty
screen with nothing drawn; `resetBlink ()` and `resetCursorBlink ()` turn both blink flags
on, and the cursor object is `{}`. -/
def new : CanvasRenderer :=
  { width := 0
    height := 0
    graphics := 0
    screen := []
    screenFG := []
    screenBG := []
    screenAttrs := []
    screenSelection := []
    screenLines := []
    cursor := { x := none, y := none, visible := false, style := none, hanging := none }
    cursorBlinkOn := true
    reverseVideo := false
    blinkStyleOn := true
    defaultFG := 7
    defaultBG := 0
    statusScreen := false
    drawnScreen := []
    drawnScreenFG := []
    drawnScreenBG := []
    drawnScreenAttrs := []
    drawnScreenLines := []
    drawnCursor := { x := -1, y := -1, style := some [], hanging := some false } }

/-- A renderer with a grid of 5 by 5 cells that all hold `A` in the default colours, drawn
when the cell of column 3, row 3 held `B`: a sample state, the one of a renderer after
`render` changed that one cell. -/
def sampleGrid : CanvasRenderer :=
  { new with
    width := 5
    height := 5
    screen := List.replicate 25 [0x41]
    drawnScreen := (List.replicate 25 (some (some [0x41]))).set 18 (some (some [0x42]))
    drawnScreenFG := List.replicate 25 (some 7)
    drawnScreenBG := List.replicate 25 (some 0)
    drawnScreenAttrs := List.replicate 25 (some 0) }

end CanvasRenderer

/-! ## Theorems: transport integers -/

/-- C1: for every integer `v` with `0 <= v < 127^2`, decoding at offset 0 the two-character
string produced by `encode2B` gives back `v`. -/
theorem parse2B_encode2B (v : Nat) (h : v < 127 ^ 2) :
    parse2B (encode2B v) 0 = some (v : Int) := by
  have h1 : (v - v % 127) / 127 = v / 127 := by omega
  have h2 : (v % 127 + 1) % 65536 = v % 127 + 1 := by omega
  have h3 : (v / 127 + 1) % 65536 = v / 127 + 1 := by omega
  simp only [encode2B, Chr, parse2B, charCodeAt, h1, h2, h3]
  simp
  omega

/-- Witness of C1 at the largest value of the range, `127^2 - 1`. -/
theorem parse2B_encode2B_witness :
    (16128 : Nat) < 127 ^ 2 ∧ parse2B (encode2B 16128) 0 = some ((16128 : Nat) : Int) :=
  ⟨by decide, parse2B_encode2B 16128 (by decide)⟩

/-- C2: for every integer `v` with `0 <= v < 127^3`, `encode3B v` is exactly three characters,
the little-endian base-127 digits of `v` each offset by `+1`, and `parse3B` gives back `v`. -/
theorem parse3B_encode3B (v : Nat) (h : v < 127 ^ 3) :
    encode3B v = [v % 127 + 1, v / 127 % 127 + 1, v / 127 / 127 % 127 + 1] ∧
    parse3B (encode3B v) 0 = some (v : Int) := by
  have h1 : (v - v % 127) / 127 = v / 127 := by omega
  have h1' : (v / 127 - v / 127 % 127) / 127 = v / 127 / 127 := by omega
  have h2 : (v % 127 + 1) % 65536 = v % 127 + 1 := by omega
  have h3 : (v / 127 % 127 + 1) % 65536 = v / 127 % 127 + 1 := by omega
  have h4 : (v / 127 / 127 + 1) % 65536 = v / 127 / 127 + 1 := by omega
  have h5 : v / 127 / 127 % 127 = v / 127 / 127 := by omega
  simp only [encode3B, Chr, parse3B, charCodeAt, h1, h1', h2, h3, h4, h5]
  simp
  omega

/-- Witness of C2 at the largest value of the range, `127^3 - 1`. -/
theorem parse3B_encode3B_witness :
    (2048382 : Nat) < 127 ^ 3 ∧
    (encode3B 2048382 = [2048382 % 127 + 1, 2048382 / 127 % 127 + 1, 2048382 / 127 / 127 % 127 + 1] ∧
      parse3B (encode3B 2048382) 0 = some ((2048382 : Nat) : Int)) :=
  ⟨by decide, parse3B_encode3B 2048382 (by decide)⟩

/-! ## Theorems: the parser -/

namespace ANSIParser

/-- A step never changes `joinChunks`. -/
theorem step_joinChunks (p : ANSIParser) (c : Nat) : (p.step c).2.joinChunks = p.joinChunks := by
  unfold ANSIParser.step
  show (ite _ _ _ : List Event × ANSIParser).2.joinChunks = _
  repeat' (first
    | rfl
    | (rw [apply_ite Prod.snd, apply_ite ANSIParser.joinChunks]
       refine ite_eq_iff'.mpr ⟨fun _ => ?_, fun _ => ?_⟩))

/-- In the Normal state a character from `0x20` on is written as it is. -/
theorem step_normal_printable (p : ANSIParser) (c : Nat) (hp : p.currentSequence = 0)
    (hc : 0x20 ≤ c) : p.step c = ([Event.write c], p) := by
  unfold ANSIParser.step
  show (ite _ _ _ : List Event × ANSIParser) = _
  rw [if_neg (by omega), if_neg (by omega), if_neg (by simp [hp]), if_neg (by omega),
    if_neg (by omega), if_neg (by omega), if_neg (by omega), if_neg (by omega),
    if_neg (by omega), if_neg (by omega), if_neg (by omega), if_neg (by omega),
    if_neg (by omega), if_neg (by omega), if_neg (by omega)]

/-- ESC always opens an escape: `currentSequence = 1`, the buffer is left as it is. -/
theorem step_esc (p : ANSIParser) :
    p.step 0x1b = ([], { p with currentSequence := 1 }) := by
  unfold ANSIParser.step
  show (ite _ _ _ : List Event × ANSIParser) = _
  rw [if_pos rfl]

/-- `[` right after ESC opens a CSI sequence. -/
theorem step_bracket (p : ANSIParser) (h : p.currentSequence = 1) :
    p.step 0x5b = ([], { p with currentSequence := 2, sequence := p.sequence ++ [0x5b] }) := by
  unfold ANSIParser.step
  show (ite _ _ _ : List Event × ANSIParser) = _
  rw [if_neg (by decide), if_pos ⟨h, rfl⟩]

/-- Inside a CSI sequence a character outside `0x40..0x7e` (and not ESC) is collected. -/
theorem step_collect (p : ANSIParser) (c : Nat) (h : 1 < p.currentSequence) (hc : c ≠ 0x1b)
    (hr : ¬ (0x40 ≤ c ∧ c ≤ 0x7e)) :
    p.step c = ([], { p with sequence := p.sequence ++ [c] }) := by
  unfold ANSIParser.step
  show (ite _ _ _ : List Event × ANSIParser) = _
  rw [if_neg hc, if_neg (by omega), if_neg (by omega), if_pos h]

/-- Inside a CSI sequence a character of `0x40..0x7e` ends the sequence and dispatches it. -/
theorem step_final (p : ANSIParser) (c : Nat) (h : 1 < p.currentSequence)
    (hr : 0x40 ≤ c ∧ c ≤ 0x7e) :
    p.step c = (ANSIParser.parseSequence (p.sequence ++ [c]),
      { p with currentSequence := 0, sequence := [] }) := by
  unfold ANSIParser.step
  show (ite _ _ _ : List Event × ANSIParser) = _
  rw [if_neg (by omega), if_neg (by omega), if_pos ⟨by omega, hr⟩]

/-- The loop never changes `joinChunks`. -/
theorem writeLoop_joinChunks (p : ANSIParser) (text : List Nat) :
    (p.writeLoop text).2.joinChunks = p.joinChunks := by
  induction text generalizing p with
  | nil => rfl
  | cons c text ih => simp only [ANSIParser.writeLoop, ih, step_joinChunks]

/-- The loop over two chunks, one after the other, is the loop over their concatenation. -/
theorem writeLoop_append (p : ANSIParser) (a b : List Nat) :
    p.writeLoop (a ++ b) =
      ((p.writeLoop a).1 ++ ((p.writeLoop a).2.writeLoop b).1, ((p.writeLoop a).2.writeLoop b).2) := by
  induction a generalizing p with
  | nil => simp [ANSIParser.writeLoop]
  | cons c a ih => simp [ANSIParser.writeLoop, ih, List.append_assoc]

/-- With `joinChunks` on, `write` is the loop alone. -/
theorem write_of_joinChunks (p : ANSIParser) (h : p.joinChunks = true) (text : List Nat) :
    p.write text = p.writeLoop text := by
  simp [ANSIParser.write, writeLoop_joinChunks, h]

/-- With an empty buffer, `ESC [ 2 J` makes exactly the handler call `clear`. -/
theorem writeLoop_clear (p : ANSIParser) (h : p.sequence = []) :
    p.writeLoop [0x1b, 0x5b, 0x32, 0x4a] =
      ([Event.clear], { p with currentSequence := 0, sequence := [] }) := by
  simp only [ANSIParser.writeLoop, step_esc]
  rw [step_bracket _ rfl]
  rw [step_collect _ 0x32 (by show 1 < 2; decide) (by decide) (by decide)]
  rw [step_final _ 0x4a (by show 1 < 2; decide) (by decide)]
  simp only [h]
  rfl

/-- C3: with `joinChunks = true` (as the constructor sets it), feeding a character stream to
`ANSIParser.write` chunk by chunk, for any splitting of the stream into consecutive chunks,
makes the same handler calls in the same order and ends in the same parser state as feeding
the whole stream in a single `write` call. -/
theorem writeChunks_eq_write (p : ANSIParser) (h : p.joinChunks = true)
    (chunks : List (List Nat)) :
    p.writeChunks chunks = p.write chunks.flatten := by
  induction chunks generalizing p with
  | nil => simp [ANSIParser.writeChunks, ANSIParser.write, ANSIParser.writeLoop, h]
  | cons chunk chunks ih =>
    have h1 : (p.writeLoop chunk).2.joinChunks = true := by rw [writeLoop_joinChunks, h]
    have h2 := ih (p.writeLoop chunk).2 h1
    rw [write_of_joinChunks _ h1] at h2
    simp only [ANSIParser.writeChunks, List.flatten_cons, write_of_joinChunks p h, h2,
      writeLoop_append]

/-- Witness of C3: `ESC [ 1 ; 3 1 m X` split in the middle of the escape sequence. -/
theorem writeChunks_eq_write_witness :
    ANSIParser.new.joinChunks = true ∧
    ANSIParser.new.writeChunks [[0x1b], [0x5b, 0x31, 0x3b], [0x33, 0x31, 0x6d, 0x58]] =
      ANSIParser.new.write [[0x1b], [0x5b, 0x31, 0x3b], [0x33, 0x31, 0x6d, 0x58]].flatten :=
  ⟨rfl, writeChunks_eq_write ANSIParser.new rfl _⟩

end ANSIParser

/-! ## Theorems: arrays -/

/-- An assignment inside the array replaces the element. -/
theorem arraySet_of_lt {α : Type} (a : List (Option α)) (n : Nat) (v : α) (h : n < a.length) :
    arraySet a (n : Int) v = a.set n (some v) := by
  simp only [arraySet, if_neg (not_lt.mpr (Int.ofNat_nonneg n)), Int.toNat_ofNat, if_pos h]

/-- An assignment at or past the end extends the array up to that index. -/
theorem arraySet_length_of_ge {α : Type} (a : List (Option α)) (i : Int) (v : α)
    (h0 : 0 ≤ i) (h : a.length ≤ i.toNat) : (arraySet a i v).length = i.toNat + 1 := by
  simp only [arraySet, if_neg (not_lt.mpr h0), if_neg (not_lt.mpr h)]
  simp
  omega

/-- Removing the first `w` elements with `splice (0, w)`. -/
theorem splice_zero_nil {α : Type} (a : List α) (w : Nat) :
    splice a 0 (w : Int) [] = a.drop w := by
  have hs : (if (0 : Int) < 0 then (max ((a.length : Int) + 0) 0).toNat
      else (min (0 : Int) (a.length : Int)).toNat) = 0 := by
    rw [if_neg (by omega)]; omega
  unfold splice
  simp only [hs]
  have hd : (min (max (w : Int) 0) ((a.length : Int) - ((0 : Nat) : Int))).toNat = min w a.length := by
    omega
  rw [hd]
  simp only [List.take_zero, List.nil_append, Nat.zero_add]
  rcases Nat.le_total w a.length with h | h
  · rw [Nat.min_eq_left h]
  · rw [Nat.min_eq_right h, List.drop_of_length_le h, List.drop_of_length_le (le_refl _)]

/-- Dropping past a prefix of known length, into a dropped tail. -/
theorem drop_append_drop {α : Type} (l s : List α) (n k m : Nat) (hl : l.length = n) :
    List.drop (n + k) (l ++ List.drop m s) = List.drop (m + k) s := by
  rw [(List.drop_drop k n (l ++ List.drop m s)).symm, List.drop_left' hl, List.drop_drop]

/-- Overwriting the element that follows an overwritten run extends the run. -/
theorem set_after_run {α : Type} (s m : List α) (n : Nat) (v : α)
    (h : n + m.length < s.length) :
    (s.take n ++ m ++ s.drop (n + m.length)).set (n + m.length) v =
      s.take n ++ (m ++ [v]) ++ s.drop (n + m.length + 1) := by
  have hl : (s.take n ++ m).length = n + m.length := by
    rw [List.length_append, List.length_take, Nat.min_eq_left (by omega)]
  rw [List.set_append_right _ _ (by rw [hl]), hl, Nat.sub_self, List.drop_eq_getElem_cons h,
    List.set_cons_zero]
  simp only [List.append_assoc, List.singleton_append]

/-! ## Theorems: the terminal is the parser followed by the handler -/

namespace ScrollingTerminal

/-- The handler neither reads nor writes the parser. -/
theorem withParser_handleParsed (t : ScrollingTerminal) (p : ANSIParser) (e : Event) :
    handleParsed (withParser p t) e = Except.map (withParser p) (handleParsed t e) := by
  cases e <;> first
    | rfl
    | (simp only [handleParsed, withParser, writeChar, newLine, scroll, moveBack, moveBackStep,
        pure, Except.pure, Except.map]
       split_ifs <;> rfl)

/-- A run of handler calls neither reads nor writes the parser. -/
theorem withParser_handleAll (t : ScrollingTerminal) (p : ANSIParser) (es : List Event) :
    handleAll (withParser p t) es = Except.map (withParser p) (handleAll t es) := by
  induction es generalizing t with
  | nil => rfl
  | cons e es ih =>
    simp only [handleAll, withParser_handleParsed]
    cases h : handleParsed t e with
    | error err => rfl
    | ok t1 => simpa [Except.map] using ih t1

/-- Handler calls of two lists, one after the other. -/
theorem handleAll_append (t : ScrollingTerminal) (es fs : List Event) :
    handleAll t (es ++ fs) =
      (match handleAll t es with
        | Except.ok t1 => handleAll t1 fs
        | Except.error err => Except.error err) := by
  induction es generalizing t with
  | nil => rfl
  | cons e es ih =>
    simp only [List.cons_append, handleAll]
    cases h : handleParsed t e with
    | error err => rfl
    | ok t1 => simpa using ih t1

/-- The loop of the terminal is the loop of the parser, its handler calls applied in order. -/
theorem writeLoop_eq_handleAll (t : ScrollingTerminal) (text : List Nat) :
    writeLoop t text =
      Except.map (withParser (t.parser.writeLoop text).2)
        (handleAll t (t.parser.writeLoop text).1) := by
  induction text generalizing t with
  | nil => cases t; rfl
  | cons c text ih =>
    simp only [writeLoop, ANSIParser.writeLoop, handleAll_append]
    cases h : handleAll t (t.parser.step c).1 with
    | error err => rfl
    | ok t1 =>
      have := ih (withParser (t.parser.step c).2 t1)
      simp only [withParser] at this ⊢
      rw [this]
      have h2 := withParser_handleAll t1 (t.parser.step c).2
        (ANSIParser.writeLoop (t.parser.step c).2 text).1
      simp only [withParser] at h2
      rw [h2]
      cases handleAll t1 (ANSIParser.writeLoop (t.parser.step c).2 text).1 <;> rfl

/-- A call of `write` on the terminal is `ANSIParser.write`, its handler calls applied in order. -/
theorem write_eq_handleAll (t : ScrollingTerminal) (text : List Nat) :
    write t text =
      Except.map (withParser (t.parser.write text).2)
        (handleAll t (t.parser.write text).1) := by
  have h1 : (t.parser.write text).1 = (t.parser.writeLoop text).1 := by
    rw [ANSIParser.write]; split <;> rfl
  rw [write, writeLoop_eq_handleAll, h1]
  cases handleAll t (t.parser.writeLoop text).1 with
  | error err => rfl
  | ok t1 =>
    by_cases h : (t.parser.writeLoop text).2.joinChunks = true <;>
      simp [ANSIParser.write, Except.map, withParser, h, pure, Except.pure]

/-! ## Theorems: writing, wrapping and scrolling -/

/-- The grid of a new terminal: 2000 default blanks. -/
theorem new_screen : new.screen = List.replicate 2000 (some blank) := rfl

/-- The grid of a new terminal has `80 * 25` cells. -/
theorem new_screen_length : new.screen.length = 2000 := by
  rw [new_screen]
  exact List.length_replicate _ _

/-- A write before the last column: the cell is stored and the cursor moves right. -/
theorem writeChar_of_lt (t : ScrollingTerminal) (c : Nat) (hx : t.cursor.x + 1 < t.width) :
    writeChar t c = { t with
      screen := arraySet t.screen (t.cursor.y * t.width + t.cursor.x)
        { character := c, style := t.style }
      cursor := { t.cursor with x := t.cursor.x + 1 } } := by
  simp only [writeChar, ge_iff_le, if_neg (not_le.mpr hx)]

/-- A write that reaches the width above the last row: the cursor wraps to the next row. -/
theorem writeChar_wrap (t : ScrollingTerminal) (c : Nat) (hx : (t.width : Int) ≤ t.cursor.x + 1)
    (hy : t.cursor.y + 1 < t.height) :
    writeChar t c = { t with
      screen := arraySet t.screen (t.cursor.y * t.width + t.cursor.x)
        { character := c, style := t.style }
      cursor := { t.cursor with x := 0, y := t.cursor.y + 1 } } := by
  simp only [writeChar, newLine, ge_iff_le, if_pos hx, if_neg (not_le.mpr hy)]

/-- A write that reaches the width on the last row: the cursor wraps and the grid scrolls. -/
theorem writeChar_wrap_scroll (t : ScrollingTerminal) (c : Nat)
    (hx : (t.width : Int) ≤ t.cursor.x + 1) (hy : (t.height : Int) ≤ t.cursor.y + 1) :
    writeChar t c = { t with
      screen := splice (arraySet t.screen (t.cursor.y * t.width + t.cursor.x)
        { character := c, style := t.style }) 0 t.width [] ++ List.replicate t.width (some blank)
      cursor := { t.cursor with x := 0, y := t.cursor.y + 1 - 1 } } := by
  simp only [writeChar, newLine, scroll, ge_iff_le, if_pos hx, if_pos hy]

/-- A write that stays inside the row, on a cursor inside the grid. -/
theorem writeChar_inside (t : ScrollingTerminal) (c x y : Nat) (hx : t.cursor.x = x)
    (hy : t.cursor.y = y) (hlt : x + 1 < t.width) (hlen : y * t.width + x < t.screen.length) :
    writeChar t c = { t with
      screen := t.screen.set (y * t.width + x) (some { character := c, style := t.style })
      cursor := { t.cursor with x := ((x + 1 : Nat) : Int) } } := by
  have hidx : t.cursor.y * (t.width : Int) + t.cursor.x = ((y * t.width + x : Nat) : Int) := by
    rw [hx, hy]; push_cast; rfl
  rw [writeChar_of_lt t c (by rw [hx]; omega), hidx, arraySet_of_lt _ _ _ hlen, hx]
  rfl

/-- The last write of a row, above the last row: the cursor wraps to the next row. -/
theorem writeChar_last_column (t : ScrollingTerminal) (c x y : Nat) (hx : t.cursor.x = x)
    (hy : t.cursor.y = y) (hw : x + 1 = t.width) (hrow : y + 1 < t.height)
    (hlen : y * t.width + x < t.screen.length) :
    writeChar t c = { t with
      screen := t.screen.set (y * t.width + x) (some { character := c, style := t.style })
      cursor := { t.cursor with x := 0, y := ((y + 1 : Nat) : Int) } } := by
  have hidx : t.cursor.y * (t.width : Int) + t.cursor.x = ((y * t.width + x : Nat) : Int) := by
    rw [hx, hy]; push_cast; rfl
  rw [writeChar_wrap t c (by rw [hx]; omega) (by rw [hy]; omega), hidx,
    arraySet_of_lt _ _ _ hlen, hy]
  rfl

/-- A write leaves the parser alone. -/
theorem parser_writeChar (t : ScrollingTerminal) (c : Nat) :
    (writeChar t c).parser = t.parser := by
  simp only [writeChar, newLine, scroll]
  split_ifs <;> rfl

/-- Characters written one after the other while the cursor stays inside its row. -/
theorem foldl_writeChar_inside (cs : List Nat) (t : ScrollingTerminal) (x y : Nat)
    (hx : t.cursor.x = x) (hy : t.cursor.y = y) (hlt : x + cs.length < t.width)
    (hlen : (y + 1) * t.width ≤ t.screen.length) :
    cs.foldl writeChar t = { t with
      screen := t.screen.take (y * t.width + x) ++
        cs.map (fun ch => some { character := ch, style := t.style }) ++
        t.screen.drop (y * t.width + x + cs.length)
      cursor := { t.cursor with x := ((x + cs.length : Nat) : Int) } } := by
  induction cs generalizing t x with
  | nil =>
    simp only [List.foldl_nil, List.map_nil, List.append_nil, List.length_nil, Nat.add_zero,
      List.take_append_drop, ← hx]
  | cons c cs ih =>
    have hn : y * t.width + x < t.screen.length := by
      have : (y + 1) * t.width = y * t.width + t.width := by ring
      simp only [List.length_cons] at hlt
      omega
    simp only [List.length_cons] at hlt
    have hstep := writeChar_inside t c x y hx hy (by omega) hn
    have key := ih (writeChar t c) (x + 1) (by rw [hstep]) (by rw [hstep]; exact hy)
      (by rw [hstep]; show x + 1 + cs.length < t.width; omega)
      (by rw [hstep]; show (y + 1) * t.width ≤ (t.screen.set _ _).length
          rw [List.length_set]; exact hlen)
    rw [List.foldl_cons, key, hstep]
    have h1 : (t.screen.set (y * t.width + x) (some { character := c, style := t.style })).take
        (y * t.width + (x + 1)) = t.screen.take (y * t.width + x) ++
          [some { character := c, style := t.style }] := by
      rw [← Nat.add_assoc, List.take_succ, List.getElem?_set_self hn, List.set_take,
        List.set_eq_of_length_le (by rw [List.length_take]; omega)]
      rfl
    have h2 : (t.screen.set (y * t.width + x) (some { character := c, style := t.style })).drop
        (y * t.width + (x + 1) + cs.length) = t.screen.drop (y * t.width + x + (cs.length + 1)) := by
      rw [List.drop_set_of_lt _ _ (by omega)]
      congr 1
      omega
    simp only [h1, h2, List.map_cons, List.length_cons, List.append_assoc, List.singleton_append,
      List.cons_append, List.nil_append]
    congr 2
    push_cast
    omega

/-- Characters written up to the last column of a row above the last one: the cursor ends
at column 0 of the next row. -/
theorem foldl_writeChar_to_row_end (cs : List Nat) (t : ScrollingTerminal) (x y : Nat)
    (hne : cs ≠ []) (hx : t.cursor.x = x) (hy : t.cursor.y = y)
    (hw : x + cs.length = t.width) (hrow : y + 1 < t.height)
    (hlen : (y + 1) * t.width ≤ t.screen.length) :
    cs.foldl writeChar t = { t with
      screen := t.screen.take (y * t.width + x) ++
        cs.map (fun ch => some { character := ch, style := t.style }) ++
        t.screen.drop (y * t.width + x + cs.length)
      cursor := { t.cursor with x := 0, y := ((y + 1 : Nat) : Int) } } := by
  obtain ⟨init, last, rfl⟩ : ∃ init last, cs = init ++ [last] :=
    ⟨cs.dropLast, cs.getLast hne, (List.dropLast_concat_getLast hne).symm⟩
  simp only [List.length_append, List.length_singleton] at hw
  have hmul : (y + 1) * t.width = y * t.width + t.width := by ring
  have hin := foldl_writeChar_inside init t x y hx hy (by omega) hlen
  have hlast := writeChar_last_column (init.foldl writeChar t) last (x + init.length) y
    (by rw [hin]) (by rw [hin]; exact hy) (by rw [hin]; show x + init.length + 1 = t.width; omega)
    (by rw [hin]; exact hrow)
    (by rw [hin]
        show y * t.width + (x + init.length) < (_ ++ _ ++ _ : List (Option Cell)).length
        simp only [List.length_append, List.length_take, List.length_map, List.length_drop]
        omega)
  rw [List.foldl_append, List.foldl_cons, List.foldl_nil, hlast, hin]
  have hs := set_after_run t.screen (init.map (fun ch => some { character := ch, style := t.style }))
    (y * t.width + x) (some { character := last, style := t.style })
    (by rw [List.length_map]; omega)
  simp only [List.length_map] at hs
  simp only [← Nat.add_assoc, hs, List.map_append, List.map_cons, List.map_nil,
    List.length_append, List.length_singleton]

/-- In the Normal state, characters from `0x20` on go straight to `writeChar`. -/
theorem writeLoop_printable (cs : List Nat) (t : ScrollingTerminal)
    (hp : t.parser.currentSequence = 0) (hcs : ∀ ch ∈ cs, 0x20 ≤ ch) :
    writeLoop t cs = Except.ok (cs.foldl writeChar t) := by
  induction cs generalizing t with
  | nil => rfl
  | cons c cs ih =>
    have hc : 0x20 ≤ c := hcs c (List.mem_cons_self _ _)
    have hstep := ANSIParser.step_normal_printable t.parser c hp hc
    have hsame : ({ writeChar t c with parser := t.parser } : ScrollingTerminal) = writeChar t c := by
      rw [← parser_writeChar t c]
    simp only [writeLoop, hstep, handleAll, handleParsed, pure, Except.pure, hsame, List.foldl_cons]
    exact ih _ (by rw [parser_writeChar]; exact hp) (fun ch h => hcs ch (List.mem_cons_of_mem _ h))

/-- In the Normal state, a chunk of characters from `0x20` on is written cell by cell. -/
theorem write_printable (cs : List Nat) (t : ScrollingTerminal)
    (hp : t.parser.currentSequence = 0) (hcs : ∀ ch ∈ cs, 0x20 ≤ ch) :
    ∃ p, write t cs = Except.ok (withParser p (cs.foldl writeChar t)) := by
  rw [write, writeLoop_printable cs t hp hcs]
  simp only [pure, Except.pure]
  split
  · exact ⟨(cs.foldl writeChar t).parser, rfl⟩
  · exact ⟨(cs.foldl writeChar t).parser.reset, rfl⟩

/-- A new line on the last row scrolls: the state it leaves. -/
theorem newLine_of_last_row (t : ScrollingTerminal) (hy : (t.height : Int) ≤ t.cursor.y + 1) :
    newLine t = { t with
      screen := t.screen.drop t.width ++ List.replicate t.width (some blank)
      cursor := { t.cursor with y := t.cursor.y + 1 - 1 } } := by
  simp only [newLine, scroll, ge_iff_le, if_pos hy, splice_zero_nil]

/-- The handler calls of `ESC [ 1 ; 3 f ; 4 b m X` for `f` and `b` in `0..7`. -/
theorem sgr_events (f b : Nat) (hf : f < 8) (hb : b < 8) :
    ANSIParser.new.write [0x1b, 0x5b, 0x31, 0x3b, 0x33, 0x30 + f, 0x3b, 0x34, 0x30 + b, 0x6d, 0x58]
      = ([Event.addAttrs (1 <<< 2), Event.setColorFg f, Event.setColorBg b, Event.write 0x58],
          ANSIParser.new) := by
  interval_cases f <;> interval_cases b <;> rfl

/-- With an empty parser buffer, `ESC [ 2 J` is `clear ()`. -/
theorem write_clear (t : ScrollingTerminal) (h : t.parser.sequence = []) :
    ∃ p, write t [0x1b, 0x5b, 0x32, 0x4a] = Except.ok (withParser p (clear t)) := by
  have h1 : (t.parser.write [0x1b, 0x5b, 0x32, 0x4a]).1 = [Event.clear] := by
    rw [ANSIParser.write, ANSIParser.writeLoop_clear _ h]; split <;> rfl
  rw [write_eq_handleAll, h1]
  exact ⟨_, rfl⟩

/-! ## Theorems: cursor and grid bounds -/

/-- C4 (the code breaks the claim): on a new terminal the input `ESC [ 1 0 0 G` is accepted
and leaves the cursor at column 99 although the width is 80, and `ESC [ 0 G` leaves it at
column -1, so `0 <= x < width` fails.  The action `set-cursor-x` stores the column without
the `clampCursor ()` call that the other motion actions make. -/
theorem set_cursor_x_leaves_grid :
    (∃ t, write new [0x1b, 0x5b, 0x31, 0x30, 0x30, 0x47] = Except.ok t ∧
      t.cursor.x = 99 ∧ t.width = 80 ∧ ¬ (t.cursor.x < t.width)) ∧
    (∃ t, write new [0x1b, 0x5b, 0x30, 0x47] = Except.ok t ∧
      t.cursor.x = -1 ∧ ¬ (0 ≤ t.cursor.x)) := by
  have hev : new.parser.write [0x1b, 0x5b, 0x31, 0x30, 0x30, 0x47] =
      ([Event.setCursorX 99], ANSIParser.new) := by decide
  have hev0 : new.parser.write [0x1b, 0x5b, 0x30, 0x47] =
      ([Event.setCursorX (-1)], ANSIParser.new) := by decide
  constructor
  · rw [write_eq_handleAll, hev]
    exact ⟨_, rfl, rfl, rfl, by decide⟩
  · rw [write_eq_handleAll, hev0]
    exact ⟨_, rfl, rfl, by decide⟩

/-- C5 (the code breaks the claim): on a new terminal the input `ESC [ 2 5 ; 1 H`,
`ESC [ 1 0 0 G`, `X` is accepted and leaves a cell array of 2020 elements although
`width * height` is 2000.  The write lands at index `24 * 80 + 99`, past the end of the
array, because `set-cursor-x` left the column unclamped. -/
theorem write_past_grid_end_grows_screen :
    ∃ t, write new [0x1b, 0x5b, 0x32, 0x35, 0x3b, 0x31, 0x48, 0x1b, 0x5b, 0x31, 0x30, 0x30, 0x47,
        0x58] = Except.ok t ∧
      t.width * t.height = 2000 ∧ t.screen.length = 2020 := by
  have hev : new.parser.write [0x1b, 0x5b, 0x32, 0x35, 0x3b, 0x31, 0x48, 0x1b, 0x5b, 0x31,
      0x30, 0x30, 0x47, 0x58] =
      ([Event.setCursor 24 0, Event.setCursorX 99, Event.write 0x58], ANSIParser.new) := by decide
  have h1 : handleParsed new (Event.setCursor 24 0) = Except.ok { new with
      cursor := { x := 0, y := 24, style := 1, visible := true } } := rfl
  have h2 : handleParsed { new with cursor := { x := 0, y := 24, style := 1, visible := true } }
      (Event.setCursorX 99) = Except.ok { new with
      cursor := { x := 99, y := 24, style := 1, visible := true } } := rfl
  rw [write_eq_handleAll, hev]
  simp only [handleAll, h1, h2]
  simp only [handleParsed, pure, Except.pure]
  rw [writeChar_wrap_scroll _ _ (by decide) (by decide)]
  refine ⟨_, rfl, rfl, ?_⟩
  show (splice (arraySet new.screen _ _) 0 ((80 : Nat) : Int) [] ++
    List.replicate 80 (some blank)).length = 2020
  rw [splice_zero_nil, List.length_append, List.length_replicate, List.length_drop,
    arraySet_length_of_ge _ _ _ (by decide) (by rw [new_screen_length]; decide)]
  decide

/-! ## Theorems: style, clearing, line wrap and scroll -/

/-- C6: for all `f` and `b` in `0..7`, a new (reset) terminal that processes
`ESC [ 1 ; 3 f ; 4 b m` followed by the character `X` accepts the input and holds at cell
`(0, 0)` the glyph `X` with foreground `f`, background `b` and the attribute word made of
exactly the bits bold (`1 << 2`), foreground-explicit (`1`) and background-explicit
(`1 << 1`). -/
theorem sgr_bold_colours_then_write (f b : Nat) (hf : f < 8) (hb : b < 8) :
    ∃ t, write new [0x1b, 0x5b, 0x31, 0x3b, 0x33, 0x30 + f, 0x3b, 0x34, 0x30 + b, 0x6d, 0x58]
        = Except.ok t ∧
      t.screen[0]? = some (some (Cell.mk 0x58 (Style.mk f b ((1 <<< 2) ||| 1 ||| (1 <<< 1))))) := by
  have hp : new.parser = ANSIParser.new := rfl
  rw [write_eq_handleAll, hp, sgr_events f b hf hb]
  simp only [handleAll, handleParsed, pure, Except.pure]
  rw [writeChar_inside _ _ 0 0 rfl rfl (by show 0 + 1 < 80; decide)
    (by show 0 * 80 + 0 < new.screen.length; rw [new_screen_length]; decide)]
  refine ⟨_, rfl, ?_⟩
  show (new.screen.set (0 * 80 + 0) _)[0]? = _
  rw [List.getElem?_set_self (by rw [new_screen_length]; decide)]
  rfl

/-- Witness of C6, the sequence `ESC [ 1 ; 3 1 ; 4 4 m` of the specification: foreground 1,
background 4, bold set. -/
theorem sgr_bold_colours_then_write_witness :
    ∃ t, write new [0x1b, 0x5b, 0x31, 0x3b, 0x33, 0x31, 0x3b, 0x34, 0x34, 0x6d, 0x58]
        = Except.ok t ∧
      t.screen[0]? = some (some (Cell.mk 0x58 (Style.mk 1 4 7))) :=
  sgr_bold_colours_then_write 1 4 (by decide) (by decide)

/-- C7 (the code breaks the claim): on a new terminal `ESC [ 1 m` then `ESC [ 0 m` leaves the
pen bold (attributes 4) instead of the default style, and `ESC [ 0 ; 1 m` leaves the pen at
the default style instead of setting bold. The loop `while ((type = numbers.shift()))` stops
at the code `0`, so its branch `type === 0` is never taken. -/
theorem sgr_zero_does_not_reset :
    (∃ t, write new [0x1b, 0x5b, 0x31, 0x6d, 0x1b, 0x5b, 0x30, 0x6d] = Except.ok t ∧
      t.style = { fg := 0, bg := 0, attrs := 4 }) ∧
    (∃ t, write new [0x1b, 0x5b, 0x30, 0x3b, 0x31, 0x6d] = Except.ok t ∧
      t.style = TERM_DEFAULT_STYLE) := by
  have hev1 : new.parser.write [0x1b, 0x5b, 0x31, 0x6d, 0x1b, 0x5b, 0x30, 0x6d] =
      ([Event.addAttrs 4], ANSIParser.new) := by decide
  have hev2 : new.parser.write [0x1b, 0x5b, 0x30, 0x3b, 0x31, 0x6d] =
      ([], ANSIParser.new) := by decide
  constructor
  · rw [write_eq_handleAll, hev1]
    exact ⟨_, rfl, rfl⟩
  · rw [write_eq_handleAll, hev2]
    exact ⟨_, rfl, rfl⟩

/-- C8 (as amended): for every terminal state (any pen, any cursor, any grid) whose parser
buffer is empty, processing `ESC [ 2 J` is accepted and leaves a grid of `width * height`
cells, each a blank `' '` carrying the style of the current pen (the default style only when
the pen is the default one); the cursor and the pen are unchanged. -/
theorem clear_fills_with_pen (t : ScrollingTerminal) (h : t.parser.sequence = []) :
    ∃ t', write t [0x1b, 0x5b, 0x32, 0x4a] = Except.ok t' ∧
      t'.screen = List.replicate (t.width * t.height) (some (Cell.mk 0x20 t.style)) ∧
      t'.cursor = t.cursor ∧ t'.style = t.style := by
  obtain ⟨p, hp⟩ := write_clear t h
  exact ⟨_, hp, rfl, rfl, rfl⟩

/-- Witness of C8 (as amended) on a new terminal. -/
theorem clear_fills_with_pen_witness :
    ∃ t', write new [0x1b, 0x5b, 0x32, 0x4a] = Except.ok t' ∧
      t'.screen = List.replicate (new.width * new.height) (some (Cell.mk 0x20 new.style)) ∧
      t'.cursor = new.cursor ∧ t'.style = new.style :=
  clear_fills_with_pen new rfl

/-- C8 (counterexample to the claim as stated): with a bold pen (attributes 4), `ESC [ 2 J`
leaves cell 0 a blank with the attributes 4 of the pen, which is not the blank with the
default style. -/
theorem clear_not_default_style :
    ∃ t', write { new with style := { fg := 0, bg := 0, attrs := 4 } } [0x1b, 0x5b, 0x32, 0x4a]
        = Except.ok t' ∧
      t'.screen[0]? = some (some (Cell.mk 0x20 { fg := 0, bg := 0, attrs := 4 })) ∧
      t'.screen[0]? ≠ some (some blank) := by
  obtain ⟨p, hp⟩ := write_clear { new with style := { fg := 0, bg := 0, attrs := 4 } } rfl
  have h0 : (withParser p (clear { new with style := { fg := 0, bg := 0, attrs := 4 } })).screen[0]?
      = some (some (Cell.mk 0x20 { fg := 0, bg := 0, attrs := 4 })) := by
    show (List.replicate (80 * 25) _)[0]? = _
    rw [List.getElem?_replicate_of_lt (by decide)]
  refine ⟨_, hp, h0, ?_⟩
  rw [h0]
  decide

/-- C9: take a terminal at least 2 columns wide with a full grid, the parser in the Normal state
and the cursor at column 0 of a row `y < height - 1`. Writing `width` characters from `0x20`
on, followed by one more, is accepted, moves the cursor down by exactly one row (one new
line, no scroll: every cell outside the written ones is where it was) and leaves it at
column 1, with the first `width` characters stored in row `y` and the last one at column 0
of row `y + 1`, all with the style of the pen. -/
theorem write_full_row_then_one (t : ScrollingTerminal) (cs : List Nat) (c y : Nat)
    (hp : t.parser.currentSequence = 0) (hw : 2 ≤ t.width)
    (hlen : t.screen.length = t.width * t.height)
    (hx : t.cursor.x = 0) (hy : t.cursor.y = y) (hrow : y + 1 < t.height)
    (hcs : cs.length = t.width) (hpr : ∀ ch ∈ cs, 0x20 ≤ ch) (hc : 0x20 ≤ c) :
    ∃ t', write t (cs ++ [c]) = Except.ok t' ∧
      t'.cursor.x = 1 ∧ t'.cursor.y = (y : Int) + 1 ∧
      t'.screen = t.screen.take (y * t.width) ++
        (cs ++ [c]).map (fun ch => some (Cell.mk ch t.style)) ++
        t.screen.drop ((y + 1) * t.width + 1) := by
  have hmul : (y + 1) * t.width = y * t.width + t.width := by ring
  have hle : (y + 1 + 1) * t.width ≤ t.width * t.height := by
    rw [Nat.mul_comm t.width]; exact Nat.mul_le_mul_right _ hrow
  have hmul2 : (y + 1 + 1) * t.width = (y + 1) * t.width + t.width := by ring
  have hne : cs ≠ [] := by
    intro h; rw [h] at hcs; simp at hcs; omega
  have hall : ∀ ch ∈ cs ++ [c], 0x20 ≤ ch := by
    intro ch h
    rcases List.mem_append.mp h with h | h
    · exact hpr ch h
    · rw [List.mem_singleton.mp h]; exact hc
  have hrowend := foldl_writeChar_to_row_end cs t 0 y hne hx hy (by omega) hrow (by omega)
  have hone := foldl_writeChar_inside [c] (cs.foldl writeChar t) 0 (y + 1)
    (by rw [hrowend]; rfl) (by rw [hrowend])
    (by rw [hrowend]; show 0 + 1 < t.width; omega)
    (by rw [hrowend]
        show (y + 1 + 1) * t.width ≤ (_ ++ _ ++ _ : List (Option Cell)).length
        simp only [List.length_append, List.length_take, List.length_map, List.length_drop]
        omega)
  obtain ⟨p, hwrite⟩ := write_printable (cs ++ [c]) t hp hall
  rw [List.foldl_append, hone, hrowend] at hwrite
  refine ⟨_, hwrite, ?_, ?_, ?_⟩
  · rfl
  · show ((y + 1 : Nat) : Int) = (y : Int) + 1
    exact Int.ofNat_succ y
  · show List.take ((y + 1) * t.width + 0) (_ ++ _ ++ _) ++ _ ++
      List.drop ((y + 1) * t.width + 0 + _) (_ ++ _ ++ _) = _
    have hl : (List.take (y * t.width + 0) t.screen ++
        List.map (fun ch => some ({ character := ch, style := t.style } : Cell)) cs).length
          = (y + 1) * t.width + 0 := by
      rw [List.length_append, List.length_take, List.length_map, Nat.min_eq_left (by omega)]
      omega
    rw [List.take_left' hl]
    rw [drop_append_drop _ _ _ _ _ hl]
    simp only [Nat.add_zero, List.map_append, List.map_cons, List.map_nil, List.append_assoc,
      List.length_singleton, hcs, hmul]

/-- Witness of C9: eighty `A` and one `B` on a new terminal. -/
theorem write_full_row_then_one_witness :
    ∃ t', write new (List.replicate 80 0x41 ++ [0x42]) = Except.ok t' ∧
      t'.cursor.x = 1 ∧ t'.cursor.y = ((0 : Nat) : Int) + 1 ∧
      t'.screen = new.screen.take (0 * new.width) ++
        (List.replicate 80 0x41 ++ [0x42]).map (fun ch => some (Cell.mk ch new.style)) ++
        new.screen.drop ((0 + 1) * new.width + 1) :=
  write_full_row_then_one new (List.replicate 80 0x41) 0x42 0 rfl (by decide)
    (new_screen_length.trans (by decide)) rfl rfl (by decide) (List.length_replicate _ _)
    (fun ch h => by rw [List.eq_of_mem_replicate h]; decide) (by decide)

/-- C10: for every terminal state with a full grid and the cursor on the last row, `newLine ()`
scrolls: the grid keeps its `width * height` cells, cell `i` is the old cell `i + width` for
every `i < width * (height - 1)` (the old top row is gone), the bottom row is `width` blanks
with the default style, the cursor row is one less than the incremented row, that is still
`height - 1` and not negative, and the column is unchanged. -/
theorem newLine_on_last_row_scrolls (t : ScrollingTerminal)
    (hlen : t.screen.length = t.width * t.height)
    (hy : t.cursor.y = (t.height : Int) - 1) (hy0 : 0 ≤ t.cursor.y) :
    (newLine t).screen.length = t.width * t.height ∧
    (∀ i, i < t.width * (t.height - 1) → (newLine t).screen[i]? = t.screen[i + t.width]?) ∧
    (∀ i, t.width * (t.height - 1) ≤ i → i < t.width * t.height →
      (newLine t).screen[i]? = some (some blank)) ∧
    (newLine t).cursor.y = (t.cursor.y + 1) - 1 ∧
    (newLine t).cursor.y = (t.height : Int) - 1 ∧
    0 ≤ (newLine t).cursor.y ∧
    (newLine t).cursor.x = t.cursor.x := by
  obtain ⟨k, hk⟩ : ∃ k, t.height = k + 1 := ⟨t.height - 1, by omega⟩
  have hmul : t.width * t.height = t.width * k + t.width := by rw [hk, Nat.mul_succ]
  have hsub : t.width * (t.height - 1) = t.width * k := by rw [hk, Nat.add_sub_cancel]
  have hd : (t.screen.drop t.width).length = t.width * k := by
    rw [List.length_drop, hlen, hmul, Nat.add_sub_cancel]
  rw [newLine_of_last_row t (by omega), hsub, hmul]
  refine ⟨?_, ?_, ?_, rfl, ?_, ?_, rfl⟩
  · show (t.screen.drop t.width ++ List.replicate t.width (some blank)).length = _
    rw [List.length_append, hd, List.length_replicate]
  · intro i hi
    show (t.screen.drop t.width ++ List.replicate t.width (some blank))[i]? = _
    rw [List.getElem?_append_left (by rw [hd]; exact hi), List.getElem?_drop, Nat.add_comm]
  · intro i hi1 hi2
    show (t.screen.drop t.width ++ List.replicate t.width (some blank))[i]? = _
    rw [List.getElem?_append_right (by rw [hd]; exact hi1), hd,
      List.getElem?_replicate_of_lt (by omega)]
  · show t.cursor.y + 1 - 1 = (t.height : Int) - 1
    omega
  · show 0 ≤ t.cursor.y + 1 - 1
    omega

/-- Witness of C10: a new terminal with the cursor moved to row 24. -/
theorem newLine_on_last_row_scrolls_witness :
    (newLine { new with cursor := { new.cursor with y := 24 } }).screen.length = 80 * 25 ∧
    (∀ i, i < 80 * (25 - 1) →
      (newLine { new with cursor := { new.cursor with y := 24 } }).screen[i]? =
        new.screen[i + 80]?) ∧
    (∀ i, 80 * (25 - 1) ≤ i → i < 80 * 25 →
      (newLine { new with cursor := { new.cursor with y := 24 } }).screen[i]? =
        some (some blank)) ∧
    (newLine { new with cursor := { new.cursor with y := 24 } }).cursor.y = (24 + 1) - 1 ∧
    (newLine { new with cursor := { new.cursor with y := 24 } }).cursor.y = ((25 : Nat) : Int) - 1 ∧
    0 ≤ (newLine { new with cursor := { new.cursor with y := 24 } }).cursor.y ∧
    (newLine { new with cursor := { new.cursor with y := 24 } }).cursor.x = 0 :=
  newLine_on_last_row_scrolls { new with cursor := { new.cursor with y := 24 } }
    (new_screen_length.trans (by decide)) (by decide) (by decide)

end ScrollingTerminal

/-! ## Theorems: 32-bit arithmetic and flag bits -/

/-- A natural number below `2^31` is its own `ToInt32`. -/
theorem toInt32_natCast (n : Nat) (h : n < 2147483648) : toInt32 (n : Int) = (n : Int) := by
  unfold toInt32
  simp only
  split <;> omega

/-- A natural number below `2^32` is its own `ToUint32`. -/
theorem toUint32_natCast (n : Nat) (h : n < 4294967296) : toUint32 (n : Int) = n := by
  unfold toUint32
  omega

/-- The operator `|` on naturals below `2^31` is the bitwise or. -/
theorem or32_natCast (a b : Nat) (ha : a < 2 ^ 31) (hb : b < 2 ^ 31) :
    or32 (a : Int) (b : Int) = ((a ||| b : Nat) : Int) := by
  have hab : a ||| b < 2 ^ 31 := Nat.or_lt_two_pow ha hb
  unfold or32
  rw [toUint32_natCast a (by omega), toUint32_natCast b (by omega)]
  exact toInt32_natCast _ (by omega)

/-- The operator `&` on naturals below `2^31` is the bitwise and. -/
theorem and32_natCast (a b : Nat) (ha : a < 2 ^ 31) (hb : b < 2 ^ 31) :
    and32 (a : Int) (b : Int) = ((a &&& b : Nat) : Int) := by
  have hab : a &&& b ≤ a := Nat.and_le_left
  unfold and32
  rw [toUint32_natCast a (by omega), toUint32_natCast b (by omega)]
  exact toInt32_natCast _ (by omega)

/-- The operator `<<` is a multiplication while the result stays below `2^31`. -/
theorem shl32_natCast (a k : Nat) (hk : k < 32) (h : a * 2 ^ k < 2147483648) :
    shl32 (a : Int) k = ((a * 2 ^ k : Nat) : Int) := by
  have ha : a < 2147483648 := by
    have : 1 ≤ 2 ^ k := Nat.one_le_two_pow
    calc a = a * 1 := (Nat.mul_one a).symm
      _ ≤ a * 2 ^ k := Nat.mul_le_mul_left a this
      _ < 2147483648 := h
  unfold shl32
  rw [toInt32_natCast a ha, Nat.mod_eq_of_lt hk]
  have : ((a : Int) * 2 ^ k) = ((a * 2 ^ k : Nat) : Int) := by push_cast; rfl
  rw [this]
  exact toInt32_natCast _ h

/-- The packed 24-bit colour of three bytes: `(r << 16 | g << 8 | b) + 256`. -/
theorem rgbColor_of_bytes (r g b : Nat) (hr : r ≤ 255) (hg : g ≤ 255) (hb : b ≤ 255) :
    rgbColor (some r) (some g) (some b) = ((r * 65536 + g * 256 + b + 256 : Nat) : Int) := by
  have e1 : 2 ^ 16 * r + g * 256 = 2 ^ 16 * r ||| g * 256 :=
    Nat.mul_add_lt_is_or (by omega) r
  have e2 : 2 ^ 8 * (r * 256 + g) + b = 2 ^ 8 * (r * 256 + g) ||| b :=
    Nat.mul_add_lt_is_or (by omega) (r * 256 + g)
  have h1 : r * 2 ^ 16 ||| g * 2 ^ 8 = r * 65536 + g * 256 := by
    have : r * 2 ^ 16 = 2 ^ 16 * r := Nat.mul_comm _ _
    rw [this, show g * 2 ^ 8 = g * 256 from rfl, ← e1]; omega
  have h2 : (r * 65536 + g * 256) ||| b = r * 65536 + g * 256 + b := by
    have : r * 65536 + g * 256 = 2 ^ 8 * (r * 256 + g) := by omega
    rw [this, ← e2]
  unfold rgbColor
  simp only [Option.getD_some, Int.ofNat_eq_coe]
  rw [shl32_natCast r 16 (by decide) (by omega), shl32_natCast g 8 (by decide) (by omega),
    or32_natCast _ _ (by omega) (by omega), h1, or32_natCast _ _ (by omega) (by omega), h2]
  push_cast
  rfl

/-- The indexed colour `(n | 0) & 0xFF` of a byte is the byte. -/
theorem indexedColor_of_byte (n : Nat) (hn : n ≤ 255) :
    indexedColor (some n) = ((n : Nat) : Int) := by
  unfold indexedColor
  simp only [Option.getD_some, Int.ofNat_eq_coe]
  have h0 : or32 (n : Int) 0 = ((n ||| 0 : Nat) : Int) := or32_natCast n 0 (by omega) (by decide)
  rw [h0, Nat.or_zero]
  have h1 : and32 (n : Int) 0xFF = ((n &&& 255 : Nat) : Int) :=
    and32_natCast n 255 (by omega) (by decide)
  rw [h1]
  have : n &&& 255 = n % 2 ^ 8 := Nat.and_pow_two_sub_one_eq_mod n 8
  rw [this, Nat.mod_eq_of_lt (by omega)]

/-- Clearing one flag bit the way the handler does it. -/
theorem clear_flag_bit (a i : Nat) :
    (if a &&& 2 ^ i ≠ 0 then a ^^^ 2 ^ i else a).testBit i = false ∧
    ∀ k, k ≠ i → (if a &&& 2 ^ i ≠ 0 then a ^^^ 2 ^ i else a).testBit k = a.testBit k := by
  have hbit : a &&& 2 ^ i ≠ 0 ↔ a.testBit i = true := by
    constructor
    · intro h
      by_contra hb
      apply h
      apply Nat.eq_of_testBit_eq
      intro k
      rw [Nat.testBit_and, Nat.testBit_two_pow, Nat.zero_testBit]
      by_cases hk : i = k
      · subst hk; simp [hb]
      · simp [hk]
    · intro h h0
      have := congrArg (fun v => Nat.testBit v i) h0
      simp [Nat.testBit_and, Nat.testBit_two_pow, h] at this
  constructor
  · split
    · rename_i h
      rw [Nat.testBit_xor, Nat.testBit_two_pow, hbit.mp h]
      simp
    · rename_i h
      rw [hbit] at h
      simpa using h
  · intro k hk
    split
    · rw [Nat.testBit_xor, Nat.testBit_two_pow]
      simp [Ne.symm hk]
    · rfl

/-! ## Theorems: escape sequences -/

/-- The content of a sequence: what stands between the `[` and the final byte. -/
theorem substring_inner (content : List Nat) (a b : Nat) :
    substring (a :: (content ++ [b])) 1 ((a :: (content ++ [b])).length - 1) = content := by
  unfold substring
  simp only [List.length_cons, List.length_append, List.length_nil, Nat.add_sub_cancel]
  have h1 : min 1 (content.length + 0 + 1 + 1) = 1 := by omega
  have h2 : min (content.length + 0 + 1) (content.length + 0 + 1 + 1) = content.length + 1 := by
    omega
  have h3 : min 1 (content.length + 1) = 1 := by omega
  have h4 : max 1 (content.length + 1) - 1 = content.length := by omega
  rw [h1, h2, h3, h4]
  simp

/-- A string without the separator is one field. -/
theorem split_of_not_mem (sep : Nat) (a : List Nat) (h : ∀ c ∈ a, c ≠ sep) :
    split sep a = [a] := by
  induction a with
  | nil => rfl
  | cons c a ih =>
    rw [split, if_neg (h c (List.mem_cons_self _ _)),
      ih (fun d hd => h d (List.mem_cons_of_mem _ hd))]

/-- Splitting at the first separator. -/
theorem split_append_sep (sep : Nat) (a b : List Nat) (h : ∀ c ∈ a, c ≠ sep) :
    split sep (a ++ sep :: b) = a :: split sep b := by
  induction a with
  | nil => simp [split]
  | cons c a ih =>
    rw [List.cons_append, split, if_neg (h c (List.mem_cons_self _ _)),
      ih (fun d hd => h d (List.mem_cons_of_mem _ hd))]

/-- A field of decimal digits is read as its number. -/
theorem parseParam_digits (d : List Nat) (h : ∀ c ∈ d, isDigit c = true) :
    parseParam d = toNumber d := by
  rw [parseParam, List.filter_eq_self.mpr h]

/-- A digit is not a `;`. -/
theorem isDigit_ne_sep (d : List Nat) (h : ∀ c ∈ d, isDigit c = true) : ∀ c ∈ d, c ≠ 0x3b := by
  intro c hc he
  have := h c hc
  rw [he] at this
  revert this
  decide

/-- A digit is neither ESC nor a final byte. -/
theorem isDigit_collectable (c : Nat) (h : isDigit c = true) :
    c ≠ 0x1b ∧ ¬ (0x40 ≤ c ∧ c ≤ 0x7e) := by
  simp only [isDigit, Bool.and_eq_true, decide_eq_true_eq] at h
  omega

/-- Three fields of digits, split at `;`. -/
theorem split_three (p1 p2 d : List Nat) (h1 : ∀ c ∈ p1, isDigit c = true)
    (h2 : ∀ c ∈ p2, isDigit c = true) (hd : ∀ c ∈ d, isDigit c = true) :
    (split 0x3b (p1 ++ 0x3b :: (p2 ++ 0x3b :: d))).map parseParam =
      [toNumber p1, toNumber p2, toNumber d] := by
  rw [split_append_sep _ _ _ (isDigit_ne_sep p1 h1), split_append_sep _ _ _ (isDigit_ne_sep p2 h2),
    split_of_not_mem _ _ (isDigit_ne_sep d hd)]
  simp only [List.map_cons, List.map_nil, parseParam_digits _ h1, parseParam_digits _ h2,
    parseParam_digits _ hd]

/-- Five fields of digits, split at `;`. -/
theorem split_five (p1 p2 dr dg db : List Nat) (h1 : ∀ c ∈ p1, isDigit c = true)
    (h2 : ∀ c ∈ p2, isDigit c = true) (hr : ∀ c ∈ dr, isDigit c = true)
    (hg : ∀ c ∈ dg, isDigit c = true) (hb : ∀ c ∈ db, isDigit c = true) :
    (split 0x3b (p1 ++ 0x3b :: (p2 ++ 0x3b :: (dr ++ 0x3b :: (dg ++ 0x3b :: db))))).map parseParam =
      [toNumber p1, toNumber p2, toNumber dr, toNumber dg, toNumber db] := by
  rw [split_append_sep _ _ _ (isDigit_ne_sep p1 h1), split_append_sep _ _ _ (isDigit_ne_sep p2 h2),
    split_append_sep _ _ _ (isDigit_ne_sep dr hr), split_append_sep _ _ _ (isDigit_ne_sep dg hg),
    split_of_not_mem _ _ (isDigit_ne_sep db hb)]
  simp only [List.map_cons, List.map_nil, parseParam_digits _ h1, parseParam_digits _ h2,
    parseParam_digits _ hr, parseParam_digits _ hg, parseParam_digits _ hb]

/-- The codes 38 and 48 consume their mode and colour parameters and the loop goes on. -/
theorem sgrLoop_extended (type : Nat) (ht : type = 38 ∨ type = 48) (r g b n : Nat)
    (rest : List Nat) :
    sgrLoop (type :: 2 :: r :: g :: b :: rest) =
      sgrColor type (rgbColor (some r) (some g) (some b)) ++ sgrLoop rest ∧
    sgrLoop (type :: 5 :: n :: rest) = sgrColor type (indexedColor (some n)) ++ sgrLoop rest := by
  rcases ht with rfl | rfl
  · exact ⟨by simp [sgrLoop],
      by rcases rest with _ | ⟨a, _ | ⟨b', _ | ⟨c, rest⟩⟩⟩ <;> simp [sgrLoop]⟩
  · exact ⟨by simp [sgrLoop],
      by rcases rest with _ | ⟨a, _ | ⟨b', _ | ⟨c, rest⟩⟩⟩ <;> simp [sgrLoop]⟩

namespace ANSIParser

/-- In the ESC-seen state a character of `0x40..0x7e` other than `[` ends the sequence. -/
theorem step_escape_final (p : ANSIParser) (c : Nat) (h : p.currentSequence = 1)
    (hr : 0x40 ≤ c ∧ c ≤ 0x7e) (hc : c ≠ 0x5b) :
    p.step c = (ANSIParser.parseSequence (p.sequence ++ [c]),
      { p with currentSequence := 0, sequence := [] }) := by
  unfold ANSIParser.step
  show (ite _ _ _ : List Event × ANSIParser) = _
  rw [if_neg (by omega), if_neg (by omega), if_pos ⟨by omega, hr⟩]

/-- In the ESC-seen state a character outside `0x40..0x7e` other than ESC is written. -/
theorem step_escape_other (p : ANSIParser) (c : Nat) (h : p.currentSequence = 1)
    (hr : ¬ (0x40 ≤ c ∧ c ≤ 0x7e)) (hc : c ≠ 0x1b) :
    p.step c = ([Event.write c], { p with currentSequence := 0 }) := by
  unfold ANSIParser.step
  show (ite _ _ _ : List Event × ANSIParser) = _
  rw [if_neg hc, if_neg (by omega), if_neg (by omega), if_neg (by omega), if_pos h]

/-- A one-character sequence other than `[` calls no handler. -/
theorem parseSequence_single (c : Nat) (hc : c ≠ 0x5b) : ANSIParser.parseSequence [c] = [] := by
  unfold ANSIParser.parseSequence
  rw [if_neg (by simpa using hc)]

/-- C14 (as amended): for every character `c` other than ESC and `[`, a reset parser fed ESC
then `c` ends in the Normal state with an empty buffer; it emits exactly `write c` when `c`
is outside `0x40..0x7e`, and no event at all when `c` is inside `0x40..0x7e`, where the pair
is taken as a complete two-character escape sequence and handed to `parseSequence`. -/
theorem escape_then_char (c : Nat) (hesc : c ≠ 0x1b) (hbr : c ≠ 0x5b) :
    ANSIParser.new.write [0x1b, c] =
      (if 0x40 ≤ c ∧ c ≤ 0x7e then [] else [Event.write c], ANSIParser.new) := by
  have hw : ANSIParser.new.write [0x1b, c] = ANSIParser.new.writeLoop [0x1b, c] :=
    write_of_joinChunks _ rfl _
  rw [hw]
  simp only [ANSIParser.writeLoop, step_esc]
  by_cases hr : 0x40 ≤ c ∧ c ≤ 0x7e
  · rw [step_escape_final _ c rfl hr hbr, if_pos hr]
    show (ANSIParser.parseSequence [c] ++ [], _) = _
    rw [parseSequence_single c hbr]
    rfl
  · rw [step_escape_other _ c rfl hr hesc, if_neg hr]
    rfl

/-- C14 (as amended), at the character `7`: ESC then `7` emits `write 7`. -/
theorem escape_then_char_witness :
    (0x37 : Nat) ≠ 0x1b ∧ (0x37 : Nat) ≠ 0x5b ∧
    ANSIParser.new.write [0x1b, 0x37] =
      (if 0x40 ≤ 0x37 ∧ 0x37 ≤ 0x7e then [] else [Event.write 0x37], ANSIParser.new) :=
  ⟨by decide, by decide, escape_then_char 0x37 (by decide) (by decide)⟩

/-- C14 (counterexample to the claim as stated): ESC followed by the letter `c` (`0x63`) emits
no event, so not the one event `write c`. -/
theorem escape_then_letter_emits_nothing :
    ANSIParser.new.write [0x1b, 0x63] = ([], ANSIParser.new) ∧
    (ANSIParser.new.write [0x1b, 0x63]).1 ≠ [Event.write 0x63] := by
  decide

/-- C20 (the code breaks the claim): after `ESC [ 1 ESC SPACE` a reset parser is in the Normal
state while its buffer still holds `[1`; ESC and the literal fall-through of the ESC-seen
state leave `this.sequence` alone, where the final-byte branch and `reset ()` empty it. The
complete sequence `ESC [ 5 A` that follows is parsed as `[1[5A` and moves the cursor up by 15,
where a reset parser moves it up by 5. -/
theorem abandoned_sequence_leaks :
    (ANSIParser.new.write [0x1b, 0x5b, 0x31, 0x1b, 0x20]).2.currentSequence = 0 ∧
    (ANSIParser.new.write [0x1b, 0x5b, 0x31, 0x1b, 0x20]).2.sequence = [0x5b, 0x31] ∧
    ((ANSIParser.new.write [0x1b, 0x5b, 0x31, 0x1b, 0x20]).2.write [0x1b, 0x5b, 0x35, 0x41]).1
      = [Event.moveCursorY (-15)] ∧
    (ANSIParser.new.write [0x1b, 0x5b, 0x35, 0x41]).1 = [Event.moveCursorY (-5)] := by
  decide

/-- Inside a CSI sequence, characters outside `0x40..0x7e` other than ESC pile up in the buffer. -/
theorem writeLoop_collect (body : List Nat) (p : ANSIParser) (h : 1 < p.currentSequence)
    (hb : ∀ c ∈ body, c ≠ 0x1b ∧ ¬ (0x40 ≤ c ∧ c ≤ 0x7e)) :
    p.writeLoop body = ([], { p with sequence := p.sequence ++ body }) := by
  induction body generalizing p with
  | nil => simp [ANSIParser.writeLoop]
  | cons c body ih =>
    have hc := hb c (List.mem_cons_self _ _)
    have hih := ih { p with sequence := p.sequence ++ [c] } h
      (fun d hd => hb d (List.mem_cons_of_mem _ hd))
    rw [ANSIParser.writeLoop, step_collect p c h hc.1 hc.2]
    simp only [hih, List.append_assoc, List.singleton_append, List.nil_append]

/-- With an empty buffer, `ESC [ body final` hands `[ body final` to `parseSequence`. -/
theorem writeLoop_csi (p : ANSIParser) (hp : p.sequence = []) (body : List Nat) (fin : Nat)
    (hb : ∀ c ∈ body, c ≠ 0x1b ∧ ¬ (0x40 ≤ c ∧ c ≤ 0x7e)) (hf : 0x40 ≤ fin ∧ fin ≤ 0x7e) :
    p.writeLoop (0x1b :: 0x5b :: (body ++ [fin])) =
      (ANSIParser.parseSequence (0x5b :: (body ++ [fin])),
        { p with currentSequence := 0, sequence := [] }) := by
  rw [ANSIParser.writeLoop, step_esc, ANSIParser.writeLoop, step_bracket _ rfl, writeLoop_append,
    writeLoop_collect body _ (by show 1 < 2; decide) hb]
  simp only [ANSIParser.writeLoop]
  rw [step_final _ fin (by show 1 < 2; decide) hf]
  simp [hp]

/-- The handler calls of `ESC [ body final` written to a parser with an empty buffer. -/
theorem write_csi_events (p : ANSIParser) (hp : p.sequence = []) (body : List Nat) (fin : Nat)
    (hb : ∀ c ∈ body, c ≠ 0x1b ∧ ¬ (0x40 ≤ c ∧ c ≤ 0x7e)) (hf : 0x40 ≤ fin ∧ fin ≤ 0x7e) :
    (p.write (0x1b :: 0x5b :: (body ++ [fin]))).1 =
      ANSIParser.parseSequence (0x5b :: (body ++ [fin])) := by
  rw [ANSIParser.write, writeLoop_csi p hp body fin hb hf]
  split <;> rfl

/-- The handler calls of an SGR sequence with parameters: the loop over its codes. -/
theorem parseSequence_sgr (content : List Nat) (hne : content ≠ []) :
    ANSIParser.parseSequence (0x5b :: (content ++ [0x6d])) =
      sgrLoop ((split 0x3b content).map parseParam) := by
  have hs := substring_inner content 0x5b 0x6d
  have hl : (0x5b :: (content ++ [0x6d])).getLast? = some 0x6d := by
    rw [← List.cons_append, List.getLast?_append]; rfl
  have hempty : content.isEmpty = false := by
    cases content with
    | nil => exact absurd rfl hne
    | cons a l => rfl
  have hmap : ((split 0x3b content).map parseParam).isEmpty = false := by
    cases content with
    | nil => exact absurd rfl hne
    | cons a l =>
      rw [split]
      split
      · rfl
      · split <;> rfl
  unfold ANSIParser.parseSequence
  rw [if_pos (show (0x5b :: (content ++ [0x6d])).head? = some 0x5b from rfl), hl]
  simp only [hs, hempty, hmap]
  simp
  intro h
  rw [h] at hmap
  exact absurd hmap (by decide)

end ANSIParser

/-! ## Theorems: codec capacity -/

/-- C13 (as amended): `encode2B` and `encode3B` signal nothing, they return a string for
every `n` with `0 <= n < 2^53`, the integers on which the arithmetic of the code is exact:
the low digits are `n % 127 + 1` (and `n / 127 % 127 + 1`), and the last character takes
the whole rest of the quotient plus one, cut to 16 bits by `String.fromCharCode`. -/
theorem encode_never_signals (n : Nat) (_h : n < 2 ^ 53) :
    encode2B n = [n % 127 + 1, (n / 127 + 1) % 65536] ∧
    encode3B n = [n % 127 + 1, n / 127 % 127 + 1, (n / 127 / 127 + 1) % 65536] := by
  have h1 : (n - n % 127) / 127 = n / 127 := by omega
  have h1' : (n / 127 - n / 127 % 127) / 127 = n / 127 / 127 := by omega
  have h2 : (n % 127 + 1) % 65536 = n % 127 + 1 := by omega
  have h3 : (n / 127 % 127 + 1) % 65536 = n / 127 % 127 + 1 := by omega
  simp only [encode2B, encode3B, Chr, h1, h1', h2, h3, List.cons_append, List.nil_append, and_self]

/-- C13 (as amended) at `127^3`, beyond the capacity of both encodings. -/
theorem encode_never_signals_witness :
    (2048383 : Nat) < 2 ^ 53 ∧
    (encode2B 2048383 = [2048383 % 127 + 1, (2048383 / 127 + 1) % 65536] ∧
      encode3B 2048383 =
        [2048383 % 127 + 1, 2048383 / 127 % 127 + 1, (2048383 / 127 / 127 + 1) % 65536]) :=
  ⟨by decide, encode_never_signals 2048383 (by decide)⟩

/-- C13 (counterexample to the claim as stated): `encode2B (127^2)` and `encode3B (127^3)`
return strings, and `127 * 65536` is encoded by the same two characters as `0` and decoded
as `0`. -/
theorem encode_out_of_capacity_returns :
    encode2B (127 ^ 2) = [1, 128] ∧ encode3B (127 ^ 3) = [1, 1, 128] ∧
    encode2B (127 * 65536) = encode2B 0 ∧ parse2B (encode2B (127 * 65536)) 0 = some 0 := by
  decide

/-! ## Theorems: splicing -/

/-- Inserting one element with `splice (e, 0, v)`. -/
theorem splice_insert_one {α : Type} (a : List α) (e : Nat) (v : α) (he : e ≤ a.length) :
    splice a (e : Int) 0 [v] = a.take e ++ [v] ++ a.drop e := by
  have hs : (if (e : Int) < 0 then (max ((a.length : Int) + (e : Int)) 0).toNat
      else (min (e : Int) (a.length : Int)).toNat) = e := by
    rw [if_neg (by omega)]; omega
  unfold splice
  simp only [hs]
  have hd : (min (max (0 : Int) 0) ((a.length : Int) - (e : Int))).toNat = 0 := by omega
  rw [hd, Nat.add_zero]

/-- Deleting `n` elements with `splice (i, n)`. -/
theorem splice_delete {α : Type} (a : List α) (i n : Nat) (h : i + n ≤ a.length) :
    splice a (i : Int) (n : Int) [] = a.take i ++ a.drop (i + n) := by
  have hs : (if (i : Int) < 0 then (max ((a.length : Int) + (i : Int)) 0).toNat
      else (min (i : Int) (a.length : Int)).toNat) = i := by
    rw [if_neg (by omega)]; omega
  unfold splice
  simp only [hs]
  have hd : (min (max (n : Int) 0) ((a.length : Int) - (i : Int))).toNat = n := by omega
  rw [hd, List.append_nil]

/-- Reading a list from which a run of `m` elements at `i` was cut out. -/
theorem getElem?_take_append_drop {α : Type} (l : List α) (i m j : Nat) (h : i ≤ l.length) :
    (l.take i ++ l.drop (i + m))[j]? = if j < i then l[j]? else l[j + m]? := by
  have hl : (l.take i).length = i := by rw [List.length_take]; omega
  split
  · rename_i hj
    rw [List.getElem?_append_left (by rw [hl]; exact hj), List.getElem?_take_of_lt hj]
  · rename_i hj
    rw [List.getElem?_append_right (by rw [hl]; omega), hl, List.getElem?_drop]
    congr 1
    omega

/-- Reading a list into which a run of `m` copies of `v` was put at `e`. -/
theorem getElem?_insert_run {α : Type} (s : List α) (e m k : Nat) (v : α) (he : e ≤ s.length) :
    (s.take e ++ List.replicate m v ++ s.drop e)[k]? =
      if k < e then s[k]? else if k < e + m then some v else s[k - m]? := by
  have hl : (s.take e).length = e := by rw [List.length_take]; omega
  rw [List.append_assoc]
  split
  · rename_i hk
    rw [List.getElem?_append_left (by rw [hl]; exact hk), List.getElem?_take_of_lt hk]
  · rename_i hk
    rw [List.getElem?_append_right (by rw [hl]; omega), hl]
    split
    · rename_i hk2
      rw [List.getElem?_append_left (by rw [List.length_replicate]; omega),
        List.getElem?_replicate_of_lt (by omega)]
    · rename_i hk2
      rw [List.getElem?_append_right (by rw [List.length_replicate]; omega),
        List.length_replicate, List.getElem?_drop]
      congr 1
      omega

/-! ## Theorems: handler actions -/

namespace ScrollingTerminal

/-- With an empty parser buffer, the terminal applies the handler calls of the sequence. -/
theorem write_csi (t : ScrollingTerminal) (hp : t.parser.sequence = []) (body : List Nat)
    (fin : Nat) (hb : ∀ c ∈ body, c ≠ 0x1b ∧ ¬ (0x40 ≤ c ∧ c ≤ 0x7e))
    (hf : 0x40 ≤ fin ∧ fin ≤ 0x7e) :
    ∃ q, write t (0x1b :: 0x5b :: (body ++ [fin])) =
      Except.map (withParser q) (handleAll t (ANSIParser.parseSequence (0x5b :: (body ++ [fin])))) := by
  rw [write_eq_handleAll, ANSIParser.write_csi_events _ hp body fin hb hf]
  exact ⟨_, rfl⟩

/-- C18: for every terminal state (any pen) with no pending escape sequence in the parser,
`ESC [ 39 m` clears attribute bit 0 (foreground explicit) and keeps every other attribute
bit and the background colour; `ESC [ 49 m` clears bit 1 (background explicit) and keeps
every other attribute bit and the foreground colour. -/
theorem sgr_default_colour_clears_flag (t : ScrollingTerminal) (hp : t.parser.sequence = []) :
    (∃ t', write t [0x1b, 0x5b, 0x33, 0x39, 0x6d] = Except.ok t' ∧
      t'.style.attrs.testBit 0 = false ∧
      (∀ k, k ≠ 0 → t'.style.attrs.testBit k = t.style.attrs.testBit k) ∧
      t'.style.bg = t.style.bg) ∧
    (∃ t', write t [0x1b, 0x5b, 0x34, 0x39, 0x6d] = Except.ok t' ∧
      t'.style.attrs.testBit 1 = false ∧
      (∀ k, k ≠ 1 → t'.style.attrs.testBit k = t.style.attrs.testBit k) ∧
      t'.style.fg = t.style.fg) := by
  obtain ⟨q1, h1⟩ := write_csi t hp [0x33, 0x39] 0x6d (by decide) (by decide)
  obtain ⟨q2, h2⟩ := write_csi t hp [0x34, 0x39] 0x6d (by decide) (by decide)
  have e1 : ANSIParser.parseSequence (0x5b :: ([0x33, 0x39] ++ [0x6d])) = [Event.resetColorFg] := by
    decide
  have e2 : ANSIParser.parseSequence (0x5b :: ([0x34, 0x39] ++ [0x6d])) = [Event.resetColorBg] := by
    decide
  rw [e1] at h1
  rw [e2] at h2
  have b0 := clear_flag_bit t.style.attrs 0
  have b1 := clear_flag_bit t.style.attrs 1
  exact ⟨⟨_, h1, b0.1, b0.2, rfl⟩, ⟨_, h2, b1.1, b1.2, rfl⟩⟩

/-- C18 at a new terminal. -/
theorem sgr_default_colour_clears_flag_witness :
    (∃ t', write new [0x1b, 0x5b, 0x33, 0x39, 0x6d] = Except.ok t' ∧
      t'.style.attrs.testBit 0 = false ∧
      (∀ k, k ≠ 0 → t'.style.attrs.testBit k = new.style.attrs.testBit k) ∧
      t'.style.bg = new.style.bg) ∧
    (∃ t', write new [0x1b, 0x5b, 0x34, 0x39, 0x6d] = Except.ok t' ∧
      t'.style.attrs.testBit 1 = false ∧
      (∀ k, k ≠ 1 → t'.style.attrs.testBit k = new.style.attrs.testBit k) ∧
      t'.style.fg = new.style.fg) :=
  sgr_default_colour_clears_flag new rfl

/-- With an empty parser buffer, `ESC [ content m` applies the SGR codes of `content`. -/
theorem write_sgr (t : ScrollingTerminal) (hp : t.parser.sequence = []) (content : List Nat)
    (hne : content ≠ []) (hc : ∀ c ∈ content, isDigit c = true ∨ c = 0x3b) :
    ∃ q, write t (0x1b :: 0x5b :: (content ++ [0x6d])) =
      Except.map (withParser q) (handleAll t (sgrLoop ((split 0x3b content).map parseParam))) := by
  obtain ⟨q, hq⟩ := write_csi t hp content 0x6d
    (fun c h => by
      rcases hc c h with hd | rfl
      · exact isDigit_collectable c hd
      · decide)
    (by decide)
  rw [ANSIParser.parseSequence_sgr content hne] at hq
  exact ⟨q, hq⟩

/-- C19: with no pending escape sequence in the parser and decimal parameters `r g b n` in
`0..255` (any digit strings of those values), `ESC [ 38 ; 2 ; r ; g ; b m` sets the pen
foreground to `r * 65536 + g * 256 + b + 256` and sets attribute bit 0, `ESC [ 38 ; 5 ; n m`
sets the foreground to `n` with bit 0 set, and `48` does the same for the background with
bit 1; the other pen fields are kept. The codes after the consumed parameters are handled
by the same loop as further SGR codes. -/
theorem sgr_extended_colour (t : ScrollingTerminal) (hp : t.parser.sequence = [])
    (dr dg db dn : List Nat)
    (hdr : ∀ c ∈ dr, isDigit c = true) (hdg : ∀ c ∈ dg, isDigit c = true)
    (hdb : ∀ c ∈ db, isDigit c = true) (hdn : ∀ c ∈ dn, isDigit c = true)
    (hr : toNumber dr ≤ 255) (hg : toNumber dg ≤ 255) (hb : toNumber db ≤ 255)
    (hn : toNumber dn ≤ 255) :
    (∃ t', write t ([0x1b, 0x5b, 0x33, 0x38, 0x3b, 0x32, 0x3b] ++ dr ++ [0x3b] ++ dg ++ [0x3b] ++
          db ++ [0x6d]) = Except.ok t' ∧
        t'.style = Style.mk
          ((toNumber dr * 65536 + toNumber dg * 256 + toNumber db + 256 : Nat) : Int)
          t.style.bg (t.style.attrs ||| 1)) ∧
    (∃ t', write t ([0x1b, 0x5b, 0x33, 0x38, 0x3b, 0x35, 0x3b] ++ dn ++ [0x6d]) = Except.ok t' ∧
        t'.style = Style.mk ((toNumber dn : Nat) : Int) t.style.bg (t.style.attrs ||| 1)) ∧
    (∃ t', write t ([0x1b, 0x5b, 0x34, 0x38, 0x3b, 0x32, 0x3b] ++ dr ++ [0x3b] ++ dg ++ [0x3b] ++
          db ++ [0x6d]) = Except.ok t' ∧
        t'.style = Style.mk t.style.fg
          ((toNumber dr * 65536 + toNumber dg * 256 + toNumber db + 256 : Nat) : Int)
          (t.style.attrs ||| (1 <<< 1))) ∧
    (∃ t', write t ([0x1b, 0x5b, 0x34, 0x38, 0x3b, 0x35, 0x3b] ++ dn ++ [0x6d]) = Except.ok t' ∧
        t'.style = Style.mk t.style.fg ((toNumber dn : Nat) : Int)
          (t.style.attrs ||| (1 <<< 1))) ∧
    (∀ r g b n : Nat, ∀ rest : List Nat,
      sgrLoop (38 :: 2 :: r :: g :: b :: rest) =
        Event.setColorFg (rgbColor (some r) (some g) (some b)) :: sgrLoop rest ∧
      sgrLoop (38 :: 5 :: n :: rest) = Event.setColorFg (indexedColor (some n)) :: sgrLoop rest ∧
      sgrLoop (48 :: 2 :: r :: g :: b :: rest) =
        Event.setColorBg (rgbColor (some r) (some g) (some b)) :: sgrLoop rest ∧
      sgrLoop (48 :: 5 :: n :: rest) =
        Event.setColorBg (indexedColor (some n)) :: sgrLoop rest) := by
  have d38 : ∀ c ∈ [0x33, 0x38], isDigit c = true := by decide
  have d48 : ∀ c ∈ [0x34, 0x38], isDigit c = true := by decide
  have d2 : ∀ c ∈ [0x32], isDigit c = true := by decide
  have d5 : ∀ c ∈ [0x35], isDigit c = true := by decide
  have hrgb := rgbColor_of_bytes _ _ _ hr hg hb
  have hidx := indexedColor_of_byte _ hn
  -- the contents of the four sequences
  have key : ∀ (p1 p2 : List Nat), (∀ c ∈ p1, isDigit c = true) → (∀ c ∈ p2, isDigit c = true) →
      (∃ q, write t (0x1b :: 0x5b :: ((p1 ++ 0x3b :: (p2 ++ 0x3b :: (dr ++ 0x3b :: (dg ++ 0x3b :: db))))
          ++ [0x6d])) = Except.map (withParser q) (handleAll t
            (sgrLoop [toNumber p1, toNumber p2, toNumber dr, toNumber dg, toNumber db]))) ∧
      (∃ q, write t (0x1b :: 0x5b :: ((p1 ++ 0x3b :: (p2 ++ 0x3b :: dn)) ++ [0x6d])) =
          Except.map (withParser q) (handleAll t
            (sgrLoop [toNumber p1, toNumber p2, toNumber dn]))) := by
    intro p1 p2 h1 h2
    constructor
    · obtain ⟨q, hq⟩ := write_sgr t hp (p1 ++ 0x3b :: (p2 ++ 0x3b :: (dr ++ 0x3b :: (dg ++ 0x3b :: db))))
        (by simp)
        (by
          intro c hc
          simp only [List.mem_append, List.mem_cons] at hc
          rcases hc with h | h | h | h | h | h | h | h | h
          · exact Or.inl (h1 c h)
          · exact Or.inr h
          · exact Or.inl (h2 c h)
          · exact Or.inr h
          · exact Or.inl (hdr c h)
          · exact Or.inr h
          · exact Or.inl (hdg c h)
          · exact Or.inr h
          · exact Or.inl (hdb c h))
      rw [split_five p1 p2 dr dg db h1 h2 hdr hdg hdb] at hq
      exact ⟨q, hq⟩
    · obtain ⟨q, hq⟩ := write_sgr t hp (p1 ++ 0x3b :: (p2 ++ 0x3b :: dn))
        (by simp)
        (by
          intro c hc
          simp only [List.mem_append, List.mem_cons] at hc
          rcases hc with h | h | h | h | h
          · exact Or.inl (h1 c h)
          · exact Or.inr h
          · exact Or.inl (h2 c h)
          · exact Or.inr h
          · exact Or.inl (hdn c h))
      rw [split_three p1 p2 dn h1 h2 hdn] at hq
      exact ⟨q, hq⟩
  obtain ⟨⟨q1, h1⟩, ⟨q2, h2⟩⟩ := key [0x33, 0x38] [0x32] d38 d2
  obtain ⟨⟨q3, h3⟩, ⟨q4, h4⟩⟩ := key [0x34, 0x38] [0x32] d48 d2
  obtain ⟨-, ⟨q5, h5⟩⟩ := key [0x33, 0x38] [0x35] d38 d5
  obtain ⟨-, ⟨q6, h6⟩⟩ := key [0x34, 0x38] [0x35] d48 d5
  have n38 : toNumber [0x33, 0x38] = 38 := by decide
  have n48 : toNumber [0x34, 0x38] = 48 := by decide
  have n2 : toNumber [0x32] = 2 := by decide
  have n5 : toNumber [0x35] = 5 := by decide
  rw [n38, n2, (sgrLoop_extended 38 (Or.inl rfl) _ _ _ 0 []).1, hrgb] at h1
  rw [n48, n2, (sgrLoop_extended 48 (Or.inr rfl) _ _ _ 0 []).1, hrgb] at h3
  rw [n38, n5, (sgrLoop_extended 38 (Or.inl rfl) 0 0 0 _ []).2, hidx] at h5
  rw [n48, n5, (sgrLoop_extended 48 (Or.inr rfl) 0 0 0 _ []).2, hidx] at h6
  refine ⟨⟨_, by simpa using h1, rfl⟩, ⟨_, by simpa using h5, rfl⟩, ⟨_, by simpa using h3, rfl⟩,
    ⟨_, by simpa using h6, rfl⟩, ?_⟩
  intro r g b n rest
  have e38 := sgrLoop_extended 38 (Or.inl rfl) r g b n rest
  have e48 := sgrLoop_extended 48 (Or.inr rfl) r g b n rest
  simp only [sgrColor] at e38 e48
  exact ⟨by simpa using e38.1, by simpa using e38.2, by simpa using e48.1, by simpa using e48.2⟩

/-- C19 at a new terminal, with `r g b = 255 0 7` and `n = 200`. -/
theorem sgr_extended_colour_witness :
    (∃ t', write new ([0x1b, 0x5b, 0x33, 0x38, 0x3b, 0x32, 0x3b] ++ [0x32, 0x35, 0x35] ++ [0x3b] ++
          [0x30] ++ [0x3b] ++ [0x37] ++ [0x6d]) = Except.ok t' ∧
        t'.style = Style.mk
          ((toNumber [0x32, 0x35, 0x35] * 65536 + toNumber [0x30] * 256 + toNumber [0x37] + 256
            : Nat) : Int)
          new.style.bg (new.style.attrs ||| 1)) ∧
    (∃ t', write new ([0x1b, 0x5b, 0x33, 0x38, 0x3b, 0x35, 0x3b] ++ [0x32, 0x30, 0x30] ++ [0x6d])
          = Except.ok t' ∧
        t'.style = Style.mk ((toNumber [0x32, 0x30, 0x30] : Nat) : Int) new.style.bg
          (new.style.attrs ||| 1)) ∧
    (∃ t', write new ([0x1b, 0x5b, 0x34, 0x38, 0x3b, 0x32, 0x3b] ++ [0x32, 0x35, 0x35] ++ [0x3b] ++
          [0x30] ++ [0x3b] ++ [0x37] ++ [0x6d]) = Except.ok t' ∧
        t'.style = Style.mk new.style.fg
          ((toNumber [0x32, 0x35, 0x35] * 65536 + toNumber [0x30] * 256 + toNumber [0x37] + 256
            : Nat) : Int)
          (new.style.attrs ||| (1 <<< 1))) ∧
    (∃ t', write new ([0x1b, 0x5b, 0x34, 0x38, 0x3b, 0x35, 0x3b] ++ [0x32, 0x30, 0x30] ++ [0x6d])
          = Except.ok t' ∧
        t'.style = Style.mk new.style.fg ((toNumber [0x32, 0x30, 0x30] : Nat) : Int)
          (new.style.attrs ||| (1 <<< 1))) ∧
    (∀ r g b n : Nat, ∀ rest : List Nat,
      sgrLoop (38 :: 2 :: r :: g :: b :: rest) =
        Event.setColorFg (rgbColor (some r) (some g) (some b)) :: sgrLoop rest ∧
      sgrLoop (38 :: 5 :: n :: rest) = Event.setColorFg (indexedColor (some n)) :: sgrLoop rest ∧
      sgrLoop (48 :: 2 :: r :: g :: b :: rest) =
        Event.setColorBg (rgbColor (some r) (some g) (some b)) :: sgrLoop rest ∧
      sgrLoop (48 :: 5 :: n :: rest) =
        Event.setColorBg (indexedColor (some n)) :: sgrLoop rest) :=
  sgr_extended_colour new rfl [0x32, 0x35, 0x35] [0x30] [0x37] [0x32, 0x30, 0x30]
    (by decide) (by decide) (by decide) (by decide) (by decide) (by decide) (by decide)
    (by decide)

/-- The loop of `deleteForward` puts `n` blanks at the end of the row. -/
theorem insertBlankLoop_eq (n : Nat) (s : List (Option Cell)) (e : Nat) (he : e ≤ s.length) :
    insertBlankLoop s (e : Int) n = s.take e ++ List.replicate n (some blank) ++ s.drop e := by
  induction n generalizing s with
  | zero => simp [insertBlankLoop]
  | succ n ih =>
    have hl : (s.take e).length = e := by rw [List.length_take]; omega
    rw [insertBlankLoop, splice_insert_one s e _ he,
      ih _ (by simp only [List.length_append, List.length_take, List.length_drop,
                List.length_singleton]; omega)]
    rw [List.append_assoc (s.take e), List.take_left' hl, List.drop_left' hl,
      List.replicate_succ']
    simp only [List.append_assoc]

/-- The grid after `deleteForward (n)`, cursor inside a full grid. -/
theorem deleteForward_screen (t : ScrollingTerminal) (n x y : Nat) (hx : t.cursor.x = x)
    (hy : t.cursor.y = y) (hxw : x < t.width) (hyh : y < t.height)
    (hlen : t.screen.length = t.width * t.height) :
    (deleteForward t n).screen =
      (t.screen.take ((y + 1) * t.width) ++ List.replicate (min t.width n) (some blank) ++
          t.screen.drop ((y + 1) * t.width)).take (y * t.width + x) ++
        (t.screen.take ((y + 1) * t.width) ++ List.replicate (min t.width n) (some blank) ++
          t.screen.drop ((y + 1) * t.width)).drop (y * t.width + x + min t.width n) := by
  have hmul : (y + 1) * t.width = y * t.width + t.width := by ring
  have hle : (y + 1) * t.width ≤ t.width * t.height := by
    rw [Nat.mul_comm t.width]; exact Nat.mul_le_mul_right _ hyh
  have he : (t.cursor.y + 1) * (t.width : Int) = (((y + 1) * t.width : Nat) : Int) := by
    rw [hy]; push_cast; rfl
  have hi : t.cursor.y * (t.width : Int) + t.cursor.x = ((y * t.width + x : Nat) : Int) := by
    rw [hx, hy]; push_cast; rfl
  show splice (insertBlankLoop t.screen ((t.cursor.y + 1) * (t.width : Int)) (min t.width n))
    (t.cursor.y * (t.width : Int) + t.cursor.x) ((min t.width n : Nat) : Int) [] = _
  rw [he, hi, insertBlankLoop_eq _ _ _ (by omega), splice_delete _ _ _ (by
    simp only [List.length_append, List.length_take, List.length_drop, List.length_replicate]
    omega)]

/-- C15: with the cursor `(x, y)` inside a full grid and `m = min n width`, `deleteForward n`
keeps the cursor and the grid length, keeps every cell before the cursor (the rows above and
the columns before `x`), puts the old cell of column `c + m` at column `c` for `x <= c` and
`c + m < width`, puts a blank with the default style at every column `c >= x` with
`c + m >= width`, and keeps every cell of the rows below. -/
theorem deleteForward_frame (t : ScrollingTerminal) (n x y : Nat) (hx : t.cursor.x = x)
    (hy : t.cursor.y = y) (hxw : x < t.width) (hyh : y < t.height)
    (hlen : t.screen.length = t.width * t.height) :
    (deleteForward t n).cursor = t.cursor ∧
    (deleteForward t n).screen.length = t.screen.length ∧
    (∀ j, j < y * t.width + x → (deleteForward t n).screen[j]? = t.screen[j]?) ∧
    (∀ c, x ≤ c → c + min n t.width < t.width →
      (deleteForward t n).screen[y * t.width + c]? = t.screen[y * t.width + (c + min n t.width)]?) ∧
    (∀ c, x ≤ c → c < t.width → t.width ≤ c + min n t.width →
      (deleteForward t n).screen[y * t.width + c]? = some (some blank)) ∧
    (∀ j, (y + 1) * t.width ≤ j → (deleteForward t n).screen[j]? = t.screen[j]?) := by
  have hmul : (y + 1) * t.width = y * t.width + t.width := by ring
  have hle : (y + 1) * t.width ≤ t.width * t.height := by
    rw [Nat.mul_comm t.width]; exact Nat.mul_le_mul_right _ hyh
  have hmin : min n t.width = min t.width n := Nat.min_comm _ _
  have hm : min t.width n ≤ t.width := Nat.min_le_left _ _
  rw [hmin, deleteForward_screen t n x y hx hy hxw hyh hlen]
  generalize min t.width n = m at hm ⊢
  have hs1 : y * t.width + x ≤ (t.screen.take ((y + 1) * t.width) ++
      List.replicate m (some blank) ++ t.screen.drop ((y + 1) * t.width)).length := by
    simp only [List.length_append, List.length_take, List.length_drop, List.length_replicate]
    omega
  have hE : (y + 1) * t.width ≤ t.screen.length := by omega
  refine ⟨rfl, ?_, ?_, ?_, ?_, ?_⟩
  · simp only [List.length_append, List.length_take, List.length_drop, List.length_replicate]
    omega
  · intro j hj
    rw [getElem?_take_append_drop _ _ _ _ hs1, if_pos hj, getElem?_insert_run _ _ _ _ _ hE,
      if_pos (by omega)]
  · intro c hc hcm
    rw [getElem?_take_append_drop _ _ _ _ hs1, if_neg (by omega),
      getElem?_insert_run _ _ _ _ _ hE, if_pos (by omega), Nat.add_assoc]
  · intro c hc hcw hcm
    rw [getElem?_take_append_drop _ _ _ _ hs1, if_neg (by omega),
      getElem?_insert_run _ _ _ _ _ hE, if_neg (by omega), if_pos (by omega)]
  · intro j hj
    rw [getElem?_take_append_drop _ _ _ _ hs1, if_neg (by omega),
      getElem?_insert_run _ _ _ _ _ hE, if_neg (by omega), if_neg (by omega),
      Nat.add_sub_cancel]

/-- C15 at a new terminal, `deleteForward 3` with the cursor at `(0, 0)`. -/
theorem deleteForward_frame_witness :
    (deleteForward new 3).cursor = new.cursor ∧
    (deleteForward new 3).screen.length = new.screen.length ∧
    (∀ j, j < 0 * new.width + 0 → (deleteForward new 3).screen[j]? = new.screen[j]?) ∧
    (∀ c, 0 ≤ c → c + min 3 new.width < new.width →
      (deleteForward new 3).screen[0 * new.width + c]? =
        new.screen[0 * new.width + (c + min 3 new.width)]?) ∧
    (∀ c, 0 ≤ c → c < new.width → new.width ≤ c + min 3 new.width →
      (deleteForward new 3).screen[0 * new.width + c]? = some (some blank)) ∧
    (∀ j, (0 + 1) * new.width ≤ j → (deleteForward new 3).screen[j]? = new.screen[j]?) :=
  deleteForward_frame new 3 0 0 rfl rfl (by decide) (by decide)
    (new_screen_length.trans (by decide))

/-- C16 (the code breaks the claim): on a new terminal `ESC [ 3 @` does not complete: the
handler calls `this.insertBlanks`, which no class defines (the source marks the call
`FIXME undefined?`), so `write` throws a `TypeError` and no blank is inserted. -/
theorem insert_blanks_throws :
    write new [0x1b, 0x5b, 0x33, 0x40] =
      Except.error "TypeError: this.insertBlanks is not a function" := by
  have hev : new.parser.write [0x1b, 0x5b, 0x33, 0x40] =
      ([Event.insertBlanks 3], ANSIParser.new) := by decide
  rw [write_eq_handleAll, hev]
  rfl

/-- C17: for every terminal state, `reset ()` gives the default pen `(0, 0, 0)`, the cursor
at `(0, 0)` and visible, mouse tracking off, theme 0 with default colours 7 and 0, the
same width and height with every one of the `width * height` cells a blank with the default
style, and the parser in the Normal state with an empty sequence buffer. -/
theorem reset_state (t : ScrollingTerminal) :
    (reset t).style = TERM_DEFAULT_STYLE ∧
    (reset t).cursor.x = 0 ∧ (reset t).cursor.y = 0 ∧ (reset t).cursor.visible = true ∧
    (reset t).trackMouse = false ∧
    (reset t).theme = 0 ∧ (reset t).defaultFG = 7 ∧ (reset t).defaultBG = 0 ∧
    (reset t).width = t.width ∧ (reset t).height = t.height ∧
    (reset t).screen = List.replicate (t.width * t.height) (some blank) ∧
    (reset t).parser.currentSequence = 0 ∧ (reset t).parser.sequence = [] :=
  ⟨rfl, rfl, rfl, rfl, rfl, rfl, rfl, rfl, rfl, rfl, rfl, rfl, rfl⟩

end ScrollingTerminal

/-- The code of 0 is the character `0x01`. -/
theorem encodeAsCodePoint_zero : encodeAsCodePoint 0 = Except.ok [0x01] := rfl

namespace ScrollingTerminal

/-- The topics, each with the blob remembered for it, that an update carries: those whose
blob differs from the remembered one, in the order O, T, B, C, S. -/
theorem getUpdate_eq (rb : Nat → Int × Int) (t : ScrollingTerminal) (o b c s : JSString)
    (ho : getScreenOpts t = Except.ok o) (hb : getButtons t = Except.ok b)
    (hc : getCursor t = Except.ok c) (hs : serializeScreen rb t = Except.ok s) :
    getUpdate rb t = Except.ok
      (if ([(t._screenOpts, o), (t._title, getTitle), (t._buttons, b), (t._cursor, c),
            (t._screen, s)].filter (fun p => decide (p.1 ≠ some p.2))) = [] then []
        else 0x55 :: 0x01 ::
          (([(t._screenOpts, o), (t._title, getTitle), (t._buttons, b), (t._cursor, c),
            (t._screen, s)].filter (fun p => decide (p.1 ≠ some p.2))).map Prod.snd).flatten,
       withBlobs o getTitle b c s t) := by
  cases t
  simp only at ho hb hc hs ⊢
  simp only [getUpdate, withBlobs, ho, hb, hc, hs, bind, Except.bind, pure, Except.pure,
    encodeAsCodePoint_zero]
  rename_i so st sb sc ss
  by_cases h1 : so = some o <;> by_cases h2 : st = some getTitle <;>
    by_cases h3 : sb = some b <;> by_cases h4 : sc = some c <;> by_cases h5 : ss = some s <;>
    simp [h1, h2, h3, h4, h5]

/-- With the rainbow off, a cell is serialized without the colour oracle. -/
theorem serializeCell_rainbow_off (sr sr' : Bool) (rb rb' : Nat → Int × Int)
    (l : Option Style) (i : Nat) (cell : Option Cell) :
    serializeCell false sr rb l i cell = serializeCell false sr' rb' l i cell := by
  cases cell <;> rfl

/-- With the rainbow off, the cells are serialized without the colour oracle. -/
theorem serializeCells_rainbow_off (sr sr' : Bool) (rb rb' : Nat → Int × Int)
    (cells : List (Option Cell)) (l : Option Style) (i : Nat) :
    serializeCells false sr rb cells l i = serializeCells false sr' rb' cells l i := by
  induction cells generalizing l i with
  | nil => rfl
  | cons cell cells ih =>
    simp only [serializeCells, serializeCell_rainbow_off sr sr' rb rb' l i cell, ih]

/-- With the rainbow off, the S blob does not depend on the colour oracle. -/
theorem serializeScreen_rainbow_off (rb rb' : Nat → Int × Int) (t : ScrollingTerminal)
    (hr : t.rainbow = false) : serializeScreen rb t = serializeScreen rb' t := by
  simp only [serializeScreen, hr, serializeCells_rainbow_off t.superRainbow t.superRainbow rb rb']

/-- The C blob of a cursor inside `0..0xD7FE`: the tag, row + 1, column + 1 and a final 1. -/
theorem getCursor_small (t : ScrollingTerminal) (x y : Nat) (hx : x < 0xD7FF) (hy : y < 0xD7FF)
    (hcx : t.cursor.x = x) (hcy : t.cursor.y = y) :
    getCursor t = Except.ok [0x43, y + 1, x + 1, 0x01] := by
  have e : ∀ n : Nat, n < 0xD7FF → encodeAsCodePoint (n : Int) = Except.ok [n + 1] := by
    intro n hn
    have h1 : ¬ ((0xD800 : Int) ≤ (n : Int)) := by omega
    have h2 : ¬ ((n : Int) + 1 < 0 ∨ (0x10FFFF : Int) < (n : Int) + 1) := by omega
    have h3 : ((n : Int) + 1).toNat = n + 1 := by omega
    simp only [encodeAsCodePoint, fromCodePoint, if_neg h1, if_neg h2, h3, charUnits,
      if_pos (show n + 1 < 0x10000 by omega)]
    rfl
  simp only [getCursor, hcx, hcy, e x hx, e y hy, encodeAsCodePoint_zero, bind, Except.bind,
    pure, Except.pure]
  rfl

/-- The O blob of a new terminal. -/
theorem getScreenOpts_new : getScreenOpts new = Except.ok [0x4f, 26, 81, 1, 8, 1, 898] := rfl

/-- The B blob of a new terminal. -/
theorem getButtons_new : getButtons new = Except.ok [0x42, 1] := rfl

/-- The C blob of a new terminal. -/
theorem getCursor_new : getCursor new = Except.ok [0x43, 1, 1, 1] := rfl

/-- With the rainbow off, cells that repeat the style of the cell before them add their
glyphs and nothing else. -/
theorem serializeCells_same_style (sr : Bool) (rb : Nat → Int × Int) (st : Style)
    (chars : List Nat) (i : Nat) :
    serializeCells false sr rb (chars.map (fun ch => some (Cell.mk ch st))) (some st) i =
      Except.ok (chars.map charUnits).flatten := by
  induction chars with
  | nil => rfl
  | cons ch chars ih =>
    have h1 : serializeCell false sr rb (some st) i (some (Cell.mk ch st)) =
        Except.ok (st, i, charUnits ch) := by
      simp [serializeCell, bind, Except.bind, pure, Except.pure]
    simp only [List.map_cons, serializeCells, h1, bind, Except.bind, ih, pure, Except.pure,
      List.flatten_cons]

/-- The first cell, a default blank: both colours, the attributes and the glyph. -/
theorem serializeCell_first_blank (sr : Bool) (rb : Nat → Int × Int) (i : Nat) :
    serializeCell false sr rb none i (some blank) =
      Except.ok (TERM_DEFAULT_STYLE, i, [3, 1, 4, 1, 0x20]) := by
  have h0 : or32 (shl32 0 8) 0 = 0 := by decide
  simp [serializeCell, blank, TERM_DEFAULT_STYLE, h0, encodeAsCodePoint_zero, charUnits, bind,
    Except.bind, pure, Except.pure]

/-- With the rainbow off, a grid that starts with a default blank and goes on with cells of
the default style: the header, one colour marker, one attribute marker, then the glyphs. -/
theorem serializeScreen_default_style (rb : Nat → Int × Int) (t : ScrollingTerminal)
    (chars : List Nat) (eh ew : JSString) (hr : t.rainbow = false)
    (hh : encodeAsCodePoint (t.height : Int) = Except.ok eh)
    (hw : encodeAsCodePoint (t.width : Int) = Except.ok ew)
    (hscreen : t.screen = some blank ::
      chars.map (fun ch => some (Cell.mk ch TERM_DEFAULT_STYLE))) :
    serializeScreen rb t = Except.ok
      ([0x53, 1, 1] ++ eh ++ ew ++ ([3, 1, 4, 1, 0x20] ++ (chars.map charUnits).flatten)) := by
  unfold serializeScreen
  rw [hscreen, hh, hw, hr, serializeCells, serializeCell_first_blank, encodeAsCodePoint_zero]
  simp only [bind, Except.bind]
  rw [serializeCells_same_style]
  rfl

/-- The grid of a new terminal: a default blank and 1999 more. -/
theorem new_screen_cons : new.screen = some blank ::
    (List.replicate 1999 0x20).map (fun ch => some (Cell.mk ch TERM_DEFAULT_STYLE)) := by
  have h2000 : (2000 : Nat) = 1999 + 1 := rfl
  rw [new_screen, h2000, List.replicate_succ, List.map_replicate]
  rfl

/-- The S blob of a new terminal. -/
theorem serializeScreen_new (rb : Nat → Int × Int) :
    serializeScreen rb new = Except.ok
      ([0x53, 1, 1] ++ [26] ++ [81] ++
        ([3, 1, 4, 1, 0x20] ++ ((List.replicate 1999 0x20).map charUnits).flatten)) :=
  serializeScreen_default_style rb new (List.replicate 1999 0x20) [26] [81] rfl rfl rfl
    new_screen_cons

end ScrollingTerminal

/-! ## Theorems: the update envelope -/

namespace ScrollingTerminal

/-- The O blob starts with `O`. -/
theorem getScreenOpts_head (t : ScrollingTerminal) (o : JSString)
    (h : getScreenOpts t = Except.ok o) : o.head? = some 0x4f := by
  unfold getScreenOpts at h
  simp only [bind, Except.bind, pure, Except.pure] at h
  repeat' split at h
  all_goals first
    | (rw [← Except.ok.inj h]; rfl)
    | (simp at h)

/-- The B blob starts with `B`. -/
theorem getButtons_head (t : ScrollingTerminal) (o : JSString)
    (h : getButtons t = Except.ok o) : o.head? = some 0x42 := by
  unfold getButtons at h
  simp only [bind, Except.bind, pure, Except.pure] at h
  repeat' split at h
  all_goals first
    | (rw [← Except.ok.inj h]; rfl)
    | (simp at h)

/-- The C blob starts with `C`. -/
theorem getCursor_head (t : ScrollingTerminal) (o : JSString)
    (h : getCursor t = Except.ok o) : o.head? = some 0x43 := by
  unfold getCursor at h
  simp only [bind, Except.bind, pure, Except.pure] at h
  repeat' split at h
  all_goals first
    | (rw [← Except.ok.inj h]; rfl)
    | (simp at h)

/-- The S blob starts with `S`. -/
theorem serializeScreen_head (rb : Nat → Int × Int) (t : ScrollingTerminal) (o : JSString)
    (h : serializeScreen rb t = Except.ok o) : o.head? = some 0x53 := by
  unfold serializeScreen at h
  simp only [bind, Except.bind, pure, Except.pure] at h
  repeat' split at h
  all_goals first
    | (rw [← Except.ok.inj h]; rfl)
    | (simp at h)

/-- The T blob starts with `T`. -/
theorem getTitle_head : getTitle.head? = some 0x54 := by decide

/-- An update that is returned went through the four fallible blobs. -/
theorem getUpdate_ok_blobs (rb : Nat → Int × Int) (t t1 : ScrollingTerminal) (u : JSString)
    (h : getUpdate rb t = Except.ok (u, t1)) :
    ∃ o b c s, getScreenOpts t = Except.ok o ∧ getButtons t = Except.ok b ∧
      getCursor t = Except.ok c ∧ serializeScreen rb t = Except.ok s := by
  cases ho : getScreenOpts t with
  | error e => simp [getUpdate, ho, bind, Except.bind] at h
  | ok o =>
    cases hb : getButtons t with
    | error e => simp [getUpdate, ho, hb, bind, Except.bind] at h
    | ok b =>
      cases hc : getCursor t with
      | error e => simp [getUpdate, ho, hb, hc, bind, Except.bind] at h
      | ok c =>
        cases hs : serializeScreen rb t with
        | error e => simp [getUpdate, ho, hb, hc, hs, bind, Except.bind] at h
        | ok s => exact ⟨o, b, c, s, rfl, rfl, rfl, rfl⟩

/-- The first update of a terminal that has sent nothing yet carries all five blobs. -/
theorem getUpdate_first (rb : Nat → Int × Int) (t : ScrollingTerminal) (o b c s : JSString)
    (h1 : t._screenOpts = none) (h2 : t._title = none) (h3 : t._buttons = none)
    (h4 : t._cursor = none) (h5 : t._screen = none)
    (ho : getScreenOpts t = Except.ok o) (hb : getButtons t = Except.ok b)
    (hc : getCursor t = Except.ok c) (hs : serializeScreen rb t = Except.ok s) :
    getUpdate rb t = Except.ok
      (0x55 :: 0x01 :: (o ++ (getTitle ++ (b ++ (c ++ s)))), withBlobs o getTitle b c s t) := by
  rw [getUpdate_eq rb t o b c s ho hb hc hs, h1, h2, h3, h4, h5]
  simp

/-- C11: with the rainbow off and the four computed blobs `o b c s` (the title blob is a
constant), `getUpdate` returns the empty string when every blob equals the remembered one,
and otherwise `U`, one count character and exactly the blobs that differ from the
remembered ones, in the order O, T, B, C, S; it remembers all five blobs. A second
`getUpdate` right after returns the empty string; after only a cursor move that changes the
C blob it returns `U`, the count character and exactly the new C blob; and the C blob of a
cursor at `(x, y)` with both below `0xD7FF` is `C`, `y + 1`, `x + 1`, `1`. -/
theorem getUpdate_topics (rb rb' : Nat → Int × Int) (t : ScrollingTerminal)
    (o b c s : JSString) (hr : t.rainbow = false)
    (ho : getScreenOpts t = Except.ok o) (hb : getButtons t = Except.ok b)
    (hc : getCursor t = Except.ok c) (hs : serializeScreen rb t = Except.ok s) :
    ∃ t1,
      getUpdate rb t = Except.ok
        (if ([(t._screenOpts, o), (t._title, getTitle), (t._buttons, b), (t._cursor, c),
              (t._screen, s)].filter (fun p => decide (p.1 ≠ some p.2))) = [] then []
          else 0x55 :: 0x01 ::
            (([(t._screenOpts, o), (t._title, getTitle), (t._buttons, b), (t._cursor, c),
              (t._screen, s)].filter (fun p => decide (p.1 ≠ some p.2))).map Prod.snd).flatten,
         t1) ∧
      getUpdate rb' t1 = Except.ok ([], t1) ∧
      (∀ (x' y' : Int) (c' : JSString),
        getCursor (withCursorAt x' y' t1) = Except.ok c' → c' ≠ c →
        ∃ t2, getUpdate rb' (withCursorAt x' y' t1) = Except.ok (0x55 :: 0x01 :: c', t2)) ∧
      (∀ x y : Nat, x < 0xD7FF → y < 0xD7FF → t.cursor.x = x → t.cursor.y = y →
        c = [0x43, y + 1, x + 1, 0x01]) := by
  have hs' : serializeScreen rb' t = Except.ok s := by
    rw [← serializeScreen_rainbow_off rb rb' t hr]; exact hs
  refine ⟨_, getUpdate_eq rb t o b c s ho hb hc hs, ?_, ?_, ?_⟩
  · have h := getUpdate_eq rb' (withBlobs o getTitle b c s t) o b c s ho hb hc hs'
    simpa [withBlobs] using h
  · intro x' y' c' hc' hne
    have h := getUpdate_eq rb' (withCursorAt x' y' (withBlobs o getTitle b c s t)) o b c' s
      ho hb hc' hs'
    refine ⟨withBlobs o getTitle b c' s (withCursorAt x' y' (withBlobs o getTitle b c s t)), ?_⟩
    rw [h]
    simp [withBlobs, withCursorAt, Ne.symm hne]
  · intro x y hx hy hcx hcy
    have := getCursor_small t x y hx hy hcx hcy
    rw [hc] at this
    exact Except.ok.inj this

/-- C11 at a new terminal, which has sent nothing yet, with two different colour oracles. -/
theorem getUpdate_topics_witness :
    new.rainbow = false ∧
    ∃ t1,
      getUpdate (fun _ => (0, 0)) new = Except.ok
        (if ([(new._screenOpts, [0x4f, 26, 81, 1, 8, 1, 898]), (new._title, getTitle),
              (new._buttons, [0x42, 1]), (new._cursor, [0x43, 1, 1, 1]),
              (new._screen, [0x53, 1, 1] ++ [26] ++ [81] ++ ([3, 1, 4, 1, 0x20] ++
                ((List.replicate 1999 0x20).map charUnits).flatten))].filter
                (fun p => decide (p.1 ≠ some p.2))) = [] then []
          else 0x55 :: 0x01 ::
            (([(new._screenOpts, [0x4f, 26, 81, 1, 8, 1, 898]), (new._title, getTitle),
              (new._buttons, [0x42, 1]), (new._cursor, [0x43, 1, 1, 1]),
              (new._screen, [0x53, 1, 1] ++ [26] ++ [81] ++ ([3, 1, 4, 1, 0x20] ++
                ((List.replicate 1999 0x20).map charUnits).flatten))].filter
                (fun p => decide (p.1 ≠ some p.2))).map Prod.snd).flatten,
         t1) ∧
      getUpdate (fun i => ((i : Int), 1)) t1 = Except.ok ([], t1) ∧
      (∀ (x' y' : Int) (c' : JSString),
        getCursor (withCursorAt x' y' t1) = Except.ok c' → c' ≠ [0x43, 1, 1, 1] →
        ∃ t2, getUpdate (fun i => ((i : Int), 1)) (withCursorAt x' y' t1) =
          Except.ok (0x55 :: 0x01 :: c', t2)) ∧
      (∀ x y : Nat, x < 0xD7FF → y < 0xD7FF → new.cursor.x = x → new.cursor.y = y →
        [0x43, 1, 1, 1] = [0x43, y + 1, x + 1, 0x01]) :=
  ⟨rfl, getUpdate_topics (fun _ => (0, 0)) (fun i => ((i : Int), 1)) new _ _ _ _ rfl
    getScreenOpts_new getButtons_new getCursor_new (serializeScreen_new _)⟩

/-- C12 (as amended): every non-empty update returned by `getUpdate` is `U`, then one single
character that is an `encodeAsCodePoint` code (the one-character encoding used for every
other field of the update, not a 2B pair), then the topic blobs, the first of which starts
with one of the tags `O T B C S`. -/
theorem getUpdate_count_field (rb : Nat → Int × Int) (t t1 : ScrollingTerminal) (u : JSString)
    (h : getUpdate rb t = Except.ok (u, t1)) (hne : u ≠ []) :
    ∃ count rest, u = 0x55 :: count :: rest ∧
      (∃ n : Int, encodeAsCodePoint n = Except.ok [count]) ∧
      (rest.head? = some 0x4f ∨ rest.head? = some 0x54 ∨ rest.head? = some 0x42 ∨
        rest.head? = some 0x43 ∨ rest.head? = some 0x53) := by
  obtain ⟨o, b, c, s, ho, hb, hc, hs⟩ := getUpdate_ok_blobs rb t t1 u h
  have h1 := getScreenOpts_head t o ho
  have h2 := getTitle_head
  have h3 := getButtons_head t b hb
  have h4 := getCursor_head t c hc
  have h5 := serializeScreen_head rb t s hs
  rw [getUpdate_eq rb t o b c s ho hb hc hs] at h
  have hu := (Prod.mk.inj (Except.ok.inj h)).1
  obtain ⟨x1, o', rfl⟩ : ∃ x o', o = x :: o' := by
    cases o with
    | nil => simp at h1
    | cons x o' => exact ⟨x, o', rfl⟩
  generalize getTitle = ti at h2 hu
  obtain ⟨x2, ti', rfl⟩ : ∃ x o', ti = x :: o' := by
    cases ti with
    | nil => simp at h2
    | cons x o' => exact ⟨x, o', rfl⟩
  obtain ⟨x3, b', rfl⟩ : ∃ x o', b = x :: o' := by
    cases b with
    | nil => simp at h3
    | cons x o' => exact ⟨x, o', rfl⟩
  obtain ⟨x4, c', rfl⟩ : ∃ x o', c = x :: o' := by
    cases c with
    | nil => simp at h4
    | cons x o' => exact ⟨x, o', rfl⟩
  obtain ⟨x5, s', rfl⟩ : ∃ x o', s = x :: o' := by
    cases s with
    | nil => simp at h5
    | cons x o' => exact ⟨x, o', rfl⟩
  simp only [List.head?_cons, Option.some.injEq] at h1 h2 h3 h4 h5
  subst h1 h2 h3 h4 h5
  by_cases c1 : t._screenOpts = some (0x4f :: o') <;>
    by_cases c2 : t._title = some (0x54 :: ti') <;>
    by_cases c3 : t._buttons = some (0x42 :: b') <;>
    by_cases c4 : t._cursor = some (0x43 :: c') <;>
    by_cases c5 : t._screen = some (0x53 :: s') <;>
    simp [c1, c2, c3, c4, c5] at hu <;>
    first
      | exact absurd hu hne
      | exact absurd hu.symm hne
      | (subst hu
         exact ⟨0x01, _, rfl, ⟨0, encodeAsCodePoint_zero⟩, by simp⟩)

/-- C12 (as amended) at the first update of a new terminal. -/
theorem getUpdate_count_field_witness :
    ∃ u t1, getUpdate (fun _ => (0, 0)) new = Except.ok (u, t1) ∧ u ≠ [] ∧
      ∃ count rest, u = 0x55 :: count :: rest ∧
        (∃ n : Int, encodeAsCodePoint n = Except.ok [count]) ∧
        (rest.head? = some 0x4f ∨ rest.head? = some 0x54 ∨ rest.head? = some 0x42 ∨
          rest.head? = some 0x43 ∨ rest.head? = some 0x53) :=
  ⟨_, _, getUpdate_first (fun _ => (0, 0)) new _ _ _ _ rfl rfl rfl rfl rfl getScreenOpts_new
      getButtons_new getCursor_new (serializeScreen_new _), List.cons_ne_nil _ _,
    getUpdate_count_field (fun _ => (0, 0)) new _ _
      (getUpdate_first (fun _ => (0, 0)) new _ _ _ _ rfl rfl rfl rfl rfl getScreenOpts_new
        getButtons_new getCursor_new (serializeScreen_new _)) (List.cons_ne_nil _ _)⟩

/-- C12 (counterexample to the claim as stated): the first update of a new terminal holds the
five blobs O, T, B, C, S, and what follows the `U` is the single character `0x01` and then
the `O` of the first blob, where the 2B encoding of 5 is the two characters `6 1` (and that
of 0 is `1 1`). -/
theorem getUpdate_count_not_2B :
    (∃ t1, getUpdate (fun _ => (0, 0)) new = Except.ok
      (0x55 :: 0x01 :: ([0x4f, 26, 81, 1, 8, 1, 898] ++ (getTitle ++ ([0x42, 1] ++
        ([0x43, 1, 1, 1] ++ ([0x53, 1, 1] ++ [26] ++ [81] ++ ([3, 1, 4, 1, 0x20] ++
          ((List.replicate 1999 0x20).map charUnits).flatten)))))), t1)) ∧
    encode2B 5 = [6, 1] ∧ encode2B 0 = [1, 1] :=
  ⟨⟨_, getUpdate_first _ new _ _ _ _ rfl rfl rfl rfl rfl getScreenOpts_new getButtons_new
      getCursor_new (serializeScreen_new _)⟩, by decide, by decide⟩

end ScrollingTerminal

/-! ## Theorems: the codes of colours and cells -/

namespace ScrollingTerminal

/-- The mask `0xFFF` keeps the value modulo 4096. -/
theorem and_0xFFF (a : Nat) : a &&& 0xFFF = a % 4096 := by
  have := Nat.and_pow_two_sub_one_eq_mod a 12
  simpa using this

/-- Setting bit 16 of a value below 4096 adds `0x10000`. -/
theorem or_0x10000 (a : Nat) (h : a < 4096) : a ||| 0x10000 = a + 0x10000 := by
  have h1 := Nat.mul_add_lt_is_or (show a < 2 ^ 16 by omega) 1
  have h2 : (2 : Nat) ^ 16 * 1 = 0x10000 := by norm_num
  rw [h2] at h1
  rw [Nat.lor_comm, ← h1, Nat.add_comm]

/-- The operator `>>` on a natural below `2^31` is the division by `2^k`. -/
theorem sar32_natCast (a k : Nat) (ha : a < 2147483648) (hk : k < 32) :
    sar32 (a : Int) k = ((a / 2 ^ k : Nat) : Int) := by
  unfold sar32
  rw [toInt32_natCast a ha, Nat.mod_eq_of_lt hk]
  norm_cast

/-- The code of an integer of `0..0xD7FE` is the one UTF-16 unit `n + 1`. -/
theorem encodeAsCodePoint_small (n : Nat) (hn : n < 0xD800) :
    encodeAsCodePoint (n : Int) = Except.ok [n + 1] := by
  have h1 : ¬ ((0xD800 : Int) ≤ (n : Int)) := by omega
  have h2 : ¬ ((n : Int) + 1 < 0 ∨ (0x10FFFF : Int) < (n : Int) + 1) := by omega
  have h3 : ((n : Int) + 1).toNat = n + 1 := by omega
  simp only [encodeAsCodePoint, fromCodePoint, if_neg h1, if_neg h2, h3, charUnits,
    if_pos (show n + 1 < 0x10000 by omega)]
  rfl

/-- The code of an integer of `0xD800..0x10F7FE` is the character `n + 0x801`. -/
theorem encodeAsCodePoint_large (n : Nat) (h1 : 0xD800 ≤ n) (h2 : n ≤ 0x10F7FE) :
    encodeAsCodePoint (n : Int) = Except.ok (charUnits (n + 0x801)) := by
  have h1' : ((0xD800 : Int) ≤ (n : Int)) := by omega
  have h2' : ¬ ((n : Int) + 0x801 < 0 ∨ (0x10FFFF : Int) < (n : Int) + 0x801) := by omega
  have h3 : ((n : Int) + 0x801).toNat = n + 0x801 := by omega
  simp only [encodeAsCodePoint, fromCodePoint, if_pos h1', if_neg h2', h3]
  rfl

/-- The two characters of a 24-bit colour: the low 12 bits of `c - 256` with bit 16 set, then the rest. -/
theorem encodeColor_split (c : Nat) (h1 : 256 ≤ c) (h2 : c - 256 < 2 ^ 24) :
    encodeColor (c : Int) =
      Except.ok (charUnits (((c - 256) % 4096 + 0x10000) + 0x801) ++ [(c - 256) / 4096 + 1]) := by
  obtain ⟨d, rfl⟩ : ∃ d, c = d + 256 := ⟨c - 256, by omega⟩
  simp only [Nat.add_sub_cancel] at h2 ⊢
  have hc : ¬ (((d + 256 : Nat) : Int) < 256) := by omega
  have hd : ((d + 256 : Nat) : Int) - 256 = (d : Int) := by omega
  have hlow : or32 (and32 (d : Int) 0xFFF) 0x10000 = ((d % 4096 + 0x10000 : Nat) : Int) := by
    have e1 := and32_natCast d 0xFFF (by omega) (by norm_num)
    rw [and_0xFFF] at e1
    have e1' : and32 (d : Int) 0xFFF = ((d % 4096 : Nat) : Int) := by exact_mod_cast e1
    rw [e1']
    have e2 := or32_natCast (d % 4096) 0x10000 (by omega) (by norm_num)
    rw [or_0x10000 _ (Nat.mod_lt _ (by norm_num))] at e2
    exact_mod_cast e2
  have hhigh : sar32 (d : Int) 12 = ((d / 4096 : Nat) : Int) := by
    have := sar32_natCast d 12 (by omega) (by norm_num)
    simpa using this
  have hq : d / 4096 < 4096 := by omega
  simp only [encodeColor, if_neg hc, hd, hlow, hhigh,
    encodeAsCodePoint_large _ (show 0xD800 ≤ d % 4096 + 0x10000 by omega)
      (show d % 4096 + 0x10000 ≤ 0x10F7FE by omega),
    encodeAsCodePoint_small _ (show d / 4096 < 0xD800 by omega), bind, Except.bind, pure,
    Except.pure]

/-- C22 (as amended): for every colour `c` up to the 24-bit colours (`c < 256 + 2^24`),
`encodeColor c` is the single character of code `c + 1` when `c < 256`, and otherwise two
characters: the first encodes the low 12 bits of `c - 256` with bit 16 set
(`((c - 256) & 0xFFF) | 0x10000`, sent as that value plus `0x801`), the second encodes the
remaining high bits `(c - 256) >> 12` (sent as that value plus 1). -/
theorem encodeColor_code_points (c : Nat) (h : c < 256 + 2 ^ 24) :
    encodeColor (c : Int) =
      if c < 256 then Except.ok [c + 1]
      else Except.ok
        (charUnits (((c - 256) % 4096 + 0x10000) + 0x801) ++ [(c - 256) / 4096 + 1]) := by
  split
  · rename_i hc
    have h1 : ((c : Nat) : Int) < 256 := by omega
    rw [encodeColor, if_pos h1]
    exact encodeAsCodePoint_small c (by omega)
  · exact encodeColor_split c (by omega) (by omega)

/-- C22 (as amended) at the colour `0x1445`. -/
theorem encodeColor_code_points_witness :
    (0x1445 : Nat) < 256 + 2 ^ 24 ∧
    encodeColor ((0x1445 : Nat) : Int) =
      if 0x1445 < 256 then Except.ok [0x1445 + 1]
      else Except.ok
        (charUnits (((0x1445 - 256) % 4096 + 0x10000) + 0x801) ++ [(0x1445 - 256) / 4096 + 1]) :=
  ⟨by decide, encodeColor_code_points 0x1445 (by decide)⟩

/-- C22 (counterexample to the claim as stated): the colours `0x1445` and `0x2445` differ in
their low 16 bits and have the same first character, the pair of code units of `U+10B46`;
they differ in the second character only. -/
theorem encodeColor_low_12_bits :
    encodeColor 0x1445 = Except.ok [0xD802, 0xDF46, 2] ∧
    encodeColor 0x2445 = Except.ok [0xD802, 0xDF46, 3] ∧
    charUnits 0x10B46 = [0xD802, 0xDF46] ∧
    (0x1445 : Nat) % 65536 ≠ 0x2445 % 65536 :=
  ⟨rfl, rfl, by decide, by decide⟩

/-- C30 (the code breaks the claim): `encodeAsCodePoint (0xD7FF)` is the lone surrogate
`U+D800`. The offset that skips the surrogates starts at `0xD800`, one too late, so `0xD7FE`
gives `U+D7FF`, `0xD7FF` gives `U+D800` and `0xD800` gives `U+E001`. The value is sent for
a cell with foreground 255 and background 215, whose combined colour is
`(215 << 8) | 255 = 0xD7FF`. -/
theorem encodeAsCodePoint_surrogate :
    encodeAsCodePoint 0xD7FF = Except.ok [0xD800] ∧
    or32 (shl32 215 8) 255 = 0xD7FF ∧
    serializeCell false false (fun _ => (0, 0)) none 0
        (some (Cell.mk 0x41 (Style.mk 255 215 3))) =
      Except.ok (Style.mk 255 215 3, 0, [0x03, 0xD800, 0x04, 4, 0x41]) ∧
    encodeAsCodePoint 0xD7FE = Except.ok [0xD7FF] ∧
    encodeAsCodePoint 0xD800 = Except.ok [0xE001] :=
  ⟨rfl, by decide, rfl, rfl, rfl⟩

/-- With the rainbow off, what one cell appends: the colour markers, the attribute marker and
the glyph, given the codes of its colours and attributes. -/
theorem serializeCell_markers (sr : Bool) (rb : Nat → Int × Int) (last : Option Style) (i : Nat)
    (c : Cell) (ef eb ea ec : JSString)
    (hfg : encodeColor c.style.fg = Except.ok ef) (hbg : encodeColor c.style.bg = Except.ok eb)
    (hat : encodeAsCodePoint c.style.attrs = Except.ok ea)
    (hboth : c.style.fg < 256 → c.style.bg < 256 →
      encodeAsCodePoint (or32 (shl32 c.style.bg 8) c.style.fg) = Except.ok ec) :
    serializeCell false sr rb last i (some c) = Except.ok (c.style, i,
      (if last.map (fun l => l.fg) ≠ some c.style.fg ∧ last.map (fun l => l.bg) ≠ some c.style.bg
        then (if c.style.fg < 256 ∧ c.style.bg < 256 then [0x03] ++ ec
          else [0x05] ++ ef ++ [0x06] ++ eb)
        else if last.map (fun l => l.fg) ≠ some c.style.fg then [0x05] ++ ef
        else if last.map (fun l => l.bg) ≠ some c.style.bg then [0x06] ++ eb
        else []) ++
      (if last.map (fun l => l.attrs) ≠ some c.style.attrs then [0x04] ++ ea else []) ++
      charUnits c.character) := by
  by_cases h1 : last.map (fun l => l.fg) = some c.style.fg <;>
    by_cases h2 : last.map (fun l => l.bg) = some c.style.bg <;>
    by_cases h3 : last.map (fun l => l.attrs) = some c.style.attrs <;>
    by_cases h4 : c.style.fg < 256 <;>
    by_cases h5 : c.style.bg < 256 <;>
    simp [serializeCell, h1, h2, h3, h4, h5, hfg, hbg, hat, hboth, bind, Except.bind, pure,
      Except.pure]

/-- With the rainbow off, the cells in order, each with the style of the cell before it. -/
theorem serializeCells_markers (sr : Bool) (rb : Nat → Int × Int) (cells : List Cell)
    (encFg encBg encAttrs encBoth : Style → JSString)
    (hfg : ∀ c ∈ cells, encodeColor c.style.fg = Except.ok (encFg c.style))
    (hbg : ∀ c ∈ cells, encodeColor c.style.bg = Except.ok (encBg c.style))
    (hat : ∀ c ∈ cells, encodeAsCodePoint c.style.attrs = Except.ok (encAttrs c.style))
    (hboth : ∀ c ∈ cells, c.style.fg < 256 → c.style.bg < 256 →
      encodeAsCodePoint (or32 (shl32 c.style.bg 8) c.style.fg) = Except.ok (encBoth c.style))
    (last : Option Style) (i : Nat) :
    serializeCells false sr rb (cells.map some) last i = Except.ok
      (List.zipWith (fun (last : Option Style) (c : Cell) =>
        (if last.map (fun l => l.fg) ≠ some c.style.fg ∧
            last.map (fun l => l.bg) ≠ some c.style.bg
          then (if c.style.fg < 256 ∧ c.style.bg < 256 then [0x03] ++ encBoth c.style
            else [0x05] ++ encFg c.style ++ [0x06] ++ encBg c.style)
          else if last.map (fun l => l.fg) ≠ some c.style.fg then [0x05] ++ encFg c.style
          else if last.map (fun l => l.bg) ≠ some c.style.bg then [0x06] ++ encBg c.style
          else []) ++
        (if last.map (fun l => l.attrs) ≠ some c.style.attrs then [0x04] ++ encAttrs c.style
          else []) ++
        charUnits c.character)
        (last :: cells.map (fun c => some c.style)) cells).flatten := by
  induction cells generalizing last with
  | nil => rfl
  | cons c cells ih =>
    have h1 := serializeCell_markers sr rb last i c _ _ _ _
      (hfg c (List.mem_cons_self _ _)) (hbg c (List.mem_cons_self _ _))
      (hat c (List.mem_cons_self _ _)) (hboth c (List.mem_cons_self _ _))
    have h2 := ih (fun c hc => hfg c (List.mem_cons_of_mem _ hc))
      (fun c hc => hbg c (List.mem_cons_of_mem _ hc))
      (fun c hc => hat c (List.mem_cons_of_mem _ hc))
      (fun c hc => hboth c (List.mem_cons_of_mem _ hc)) (some c.style)
    simp only [List.map_cons, serializeCells, h1, h2, bind, Except.bind, pure, Except.pure,
      List.zipWith_cons_cons, List.flatten_cons]

/-- Cells that repeat the style before them add their glyphs only. -/
theorem zipWith_same_style (st : Style) (cells : List Cell) (h : ∀ c ∈ cells, c.style = st)
    (f : Option Style → Cell → JSString) (g : Cell → JSString)
    (hf : ∀ c, c.style = st → f (some st) c = g c) :
    List.zipWith f (cells.map (fun c => some c.style)) (cells.drop 1) =
      (cells.drop 1).map g := by
  induction cells with
  | nil => rfl
  | cons c cells ih =>
    cases cells with
    | nil => rfl
    | cons d cells =>
      have hc : c.style = st := h c (List.mem_cons_self _ _)
      have hd : d.style = st := h d (List.mem_cons_of_mem _ (List.mem_cons_self _ _))
      have := ih (fun c hc => h c (List.mem_cons_of_mem _ hc))
      simp only [List.map_cons, List.drop_succ_cons, List.drop_zero, List.zipWith_cons_cons,
        hc, hf d hd] at this ⊢
      rw [this]

/-- C21: with the rainbow off, a grid of cells whose colour and attribute codes exist
serializes to the tag `S`, the four header fields (0, 0, height, width) and then, for each
cell in the order of the array, with the style of the cell before it (none for the first
cell): a colour marker for the colours that differ from the previous ones (`3` and one code
when both differ and both are below 256, else `5` with the foreground and `6` with the
background, each only when it differs), the marker `4` with the attributes only when they
differ, and the glyph. So a grid whose cells all have one style with colours below 256 is
the header, one marker `3`, one marker `4` and the glyphs, `width * height` of them on a
full grid. -/
theorem serializeScreen_markers (rb : Nat → Int × Int) (t : ScrollingTerminal)
    (cells : List Cell) (encFg encBg encAttrs encBoth : Style → JSString) (eh ew : JSString)
    (hr : t.rainbow = false) (hscreen : t.screen = cells.map some)
    (hh : encodeAsCodePoint (t.height : Int) = Except.ok eh)
    (hw : encodeAsCodePoint (t.width : Int) = Except.ok ew)
    (hfg : ∀ c ∈ cells, encodeColor c.style.fg = Except.ok (encFg c.style))
    (hbg : ∀ c ∈ cells, encodeColor c.style.bg = Except.ok (encBg c.style))
    (hat : ∀ c ∈ cells, encodeAsCodePoint c.style.attrs = Except.ok (encAttrs c.style))
    (hboth : ∀ c ∈ cells, c.style.fg < 256 → c.style.bg < 256 →
      encodeAsCodePoint (or32 (shl32 c.style.bg 8) c.style.fg) = Except.ok (encBoth c.style)) :
    serializeScreen rb t = Except.ok ([0x53, 1, 1] ++ eh ++ ew ++
      (List.zipWith (fun (last : Option Style) (c : Cell) =>
        (if last.map (fun l => l.fg) ≠ some c.style.fg ∧
            last.map (fun l => l.bg) ≠ some c.style.bg
          then (if c.style.fg < 256 ∧ c.style.bg < 256 then [0x03] ++ encBoth c.style
            else [0x05] ++ encFg c.style ++ [0x06] ++ encBg c.style)
          else if last.map (fun l => l.fg) ≠ some c.style.fg then [0x05] ++ encFg c.style
          else if last.map (fun l => l.bg) ≠ some c.style.bg then [0x06] ++ encBg c.style
          else []) ++
        (if last.map (fun l => l.attrs) ≠ some c.style.attrs then [0x04] ++ encAttrs c.style
          else []) ++
        charUnits c.character)
        (none :: cells.map (fun c => some c.style)) cells).flatten) ∧
    (∀ st : Style, (∀ c ∈ cells, c.style = st) → st.fg < 256 → st.bg < 256 → cells ≠ [] →
      t.screen.length = t.width * t.height →
      serializeScreen rb t = Except.ok ([0x53, 1, 1] ++ eh ++ ew ++
        ([0x03] ++ encBoth st ++ ([0x04] ++ encAttrs st) ++
          (cells.map (fun c => charUnits c.character)).flatten)) ∧
      (cells.map (fun c => charUnits c.character)).length = t.width * t.height) := by
  have main : serializeScreen rb t = Except.ok ([0x53, 1, 1] ++ eh ++ ew ++
      (List.zipWith (fun (last : Option Style) (c : Cell) =>
        (if last.map (fun l => l.fg) ≠ some c.style.fg ∧
            last.map (fun l => l.bg) ≠ some c.style.bg
          then (if c.style.fg < 256 ∧ c.style.bg < 256 then [0x03] ++ encBoth c.style
            else [0x05] ++ encFg c.style ++ [0x06] ++ encBg c.style)
          else if last.map (fun l => l.fg) ≠ some c.style.fg then [0x05] ++ encFg c.style
          else if last.map (fun l => l.bg) ≠ some c.style.bg then [0x06] ++ encBg c.style
          else []) ++
        (if last.map (fun l => l.attrs) ≠ some c.style.attrs then [0x04] ++ encAttrs c.style
          else []) ++
        charUnits c.character)
        (none :: cells.map (fun c => some c.style)) cells).flatten) := by
    unfold serializeScreen
    rw [hscreen, hh, hw, hr, encodeAsCodePoint_zero,
      serializeCells_markers t.superRainbow rb cells encFg encBg encAttrs encBoth hfg hbg hat
        hboth none 0]
    rfl
  refine ⟨main, ?_⟩
  intro st hst hf hb hne hlen
  refine ⟨?_, ?_⟩
  · rw [main]
    cases cells with
    | nil => exact absurd rfl hne
    | cons c cs =>
      have hc : c.style = st := hst c (List.mem_cons_self _ _)
      have hz := zipWith_same_style st (c :: cs) hst
        (fun (last : Option Style) (c : Cell) =>
          (if last.map (fun l => l.fg) ≠ some c.style.fg ∧
              last.map (fun l => l.bg) ≠ some c.style.bg
            then (if c.style.fg < 256 ∧ c.style.bg < 256 then [0x03] ++ encBoth c.style
              else [0x05] ++ encFg c.style ++ [0x06] ++ encBg c.style)
            else if last.map (fun l => l.fg) ≠ some c.style.fg then [0x05] ++ encFg c.style
            else if last.map (fun l => l.bg) ≠ some c.style.bg then [0x06] ++ encBg c.style
            else []) ++
          (if last.map (fun l => l.attrs) ≠ some c.style.attrs then [0x04] ++ encAttrs c.style
            else []) ++
          charUnits c.character)
        (fun c => charUnits c.character)
        (fun d hd => by simp [hd])
      rw [List.drop_succ_cons, List.drop_zero] at hz
      rw [List.zipWith_cons_cons, hz]
      simp [hc, hf, hb]
  · rw [List.length_map, ← hlen, hscreen, List.length_map]

/-- C21 at a new terminal, 2000 blanks of the default style. -/
theorem serializeScreen_markers_witness :
    serializeScreen (fun _ => (0, 0)) new = Except.ok ([0x53, 1, 1] ++ [26] ++ [81] ++
      (List.zipWith (fun (last : Option Style) (c : Cell) =>
        (if last.map (fun l => l.fg) ≠ some c.style.fg ∧
            last.map (fun l => l.bg) ≠ some c.style.bg
          then (if c.style.fg < 256 ∧ c.style.bg < 256 then [0x03] ++ [1]
            else [0x05] ++ [1] ++ [0x06] ++ [1])
          else if last.map (fun l => l.fg) ≠ some c.style.fg then [0x05] ++ [1]
          else if last.map (fun l => l.bg) ≠ some c.style.bg then [0x06] ++ [1]
          else []) ++
        (if last.map (fun l => l.attrs) ≠ some c.style.attrs then
            [0x04] ++ [1]
          else []) ++
        charUnits c.character)
        (none :: (List.replicate 2000 blank).map (fun c => some c.style))
        (List.replicate 2000 blank)).flatten) ∧
    (∀ st : Style, (∀ c ∈ List.replicate 2000 blank, c.style = st) → st.fg < 256 →
      st.bg < 256 → List.replicate 2000 blank ≠ [] →
      new.screen.length = new.width * new.height →
      serializeScreen (fun _ => (0, 0)) new = Except.ok ([0x53, 1, 1] ++ [26] ++ [81] ++
        ([0x03] ++ [1] ++ ([0x04] ++ [1]) ++
          ((List.replicate 2000 blank).map (fun c => charUnits c.character)).flatten)) ∧
      ((List.replicate 2000 blank).map (fun c => charUnits c.character)).length =
        new.width * new.height) :=
  serializeScreen_markers (fun _ => (0, 0)) new (List.replicate 2000 blank)
    (fun _ => [1]) (fun _ => [1]) (fun _ => [1]) (fun _ => [1]) [26] [81] rfl
    (by rw [List.map_replicate]; exact new_screen) rfl rfl
    (fun c hc => by rw [List.eq_of_mem_replicate hc]; rfl)
    (fun c hc => by rw [List.eq_of_mem_replicate hc]; rfl)
    (fun c hc => by rw [List.eq_of_mem_replicate hc]; rfl)
    (fun c hc _ _ => by rw [List.eq_of_mem_replicate hc]; rfl)

end ScrollingTerminal

/-! ## Theorems: the blink timer -/

/-- The timer after one more run of the callback. -/
theorem blinkTicks_succ (c : Option Int) (n : Nat) (s : BlinkTimer) :
    blinkTicks c (n + 1) s = blinkTick c (blinkTicks c n s) := by
  induction n generalizing s with
  | zero => rfl
  | succ n ih =>
    show blinkTicks c (n + 1) (blinkTick c s) = _
    rw [ih]
    rfl

/-- C29 (as amended): with blinking cells present (a count that is positive, or not set),
after `k` ticks of 200 ms from `resetBlink ()` the style flag is off exactly when
`k % 5 = 4`: on for 4 ticks (800 ms), then off for 1 tick (200 ms), with a period of 5
ticks; the counter of the callback is `k % 5`, and 0 while the flag is off. -/
theorem blink_period (c : Option Int) (hc : ∀ n, c = some n → 0 < n) (k : Nat) :
    blinkTicks c k resetBlink =
      { blinkStyleOn := decide (k % 5 ≠ 4), intervals := if k % 5 = 4 then 0 else k % 5 } := by
  have hstep : ∀ s : BlinkTimer, blinkTick c s =
      (if s.intervals + 1 ≥ 4 ∧ s.blinkStyleOn then { blinkStyleOn := false, intervals := 0 }
      else if s.intervals + 1 ≥ 1 ∧ ¬ s.blinkStyleOn then { blinkStyleOn := true, intervals := 0 }
      else { s with intervals := s.intervals + 1 }) := by
    intro s
    cases c with
    | none => rfl
    | some n =>
      have hn : ¬ n ≤ 0 := not_le.mpr (hc n rfl)
      simp only [blinkTick, hn, decide_False, Bool.false_eq_true, ↓reduceIte]
  induction k with
  | zero => rfl
  | succ k ih =>
    rw [blinkTicks_succ, ih, hstep]
    have h5 : k % 5 < 5 := Nat.mod_lt _ (by decide)
    have hk : (k + 1) % 5 = if k % 5 = 4 then 0 else k % 5 + 1 := by
      split <;> omega
    rcases (by omega : k % 5 = 0 ∨ k % 5 = 1 ∨ k % 5 = 2 ∨ k % 5 = 3 ∨ k % 5 = 4) with
      h | h | h | h | h <;> simp [h, hk]

/-- C29 (as amended) with 3 blinking cells, after 9 ticks: the flag is off. -/
theorem blink_period_witness :
    (∀ n, (some 3 : Option Int) = some n → 0 < n) ∧
    blinkTicks (some 3) 9 resetBlink =
      { blinkStyleOn := decide (9 % 5 ≠ 4), intervals := if 9 % 5 = 4 then 0 else 9 % 5 } :=
  ⟨fun n h => by rw [← Option.some.inj h]; decide, blink_period (some 3) (fun n h => by rw [← Option.some.inj h]; decide) 9⟩

/-- C29 (counterexample to the claim as stated): the flag is on after 3 ticks, off after 4
and on again after 5, so it is off for one tick of 200 ms, not for two. -/
theorem blink_off_one_tick :
    (blinkTicks (some 1) 3 resetBlink).blinkStyleOn = true ∧
    (blinkTicks (some 1) 4 resetBlink).blinkStyleOn = false ∧
    (blinkTicks (some 1) 5 resetBlink).blinkStyleOn = true := by
  decide

/-! ## Theorems: the redraw plan -/

namespace CanvasRenderer

/-- C28 (the code breaks the claim): in a grid of 5 by 5, `getAdjacentCells (5, 1)` for the
cell of column 0, row 1 holds the cells 4 and 9, which are in column 4, four columns away:
the offsets are added to the index and only `0 <= cell < width * height` is checked. For
the cell 12 in the middle the result is the eight neighbours. -/
theorem getAdjacentCells_wraps :
    getAdjacentCells 5 5 5 1 = [4, 9, 0, 10, 1, 6, 11] ∧
    (5 % 5 = 0 ∧ 4 % 5 = 4 ∧ 9 % 5 = 4) ∧
    getAdjacentCells 5 5 12 1 = [6, 11, 16, 7, 17, 8, 13, 18] := by
  decide

/-- C27 (the code breaks the claim): in a grid 3 wide and 2 high with the cells 2 (column 2,
row 0) and 4 (column 1, row 1) updated, the pass that fills the holes marks cell 3, which
is column 0 of row 1 and has no left neighbour in its row: the pass reads `cell - 1` and
`cell + 1` and never looks at the row. -/
theorem fillHoles_wraps :
    fillHoles (List.range (3 * 2)) [false, false, true, false, true, false] =
      [false, false, true, true, true, false] ∧
    (3 % 3 = 0 ∧ 3 / 3 = 1 ∧ 2 / 3 = 0) := by
  decide

/-- A map without updated cells has no holes to fill. -/
theorem fillHoles_of_all_false (cells : List Nat) (m : List Bool)
    (h : ∀ k : Int, mapGet m k = false) : fillHoles cells m = m := by
  induction cells with
  | nil => rfl
  | cons cell cells ih =>
    simp only [fillHoles, h, Bool.false_eq_true, ↓reduceIte, false_and, ih]

end CanvasRenderer

/-- Reading a map that was filled from a function of the cell. -/
theorem mapGet_map_range (n : Nat) (f : Nat → Bool) (a : Int) :
    mapGet ((List.range n).map f) a = if 0 ≤ a ∧ a < n then f a.toNat else false := by
  unfold mapGet
  by_cases h0 : a < 0
  · rw [if_pos h0, if_neg (by omega)]
  · rw [if_neg h0]
    by_cases h1 : a < n
    · have h2 : a.toNat < n := by omega
      rw [if_pos ⟨by omega, h1⟩, List.getD_eq_getElem?_getD, List.getElem?_map,
        List.getElem?_range h2]
      rfl
    · have h2 : n ≤ a.toNat := by omega
      rw [if_neg (by omega), List.getD_eq_getElem?_getD, List.getElem?_eq_none (by simpa using h2)]
      rfl

/-- Reading a map at a key it does not have yet. -/
theorem mapGet_length (m : List Bool) : mapGet m (m.length : Int) = false := by
  unfold mapGet
  rw [if_neg (by omega), Int.toNat_ofNat, List.getD_eq_getElem?_getD,
    List.getElem?_eq_none (le_refl _)]
  rfl

namespace CanvasRenderer

/-- The update map of the first loop: `didUpdate` of each cell, in order. -/
theorem updateLoop_snd (k : AttrBits) (r : CanvasRenderer) (cells : List Nat)
    (g : List (Int × List CellData)) (m : List Bool) :
    (updateLoop k r cells g m).2 = m ++ cells.map (fun c => (drawCell k r c).2) := by
  induction cells generalizing g m with
  | nil => simp [updateLoop]
  | cons c cells ih => simp [updateLoop, ih]

/-- The redraw loop decides each cell from the update map alone. -/
theorem redrawLoop_range (wide : Option JSString → Bool) (r : CanvasRenderer) (u : List Bool)
    (n a : Nat) (rm mc : List Bool) (hrm : rm.length = a) :
    redrawLoop wide r u (List.range' a n) rm mc =
      (rm ++ (List.range' a n).map (fun (cell : Nat) => mapGet u cell ||
          (if ¬ mapGet u cell then
            checkAdjacent wide r u cell (isTextWide wide (r.screen[cell]?))
              (getAdjacentCells r.width r.height cell
                (if isTextWide wide (r.screen[cell]?) then 2 else 1))
          else (false, false)).1),
       mc ++ (List.range' a n).map (fun (cell : Nat) =>
          (if ¬ mapGet u cell then
            checkAdjacent wide r u cell (isTextWide wide (r.screen[cell]?))
              (getAdjacentCells r.width r.height cell
                (if isTextWide wide (r.screen[cell]?) then 2 else 1))
          else (false, false)).2 || mapGet u cell)) := by
  induction n generalizing a rm mc with
  | zero => simp [redrawLoop]
  | succ n ih =>
    have hg : mapGet rm (a : Int) = false := by rw [← hrm]; exact mapGet_length rm
    rw [List.range'_succ, redrawLoop]
    simp only [hg, Bool.or_false]
    rw [ih (a + 1) _ _ (by simp [hrm])]
    simp

/-- The cells around a cell at radius 1. -/
theorem mem_getAdjacentCells_one (w h : Nat) (cell a : Int) :
    a ∈ getAdjacentCells w h cell 1 ↔ (0 ≤ a ∧ a < (w : Int) * h) ∧
      (a = cell - 1 - w ∨ a = cell - 1 ∨ a = cell - 1 + w ∨ a = cell - w ∨ a = cell + w ∨
        a = cell + 1 - w ∨ a = cell + 1 ∨ a = cell + 1 + w) := by
  have e : getAdjacentCells w h cell 1 =
      [cell + -1 + -1 * w, cell + -1 + 0 * w, cell + -1 + 1 * w, cell + 0 + -1 * w,
        cell + 0 + 1 * w, cell + 1 + -1 * w, cell + 1 + 0 * w, cell + 1 + 1 * w].filter
        (fun c => 0 ≤ c ∧ c < (w : Int) * h) := rfl
  rw [e, List.mem_filter]
  simp only [List.mem_cons, List.mem_singleton, List.not_mem_nil, or_false,
    decide_eq_true_eq]
  constructor
  · rintro ⟨h1, h2⟩
    exact ⟨h2, by omega⟩
  · rintro ⟨h1, h2⟩
    exact ⟨by omega, h1⟩

/-- With `graphics < 2` and no line flags, the loop over the radius-1 cells finds an updated
cell when there is one, and then the cell is masked. -/
theorem checkAdjacent_plain (wide : Option JSString → Bool) (r : CanvasRenderer) (u : List Bool)
    (cell : Nat) (wc : Bool) (hg : r.graphics < 2)
    (hlines : ∀ y : Nat, (r.screenLines[y]?).getD 0 = 0) (l : List Int)
    (hl : ∀ a ∈ l, a ∈ getAdjacentCells r.width r.height cell 1) :
    checkAdjacent wide r u cell wc l =
      (l.any (fun a => mapGet u a), l.any (fun a => mapGet u a)) := by
  induction l with
  | nil => rfl
  | cons a l ih =>
    have ha := hl a (List.mem_cons_self _ _)
    have ih' := ih (fun b hb => hl b (List.mem_cons_of_mem _ hb))
    by_cases hu : mapGet u a = true
    · simp [checkAdjacent, hu, hg, hlines, ha]
    · simp [checkAdjacent, hu, ih']

/-- The cells that have `(3, 3)` at radius 1, in a grid of at least 5 by 5. -/
theorem center_mem_getAdjacentCells (w h cell : Nat) (hw : 5 ≤ w) (hh : 5 ≤ h) :
    ((3 * w + 3 : Nat) : Int) ∈ getAdjacentCells w h (cell : Int) 1 ↔
      (2 ≤ cell % w ∧ cell % w ≤ 4 ∧ 2 ≤ cell / w ∧ cell / w ≤ 4) ∧ cell ≠ 3 * w + 3 := by
  have hwh : w * 5 ≤ w * h := Nat.mul_le_mul_left _ hh
  have hdm := Nat.div_add_mod cell w
  have hm : cell % w < w := Nat.mod_lt _ (by omega)
  rw [mem_getAdjacentCells_one]
  constructor
  · rintro ⟨-, h2⟩
    have key : ∀ q m : Nat, m + w * q = cell → m < w → cell / w = q ∧ cell % w = m :=
      fun q m e hlt => (Nat.div_mod_unique (by omega)).mpr ⟨e, hlt⟩
    push_cast at h2
    rcases h2 with h2 | h2 | h2 | h2 | h2 | h2 | h2 | h2
    · obtain ⟨e1, e2⟩ := key 4 4 (by omega) (by omega); omega
    · obtain ⟨e1, e2⟩ := key 3 4 (by omega) (by omega); omega
    · obtain ⟨e1, e2⟩ := key 2 4 (by omega) (by omega); omega
    · obtain ⟨e1, e2⟩ := key 4 3 (by omega) (by omega); omega
    · obtain ⟨e1, e2⟩ := key 2 3 (by omega) (by omega); omega
    · obtain ⟨e1, e2⟩ := key 4 2 (by omega) (by omega); omega
    · obtain ⟨e1, e2⟩ := key 3 2 (by omega) (by omega); omega
    · obtain ⟨e1, e2⟩ := key 2 2 (by omega) (by omega); omega
  · rintro ⟨⟨h1, h2, h3, h4⟩, hne⟩
    refine ⟨by push_cast; omega, ?_⟩
    push_cast
    rcases (by omega : cell / w = 2 ∨ cell / w = 3 ∨ cell / w = 4) with hq | hq | hq <;>
      rw [hq] at hdm <;> omega

/-- What a draw pass decides when no status screen is set. -/
theorem draw_snd (k : AttrBits) (wide : Option JSString → Bool) (r : CanvasRenderer)
    (hstatus : r.statusScreen = false) :
    (draw k wide r).2 = some
      { updateMap :=
          if r.graphics ≥ 1 then
            fillHoles (List.range (r.width * r.height))
              ((List.range (r.width * r.height)).map (fun c => (drawCell k r c).2))
          else (List.range (r.width * r.height)).map (fun c => (drawCell k r c).2)
        redrawMap := (redrawLoop wide { r with drawnScreenLines := r.screenLines }
          (if r.graphics ≥ 1 then
            fillHoles (List.range (r.width * r.height))
              ((List.range (r.width * r.height)).map (fun c => (drawCell k r c).2))
          else (List.range (r.width * r.height)).map (fun c => (drawCell k r c).2))
          (List.range (r.width * r.height)) [] []).1
        maskedCells := (redrawLoop wide { r with drawnScreenLines := r.screenLines }
          (if r.graphics ≥ 1 then
            fillHoles (List.range (r.width * r.height))
              ((List.range (r.width * r.height)).map (fun c => (drawCell k r c).2))
          else (List.range (r.width * r.height)).map (fun c => (drawCell k r c).2))
          (List.range (r.width * r.height)) [] []).2
        regions :=
          if r.graphics ≥ 1 then
            clipRegions r.width r.height
              (redrawLoop wide { r with drawnScreenLines := r.screenLines }
                (if r.graphics ≥ 1 then
                  fillHoles (List.range (r.width * r.height))
                    ((List.range (r.width * r.height)).map (fun c => (drawCell k r c).2))
                else (List.range (r.width * r.height)).map (fun c => (drawCell k r c).2))
                (List.range (r.width * r.height)) [] []).2
          else none } := by
  unfold draw
  rw [if_neg (by simp [hstatus])]
  simp only [updateLoop_snd, List.nil_append]

/-- C23: in the default tier (`graphics = 0`), with no status screen, a grid of at least
5 by 5 cells, no line flags, no wide glyph, and `didUpdate` true at the cell of column 3,
row 3 alone (the drawn state differs there only and no cell is or was the cursor), the
draw pass marks for redraw exactly the cells of columns 2 to 4 in rows 2 to 4, that cell
and its eight neighbours, and it masks the same cells. -/
theorem draw_single_change (k : AttrBits) (wide : Option JSString → Bool) (r : CanvasRenderer)
    (hstatus : r.statusScreen = false) (hg : r.graphics = 0)
    (hw : 5 ≤ r.width) (hh : 5 ≤ r.height)
    (hlines : ∀ y : Nat, (r.screenLines[y]?).getD 0 = 0)
    (hwide : ∀ cell : Nat, isTextWide wide (r.screen[cell]?) = false)
    (hupd : ∀ cell : Nat, cell < r.width * r.height →
      (drawCell k r cell).2 = decide (cell = 3 * r.width + 3)) :
    ∃ plan, (draw k wide r).2 = some plan ∧
      plan.redrawMap = (List.range (r.width * r.height)).map (fun cell =>
        decide (2 ≤ cell % r.width ∧ cell % r.width ≤ 4 ∧
          2 ≤ cell / r.width ∧ cell / r.width ≤ 4)) ∧
      plan.maskedCells = plan.redrawMap := by
  have hu : (List.range (r.width * r.height)).map (fun c => (drawCell k r c).2) =
      (List.range (r.width * r.height)).map (fun c => decide (c = 3 * r.width + 3)) :=
    List.map_congr_left (fun c hc => hupd c (List.mem_range.mp hc))
  have hg1 : ¬ (r.graphics ≥ 1) := by rw [hg]; decide
  have hcell : ∀ cell : Nat, cell < r.width * r.height →
      (mapGet ((List.range (r.width * r.height)).map (fun c => decide (c = 3 * r.width + 3)))
          (cell : Int) ||
        (getAdjacentCells r.width r.height (cell : Int) 1).any (fun a =>
          mapGet ((List.range (r.width * r.height)).map
            (fun c => decide (c = 3 * r.width + 3))) a)) =
      decide (2 ≤ cell % r.width ∧ cell % r.width ≤ 4 ∧
        2 ≤ cell / r.width ∧ cell / r.width ≤ 4) := by
    intro cell hc
    have hany : (getAdjacentCells r.width r.height (cell : Int) 1).any (fun a =>
          mapGet ((List.range (r.width * r.height)).map
            (fun c => decide (c = 3 * r.width + 3))) a) =
        decide (((3 * r.width + 3 : Nat) : Int) ∈ getAdjacentCells r.width r.height cell 1) := by
      rw [Bool.eq_iff_iff, List.any_eq_true, decide_eq_true_eq]
      constructor
      · rintro ⟨a, ha, h1⟩
        rw [mapGet_map_range] at h1
        split at h1
        · rw [decide_eq_true_eq] at h1
          have : a = ((3 * r.width + 3 : Nat) : Int) := by omega
          rw [← this]; exact ha
        · exact absurd h1 (by decide)
      · intro h1
        refine ⟨_, h1, ?_⟩
        have hb := ((mem_getAdjacentCells_one _ _ _ _).mp h1).1
        rw [mapGet_map_range, if_pos (by exact_mod_cast hb), Int.toNat_ofNat]
        exact decide_eq_true rfl
    rw [hany, mapGet_map_range, if_pos ⟨by omega, by exact_mod_cast hc⟩, Int.toNat_ofNat,
      Bool.eq_iff_iff, Bool.or_eq_true, decide_eq_true_eq, decide_eq_true_eq,
      decide_eq_true_eq, center_mem_getAdjacentCells _ _ _ hw hh]
    constructor
    · rintro (h1 | h1)
      · have e := (Nat.div_mod_unique (show 0 < r.width by omega)).mpr
          ⟨show 3 + r.width * 3 = cell by omega, by omega⟩
        omega
      · exact h1.1
    · intro h1
      by_cases h2 : cell = 3 * r.width + 3
      · exact Or.inl h2
      · exact Or.inr ⟨h1, h2⟩
  have hred : redrawLoop wide { r with drawnScreenLines := r.screenLines }
      ((List.range (r.width * r.height)).map (fun c => decide (c = 3 * r.width + 3)))
      (List.range (r.width * r.height)) [] [] =
      ((List.range (r.width * r.height)).map (fun cell =>
        decide (2 ≤ cell % r.width ∧ cell % r.width ≤ 4 ∧
          2 ≤ cell / r.width ∧ cell / r.width ≤ 4)),
       (List.range (r.width * r.height)).map (fun cell =>
        decide (2 ≤ cell % r.width ∧ cell % r.width ≤ 4 ∧
          2 ≤ cell / r.width ∧ cell / r.width ≤ 4))) := by
    rw [List.range_eq_range', redrawLoop_range wide _ _ _ 0 [] [] rfl]
    simp only [List.nil_append, hwide, Bool.false_eq_true, ↓reduceIte]
    rw [← List.range_eq_range']
    refine Prod.ext ?_ ?_
    · refine List.map_congr_left (fun cell hc => ?_)
      rw [← hcell cell (List.mem_range.mp hc)]
      by_cases hm : mapGet ((List.range (r.width * r.height)).map
          (fun c => decide (c = 3 * r.width + 3))) (cell : Int) = true
      · simp [hm]
      · rw [if_pos hm, checkAdjacent_plain wide { r with drawnScreenLines := r.screenLines } _
          cell false (by show r.graphics < 2; rw [hg]; decide) hlines _ (fun a ha => ha)]
    · refine List.map_congr_left (fun cell hc => ?_)
      rw [← hcell cell (List.mem_range.mp hc)]
      by_cases hm : mapGet ((List.range (r.width * r.height)).map
          (fun c => decide (c = 3 * r.width + 3))) (cell : Int) = true
      · simp [hm]
      · rw [if_pos hm, checkAdjacent_plain wide { r with drawnScreenLines := r.screenLines } _
          cell false (by show r.graphics < 2; rw [hg]; decide) hlines _ (fun a ha => ha),
          Bool.or_comm]
  rw [draw_snd k wide r hstatus]
  refine ⟨_, rfl, ?_, ?_⟩
  · simp only [if_neg hg1, hu, hred]
  · simp only [if_neg hg1, hu, hred]

/-- C23 at the sample grid, with attribute bits 1, 2, 4, 16, 32, 64 and no wide glyph. -/
theorem draw_single_change_witness :
    ∃ plan, (draw (AttrBits.mk 1 2 4 16 32 64) (fun _ => false) sampleGrid).2 = some plan ∧
      plan.redrawMap = (List.range (sampleGrid.width * sampleGrid.height)).map (fun cell =>
        decide (2 ≤ cell % sampleGrid.width ∧ cell % sampleGrid.width ≤ 4 ∧
          2 ≤ cell / sampleGrid.width ∧ cell / sampleGrid.width ≤ 4)) ∧
      plan.maskedCells = plan.redrawMap :=
  draw_single_change (AttrBits.mk 1 2 4 16 32 64) (fun _ => false) sampleGrid rfl rfl
    (by decide) (by decide) (fun y => by simp [sampleGrid, CanvasRenderer.new])
    (fun cell => by simp [isTextWide]) (by decide)

end CanvasRenderer

/-- Reading an array after an assignment. -/
theorem arrayGet_arraySet {α : Type} (a : List (Option α)) (i c : Nat) (v : α) :
    arrayGet (arraySet a (i : Int) v) c = if c = i then some v else arrayGet a c := by
  unfold arrayGet arraySet
  rw [if_neg (by omega), Int.toNat_ofNat]
  by_cases hi : i < a.length
  · rw [if_pos hi, List.getElem?_set]
    by_cases hc : c = i
    · subst hc
      simp [hi]
    · rw [if_neg (Ne.symm hc), if_neg hc]
  · rw [if_neg hi]
    by_cases hc : c = i
    · subst hc
      rw [if_pos rfl, List.getElem?_append_right (by simp; omega)]
      have : c - (a ++ List.replicate (c - a.length) none).length = 0 := by simp; omega
      rw [this]
      rfl
    · rw [if_neg hc]
      by_cases hlt : c < a.length
      · rw [List.append_assoc, List.getElem?_append_left hlt]
      · have h1 : a[c]? = none := List.getElem?_eq_none (by omega)
        rw [h1]
        by_cases hlt2 : c < i
        · rw [List.getElem?_append_left (by simp; omega),
            List.getElem?_append_right (by omega), List.getElem?_replicate]
          split <;> rfl
        · rw [List.getElem?_eq_none (by simp; omega)]

/-- Reading an array after the assignments of the redrawn cells of a list, when the value
stored for a cell depends on the cell alone. -/
theorem arrayGet_foldl {α : Type} (rm : List Bool) (val : CellData → α) (V : Nat → α)
    (L : List CellData) (hV : ∀ d ∈ L, val d = V d.cell) (a0 : List (Option α)) (c : Nat) :
    arrayGet (L.foldl (fun a d => if mapGet rm d.cell then arraySet a d.cell (val d) else a) a0) c
      = if mapGet rm c ∧ (∃ d ∈ L, d.cell = c) then some (V c) else arrayGet a0 c := by
  induction L generalizing a0 with
  | nil => simp
  | cons d L ih =>
    rw [List.foldl_cons, ih (fun e he => hV e (List.mem_cons_of_mem _ he))]
    by_cases h1 : mapGet rm c = true ∧ ∃ e ∈ L, e.cell = c
    · rw [if_pos h1, if_pos ⟨h1.1, by
        obtain ⟨e, he, hc⟩ := h1.2
        exact ⟨e, List.mem_cons_of_mem _ he, hc⟩⟩]
    · rw [if_neg h1]
      by_cases h2 : mapGet rm (d.cell : Int) = true
      · rw [if_pos h2, arrayGet_arraySet]
        by_cases h3 : c = d.cell
        · rw [if_pos h3, if_pos ⟨by rw [h3]; exact h2, d, List.mem_cons_self _ _, h3.symm⟩,
            hV d (List.mem_cons_self _ _), h3]
        · rw [if_neg h3, if_neg]
          rintro ⟨h4, e, he, hc⟩
          rcases List.mem_cons.mp he with rfl | he
          · exact h3 hc.symm
          · exact h1 ⟨h4, e, he, hc⟩
      · rw [if_neg h2, if_neg]
        rintro ⟨h4, e, he, hc⟩
        rcases List.mem_cons.mp he with rfl | he
        · rw [hc] at h2; exact h2 h4
        · exact h1 ⟨h4, e, he, hc⟩

namespace CanvasRenderer

/-- The second pass over cells none of which is the cursor: each drawn array takes the
values of the redrawn cells of the list, and nothing else changes. -/
theorem snapshotLoop_eq (rm : List Bool) (L : List CellData) (r : CanvasRenderer)
    (hcur : ∀ d ∈ L, d.isCursor = false) :
    snapshotLoop rm L r = { r with
      drawnScreen := L.foldl
        (fun a d => if mapGet rm d.cell then arraySet a d.cell d.text else a) r.drawnScreen
      drawnScreenFG := L.foldl
        (fun a d => if mapGet rm d.cell then arraySet a d.cell d.fg else a) r.drawnScreenFG
      drawnScreenBG := L.foldl
        (fun a d => if mapGet rm d.cell then arraySet a d.cell d.bg else a) r.drawnScreenBG
      drawnScreenAttrs := L.foldl
        (fun a d => if mapGet rm d.cell then arraySet a d.cell d.attrs else a)
        r.drawnScreenAttrs } := by
  induction L generalizing r with
  | nil => rfl
  | cons d L ih =>
    have hd := hcur d (List.mem_cons_self _ _)
    rw [snapshotLoop]
    by_cases h : mapGet rm (d.cell : Int) = true
    · simp only [h, ↓reduceIte, hd, Bool.false_eq_true, List.foldl_cons]
      rw [ih _ (fun e he => hcur e (List.mem_cons_of_mem _ he))]
    · simp only [h, Bool.false_eq_true, ↓reduceIte, List.foldl_cons]
      rw [ih _ (fun e he => hcur e (List.mem_cons_of_mem _ he))]

/-- The second pass over two lists of cells, one after the other. -/
theorem snapshotLoop_append (rm : List Bool) (L1 L2 : List CellData) (r : CanvasRenderer) :
    snapshotLoop rm (L1 ++ L2) r = snapshotLoop rm L2 (snapshotLoop rm L1 r) := by
  induction L1 generalizing r with
  | nil => rfl
  | cons d L ih =>
    rw [List.cons_append, snapshotLoop, snapshotLoop]
    split <;> rw [ih]

/-- The second pass over the font groups is the pass over their cells, group after group. -/
theorem snapshotGroups_eq (rm : List Bool) (groups : List (Int × List CellData))
    (r : CanvasRenderer) :
    snapshotGroups rm groups r = snapshotLoop rm (groups.map (fun g => g.2)).flatten r := by
  induction groups generalizing r with
  | nil => rfl
  | cons g groups ih =>
    rw [snapshotGroups, ih, List.map_cons, List.flatten_cons, snapshotLoop_append]

/-- The cells of the font groups after a push. -/
theorem mem_groupPush (groups : List (Int × List CellData)) (font : Int) (d e : CellData) :
    e ∈ ((groupPush groups font d).map (fun g => g.2)).flatten ↔
      e = d ∨ e ∈ (groups.map (fun g => g.2)).flatten := by
  induction groups with
  | nil => simp [groupPush]
  | cons g groups ih =>
    obtain ⟨f, ds⟩ := g
    rw [groupPush]
    split
    · simp only [List.map_cons, List.flatten_cons, List.mem_append, List.mem_singleton]
      tauto
    · simp only [List.map_cons, List.flatten_cons, List.mem_append, ih]
      tauto

/-- The cells of the font groups after the first loop: the data of every cell. -/
theorem mem_updateLoop (k : AttrBits) (r : CanvasRenderer) (cells : List Nat)
    (g : List (Int × List CellData)) (m : List Bool) (e : CellData) :
    e ∈ ((updateLoop k r cells g m).1.map (fun g => g.2)).flatten ↔
      e ∈ (g.map (fun g => g.2)).flatten ∨ ∃ c ∈ cells, e = (drawCell k r c).1 := by
  induction cells generalizing g m with
  | nil => simp [updateLoop]
  | cons c cells ih =>
    rw [updateLoop, ih, mem_groupPush]
    simp only [List.mem_cons, exists_eq_or_imp]
    tauto

end CanvasRenderer

/-- Setting a key of a map keeps the keys that were set. -/
theorem mapGet_set_true (m : List Bool) (i : Nat) (a : Int) (h : mapGet m a = true) :
    mapGet (m.set i true) a = true := by
  unfold mapGet at h ⊢
  split at h
  · exact absurd h (by decide)
  · rename_i h0
    rw [if_neg h0]
    rw [List.getD_eq_getElem?_getD] at h ⊢
    rw [List.getElem?_set]
    split
    · split
      · rfl
      · rename_i h1 h2
        rw [List.getElem?_eq_none (by omega)] at h
        exact h
    · exact h

namespace CanvasRenderer

/-- Filling the holes keeps the cells that updated. -/
theorem fillHoles_mono (cells : List Nat) (m : List Bool) (a : Int) (h : mapGet m a = true) :
    mapGet (fillHoles cells m) a = true := by
  induction cells generalizing m with
  | nil => exact h
  | cons c cells ih =>
    rw [fillHoles]
    split
    · exact ih m h
    · simp only
      split
      · exact ih _ (mapGet_set_true m c a h)
      · exact ih m h

/-- With no updated cell in the map, the loop over the adjacent cells finds none. -/
theorem checkAdjacent_all_false (wide : Option JSString → Bool) (r : CanvasRenderer)
    (u : List Bool) (cell : Nat) (wc : Bool) (hu : ∀ a : Int, mapGet u a = false)
    (l : List Int) : checkAdjacent wide r u cell wc l = (false, false) := by
  induction l with
  | nil => rfl
  | cons a l ih => simp [checkAdjacent, hu, ih]

/-- The flag `didUpdate` of a cell, in terms of the data pushed for the cell. -/
theorem drawCell_snd (k : AttrBits) (r : CanvasRenderer) (cell : Nat) :
    (drawCell k r cell).2 = decide (
      (drawCell k r cell).1.text ≠ (arrayGet r.drawnScreen cell).join ∨
      some (drawCell k r cell).1.fg ≠ arrayGet r.drawnScreenFG cell ∨
      some (drawCell k r cell).1.bg ≠ arrayGet r.drawnScreenBG cell ∨
      some (drawCell k r cell).1.attrs ≠ arrayGet r.drawnScreenAttrs cell ∨
      r.screenLines[cell / r.width]? ≠ r.drawnScreenLines[cell / r.width]? ∨
      (drawCell k r cell).1.isCursor = true ∨
      decide (((cell % r.width : Nat) : Int) = r.drawnCursor.x ∧
        ((cell / r.width : Nat) : Int) = r.drawnCursor.y) = true ∨
      ((drawCell k r cell).1.isCursor = true ∧ r.cursor.style ≠ r.drawnCursor.style) ∨
      ((drawCell k r cell).1.isCursor = true ∧ r.cursor.hanging ≠ r.drawnCursor.hanging)) :=
  rfl

/-- A cell that did not update is drawn as it resolves, on a row whose line flags are the
drawn ones, and it is not the cursor, now or before. -/
theorem drawCell_snd_eq_false (k : AttrBits) (r : CanvasRenderer) (cell : Nat) :
    (drawCell k r cell).2 = false ↔
      ((drawCell k r cell).1.text = (arrayGet r.drawnScreen cell).join ∧
       some (drawCell k r cell).1.fg = arrayGet r.drawnScreenFG cell ∧
       some (drawCell k r cell).1.bg = arrayGet r.drawnScreenBG cell ∧
       some (drawCell k r cell).1.attrs = arrayGet r.drawnScreenAttrs cell ∧
       r.screenLines[cell / r.width]? = r.drawnScreenLines[cell / r.width]? ∧
       (drawCell k r cell).1.isCursor = false ∧
       ¬ (((cell % r.width : Nat) : Int) = r.drawnCursor.x ∧
          ((cell / r.width : Nat) : Int) = r.drawnCursor.y)) := by
  rw [drawCell_snd]
  generalize (drawCell k r cell).1 = d
  cases hcur : d.isCursor <;> simp

/-- The data pushed for a cell names the cell. -/
theorem drawCell_cell (k : AttrBits) (r : CanvasRenderer) (cell : Nat) :
    (drawCell k r cell).1.cell = cell := rfl

/-- The data pushed for a cell does not depend on what was drawn before. -/
theorem drawCell_fst_drawn (k : AttrBits) (r : CanvasRenderer) (cell : Nat)
    (a1 : List (Option (Option JSString))) (a2 a3 a4 : List (Option Int)) (a5 : List Int)
    (a6 : DrawnCursor) :
    (drawCell k { r with
      drawnScreen := a1
      drawnScreenFG := a2
      drawnScreenBG := a3
      drawnScreenAttrs := a4
      drawnScreenLines := a5
      drawnCursor := a6 } cell).1 = (drawCell k r cell).1 := rfl

/-- The redraw map holds every cell that updated. -/
theorem redrawLoop_fst_of_update (wide : Option JSString → Bool) (r : CanvasRenderer)
    (u : List Bool) (n c : Nat) (hc : c < n) (hu : mapGet u c = true) :
    mapGet (redrawLoop wide r u (List.range n) [] []).1 c = true := by
  rw [List.range_eq_range', redrawLoop_range wide r u n 0 [] [] rfl, List.nil_append,
    ← List.range_eq_range', mapGet_map_range, if_pos ⟨by omega, by exact_mod_cast hc⟩,
    Int.toNat_ofNat, hu]
  rfl

/-- The renderer after a draw pass with no cursor cell: only the drawn state changes, the
drawn arrays take the data of the cells of the redraw map, which holds every cell that
updated. -/
theorem draw_fst (k : AttrBits) (wide : Option JSString → Bool) (r : CanvasRenderer)
    (hstatus : r.statusScreen = false)
    (hcur : ∀ cell : Nat, (drawCell k r cell).1.isCursor = false) :
    ∃ (rm : List Bool) (L : List CellData),
      (∀ c, c < r.width * r.height → (drawCell k r c).2 = true → mapGet rm c = true) ∧
      (∀ d, d ∈ L ↔ ∃ c, c < r.width * r.height ∧ d = (drawCell k r c).1) ∧
      (draw k wide r).1 = { r with
        drawnScreen := L.foldl
          (fun a d => if mapGet rm d.cell then arraySet a d.cell d.text else a) r.drawnScreen
        drawnScreenFG := L.foldl
          (fun a d => if mapGet rm d.cell then arraySet a d.cell d.fg else a) r.drawnScreenFG
        drawnScreenBG := L.foldl
          (fun a d => if mapGet rm d.cell then arraySet a d.cell d.bg else a) r.drawnScreenBG
        drawnScreenAttrs := L.foldl
          (fun a d => if mapGet rm d.cell then arraySet a d.cell d.attrs else a)
          r.drawnScreenAttrs
        drawnScreenLines := r.screenLines
        drawnCursor := DrawnCursor.mk (-1) (-1) (some []) (some false) } := by
  have hL : ∀ d, d ∈ ((updateLoop k r (List.range (r.width * r.height)) [] []).1.map
      (fun g => g.2)).flatten ↔ ∃ c, c < r.width * r.height ∧ d = (drawCell k r c).1 := by
    intro d
    rw [mem_updateLoop]
    simp [List.mem_range]
  refine ⟨(redrawLoop wide { r with drawnScreenLines := r.screenLines }
      (if r.graphics ≥ 1 then
        fillHoles (List.range (r.width * r.height))
          (updateLoop k r (List.range (r.width * r.height)) [] []).2
      else (updateLoop k r (List.range (r.width * r.height)) [] []).2)
      (List.range (r.width * r.height)) [] []).1, _, ?_, hL, ?_⟩
  rotate_left
  · unfold draw
    rw [if_neg (by simp [hstatus])]
    simp only
    rw [snapshotGroups_eq, snapshotLoop_eq _ _ _ (fun d hd => by
      obtain ⟨c, -, rfl⟩ := (hL d).mp hd
      exact hcur c)]
  · intro c hc hu
    apply redrawLoop_fst_of_update _ _ _ _ _ hc
    rw [updateLoop_snd, List.nil_append]
    have h0 : mapGet ((List.range (r.width * r.height)).map (fun c => (drawCell k r c).2))
        (c : Int) = true := by
      rw [mapGet_map_range, if_pos ⟨by omega, by exact_mod_cast hc⟩, Int.toNat_ofNat, hu]
    split
    · exact fillHoles_mono _ _ _ h0
    · exact h0

/-- With no updated cell in the map, no cell is redrawn or masked. -/
theorem redrawLoop_all_false (wide : Option JSString → Bool) (r : CanvasRenderer)
    (u : List Bool) (n : Nat) (hu : ∀ a : Int, mapGet u a = false) :
    redrawLoop wide r u (List.range n) [] [] =
      (List.replicate n false, List.replicate n false) := by
  rw [List.range_eq_range', redrawLoop_range wide r u n 0 [] [] rfl]
  simp [hu, checkAdjacent_all_false wide r u _ _ hu]

/-- With an empty redraw map the second pass changes nothing. -/
theorem snapshotLoop_all_false (rm : List Bool) (hrm : ∀ a : Int, mapGet rm a = false)
    (L : List CellData) (r : CanvasRenderer) : snapshotLoop rm L r = r := by
  induction L generalizing r with
  | nil => rfl
  | cons d L ih => rw [snapshotLoop, hrm, if_neg (by decide), ih]

/-- Reading a map without a set key. -/
theorem mapGet_replicate_false (n : Nat) (a : Int) : mapGet (List.replicate n false) a = false := by
  unfold mapGet
  split
  · rfl
  · rw [List.getD_eq_getElem?_getD, List.getElem?_replicate]
    split <;> rfl

/-- A draw pass in which no cell updates: it redraws and masks nothing, and it only
copies the line flags and resets the drawn cursor. -/
theorem draw_of_no_update (k : AttrBits) (wide : Option JSString → Bool) (r : CanvasRenderer)
    (hstatus : r.statusScreen = false)
    (hupd : ∀ c, c < r.width * r.height → (drawCell k r c).2 = false) :
    draw k wide r =
      ({ r with
          drawnScreenLines := r.screenLines
          drawnCursor := DrawnCursor.mk (-1) (-1) (some []) (some false) },
        some
          { updateMap := List.replicate (r.width * r.height) false
            redrawMap := List.replicate (r.width * r.height) false
            maskedCells := List.replicate (r.width * r.height) false
            regions :=
              if r.graphics ≥ 1 then
                clipRegions r.width r.height (List.replicate (r.width * r.height) false)
              else none }) := by
  have hu : (updateLoop k r (List.range (r.width * r.height)) [] []).2 =
      List.replicate (r.width * r.height) false := by
    rw [updateLoop_snd, List.nil_append,
      List.map_congr_left (fun c hc => hupd c (List.mem_range.mp hc))]
    simp
  have hf : (if r.graphics ≥ 1 then
        fillHoles (List.range (r.width * r.height)) (List.replicate (r.width * r.height) false)
      else List.replicate (r.width * r.height) false) =
      List.replicate (r.width * r.height) false := by
    split
    · exact fillHoles_of_all_false _ _ (mapGet_replicate_false _)
    · rfl
  unfold draw
  rw [if_neg (by simp [hstatus])]
  simp only [hu, hf, redrawLoop_all_false wide _ _ _ (mapGet_replicate_false _),
    snapshotGroups_eq, snapshotLoop_all_false _ (mapGet_replicate_false _)]

/-- C24: with no status screen and no cell shown as the cursor, after a draw pass the drawn
text, foreground, background and attributes of every cell of the grid are the resolved
ones and the drawn line flags are the line flags; a second pass right after it marks no
cell as updated, redraws and masks none, and leaves the renderer as it is. -/
theorem draw_idempotent (k : AttrBits) (wide : Option JSString → Bool) (r : CanvasRenderer)
    (hstatus : r.statusScreen = false)
    (hcur : ∀ cell : Nat, (drawCell k r cell).1.isCursor = false) :
    (∀ cell, cell < r.width * r.height →
      (arrayGet (draw k wide r).1.drawnScreen cell).join = (drawCell k r cell).1.text ∧
      arrayGet (draw k wide r).1.drawnScreenFG cell = some (drawCell k r cell).1.fg ∧
      arrayGet (draw k wide r).1.drawnScreenBG cell = some (drawCell k r cell).1.bg ∧
      arrayGet (draw k wide r).1.drawnScreenAttrs cell = some (drawCell k r cell).1.attrs) ∧
    (draw k wide r).1.drawnScreenLines = r.screenLines ∧
    (∃ plan, (draw k wide (draw k wide r).1).2 = some plan ∧
      plan.updateMap = List.replicate (r.width * r.height) false ∧
      plan.redrawMap = List.replicate (r.width * r.height) false ∧
      plan.maskedCells = List.replicate (r.width * r.height) false) ∧
    (draw k wide (draw k wide r).1).1 = (draw k wide r).1 := by
  obtain ⟨rm, L, hrm, hL, hr1⟩ := draw_fst k wide r hstatus hcur
  have hex : ∀ c, c < r.width * r.height → ∃ d ∈ L, d.cell = c :=
    fun c hc => ⟨_, (hL _).mpr ⟨c, hc, rfl⟩, rfl⟩
  have hV : ∀ {α : Type} (val : CellData → α), ∀ d ∈ L, val d = val (drawCell k r d.cell).1 := by
    intro α val d hd
    obtain ⟨c, -, rfl⟩ := (hL d).mp hd
    rfl
  have hagree : ∀ cell, cell < r.width * r.height →
      (arrayGet (draw k wide r).1.drawnScreen cell).join = (drawCell k r cell).1.text ∧
      arrayGet (draw k wide r).1.drawnScreenFG cell = some (drawCell k r cell).1.fg ∧
      arrayGet (draw k wide r).1.drawnScreenBG cell = some (drawCell k r cell).1.bg ∧
      arrayGet (draw k wide r).1.drawnScreenAttrs cell = some (drawCell k r cell).1.attrs := by
    intro c hc
    rw [hr1]
    simp only
    rw [arrayGet_foldl rm (fun d => d.text) (fun c => (drawCell k r c).1.text) L (hV _),
      arrayGet_foldl rm (fun d => d.fg) (fun c => (drawCell k r c).1.fg) L (hV _),
      arrayGet_foldl rm (fun d => d.bg) (fun c => (drawCell k r c).1.bg) L (hV _),
      arrayGet_foldl rm (fun d => d.attrs) (fun c => (drawCell k r c).1.attrs) L (hV _)]
    by_cases h : mapGet rm (c : Int) = true
    · rw [if_pos ⟨h, hex c hc⟩, if_pos ⟨h, hex c hc⟩, if_pos ⟨h, hex c hc⟩,
        if_pos ⟨h, hex c hc⟩]
      exact ⟨rfl, rfl, rfl, rfl⟩
    · have hu : (drawCell k r c).2 = false := by
        cases hb : (drawCell k r c).2
        · rfl
        · exact absurd (hrm c hc hb) h
      obtain ⟨h1, h2, h3, h4, -⟩ := (drawCell_snd_eq_false k r c).mp hu
      rw [if_neg (fun hh => h hh.1), if_neg (fun hh => h hh.1), if_neg (fun hh => h hh.1),
        if_neg (fun hh => h hh.1)]
      exact ⟨h1.symm, h2.symm, h3.symm, h4.symm⟩
  have hw : (draw k wide r).1.width = r.width := by rw [hr1]
  have hh : (draw k wide r).1.height = r.height := by rw [hr1]
  have hfst : ∀ c, (drawCell k (draw k wide r).1 c).1 = (drawCell k r c).1 := by
    intro c
    rw [hr1]
    exact drawCell_fst_drawn k r c _ _ _ _ _ _
  have hupd : ∀ c, c < (draw k wide r).1.width * (draw k wide r).1.height →
      (drawCell k (draw k wide r).1 c).2 = false := by
    intro c hc
    rw [hw, hh] at hc
    obtain ⟨h1, h2, h3, h4⟩ := hagree c hc
    rw [drawCell_snd_eq_false, hfst, h1, h2, h3, h4]
    refine ⟨rfl, rfl, rfl, rfl, ?_, hcur c, ?_⟩
    · rw [hr1]
    · rw [hr1]
      simp only
      omega
  have hst : (draw k wide r).1.statusScreen = false := by rw [hr1]; exact hstatus
  have h2 := draw_of_no_update k wide (draw k wide r).1 hst hupd
  refine ⟨hagree, by rw [hr1], ⟨_, congrArg Prod.snd h2, ?_, ?_, ?_⟩, ?_⟩
  · simp only [hw, hh]
  · simp only [hw, hh]
  · simp only [hw, hh]
  · rw [congrArg Prod.fst h2]
    simp only
    conv_rhs => rw [hr1]
    rw [hr1]

/-- C24 at the sample grid, whose cursor is not visible. -/
theorem draw_idempotent_witness :
    (∀ cell, cell < sampleGrid.width * sampleGrid.height →
      (arrayGet (draw (AttrBits.mk 1 2 4 16 32 64) (fun _ => false)
        sampleGrid).1.drawnScreen cell).join =
        (drawCell (AttrBits.mk 1 2 4 16 32 64) sampleGrid cell).1.text ∧
      arrayGet (draw (AttrBits.mk 1 2 4 16 32 64) (fun _ => false)
        sampleGrid).1.drawnScreenFG cell =
        some (drawCell (AttrBits.mk 1 2 4 16 32 64) sampleGrid cell).1.fg ∧
      arrayGet (draw (AttrBits.mk 1 2 4 16 32 64) (fun _ => false)
        sampleGrid).1.drawnScreenBG cell =
        some (drawCell (AttrBits.mk 1 2 4 16 32 64) sampleGrid cell).1.bg ∧
      arrayGet (draw (AttrBits.mk 1 2 4 16 32 64) (fun _ => false)
        sampleGrid).1.drawnScreenAttrs cell =
        some (drawCell (AttrBits.mk 1 2 4 16 32 64) sampleGrid cell).1.attrs) ∧
    (draw (AttrBits.mk 1 2 4 16 32 64) (fun _ => false) sampleGrid).1.drawnScreenLines =
      sampleGrid.screenLines ∧
    (∃ plan, (draw (AttrBits.mk 1 2 4 16 32 64) (fun _ => false)
        (draw (AttrBits.mk 1 2 4 16 32 64) (fun _ => false) sampleGrid).1).2 = some plan ∧
      plan.updateMap = List.replicate (sampleGrid.width * sampleGrid.height) false ∧
      plan.redrawMap = List.replicate (sampleGrid.width * sampleGrid.height) false ∧
      plan.maskedCells = List.replicate (sampleGrid.width * sampleGrid.height) false) ∧
    (draw (AttrBits.mk 1 2 4 16 32 64) (fun _ => false)
      (draw (AttrBits.mk 1 2 4 16 32 64) (fun _ => false) sampleGrid).1).1 =
      (draw (AttrBits.mk 1 2 4 16 32 64) (fun _ => false) sampleGrid).1 :=
  draw_idempotent (AttrBits.mk 1 2 4 16 32 64) (fun _ => false) sampleGrid rfl
    (fun cell => by simp [drawCell, sampleGrid, CanvasRenderer.new])

end CanvasRenderer

/-! ## Theorems: the clip regions -/

namespace CanvasRenderer

/-- The inner loop at an earlier region that it joins to the region. -/
theorem joinInner_merge (fuel : Nat) (P1 P2 U : List Region) (Q R : Region)
    (hj : Q.startX = R.startX ∧ Q.endX = R.endX ∧ Q.endY = R.startY) :
    joinInner (fuel + 1) (P1 ++ Q :: P2 ++ R :: U) (P1.length + 1 + P2.length) P1.length =
      joinInner fuel (P1 ++ P2 ++ { R with startY := Q.startY } :: U)
        (P1.length + P2.length) P1.length := by
  have hi : (P1 ++ Q :: P2 ++ R :: U)[P1.length + 1 + P2.length]? = some R := by
    rw [List.append_assoc, List.getElem?_append_right (by omega)]
    have : P1.length + 1 + P2.length - P1.length = (Q :: P2).length := by simp; omega
    rw [this, List.getElem?_append_right (le_refl _)]
    simp
  have hjj : (P1 ++ Q :: P2 ++ R :: U)[P1.length]? = some Q := by
    rw [List.append_assoc, List.getElem?_append_right (le_refl _)]
    simp
  have hlen : P1.length < (P1 ++ Q :: P2 ++ R :: U).length := by simp
  rw [joinInner, if_pos hlen, hi, hjj]
  simp only
  rw [if_neg (by omega), if_pos hj, if_pos (by omega)]
  congr 1
  · have e1 : (P1 ++ Q :: P2 ++ R :: U).set (P1.length + 1 + P2.length)
        { R with startY := Q.startY } = P1 ++ Q :: P2 ++ { R with startY := Q.startY } :: U := by
      have : P1.length + 1 + P2.length = (P1 ++ Q :: P2).length := by simp; omega
      rw [this, List.set_append_right _ _ (le_refl _)]
      simp
    rw [e1, List.append_assoc, List.eraseIdx_append_of_length_le (le_refl _)]
    simp
  · omega

/-- The inner loop at an earlier region that it does not join. -/
theorem joinInner_keep (fuel : Nat) (P1 P2 U : List Region) (Q R : Region)
    (hj : ¬ (Q.startX = R.startX ∧ Q.endX = R.endX ∧ Q.endY = R.startY)) :
    joinInner (fuel + 1) (P1 ++ Q :: P2 ++ R :: U) (P1.length + 1 + P2.length) P1.length =
      joinInner fuel (P1 ++ Q :: P2 ++ R :: U) (P1.length + 1 + P2.length) (P1.length + 1) := by
  have hi : (P1 ++ Q :: P2 ++ R :: U)[P1.length + 1 + P2.length]? = some R := by
    rw [List.append_assoc, List.getElem?_append_right (by omega)]
    have : P1.length + 1 + P2.length - P1.length = (Q :: P2).length := by simp; omega
    rw [this, List.getElem?_append_right (le_refl _)]
    simp
  have hjj : (P1 ++ Q :: P2 ++ R :: U)[P1.length]? = some Q := by
    rw [List.append_assoc, List.getElem?_append_right (le_refl _)]
    simp
  have hlen : P1.length < (P1 ++ Q :: P2 ++ R :: U).length := by simp
  rw [joinInner, if_pos hlen, hi, hjj]
  simp only
  rw [if_neg (by omega), if_neg hj]

/-- The inner loop at the region itself, and at the later regions when none of them ends
where the region starts. -/
theorem joinInner_rest (P : List Region) (R : Region) (U2 : List Region) :
    ∀ (fuel : Nat) (U1 : List Region), U2.length + 1 ≤ fuel →
      (∀ X ∈ U2, ¬ (X.startX = R.startX ∧ X.endX = R.endX ∧ X.endY = R.startY)) →
      joinInner fuel (P ++ R :: (U1 ++ U2)) P.length (P.length + 1 + U1.length) =
        some (P ++ R :: (U1 ++ U2), P.length) := by
  induction U2 with
  | nil =>
    intro fuel U1 hf _
    obtain ⟨f, rfl⟩ : ∃ f, fuel = f + 1 := ⟨fuel - 1, by omega⟩
    rw [joinInner, if_neg (by simp; omega)]
  | cons X U2 ih =>
    intro fuel U1 hf hX
    obtain ⟨f, rfl⟩ : ∃ f, fuel = f + 1 := ⟨fuel - 1, by omega⟩
    have hi : (P ++ R :: (U1 ++ X :: U2))[P.length]? = some R := by
      rw [List.getElem?_append_right (le_refl _)]
      simp
    have hjj : (P ++ R :: (U1 ++ X :: U2))[P.length + 1 + U1.length]? = some X := by
      rw [List.getElem?_append_right (by omega)]
      have : P.length + 1 + U1.length - P.length = U1.length + 1 := by omega
      rw [this, List.getElem?_cons_succ, List.getElem?_append_right (le_refl _)]
      simp
    have hlen : P.length + 1 + U1.length < (P ++ R :: (U1 ++ X :: U2)).length := by
      simp; omega
    rw [joinInner, if_pos hlen, hi, hjj]
    simp only
    rw [if_neg (by omega), if_neg (hX X (List.mem_cons_self _ _))]
    have := ih f (U1 ++ [X]) (by simp at hf ⊢; omega)
      (fun Y hY => hX Y (List.mem_cons_of_mem _ hY))
    simp only [List.append_assoc, List.singleton_append, List.length_append,
      List.length_singleton] at this
    rw [← this]
    congr 1

/-- A region joined to the one that ends where it starts covers the cells of both. -/
theorem contains_join (Q R : Region) (x y : Nat)
    (hj : Q.startX = R.startX ∧ Q.endX = R.endX ∧ Q.endY = R.startY)
    (hQ : Q.startY < Q.endY) (hR : R.startY < R.endY) :
    (if ({ R with startY := Q.startY } : Region).contains x y then 1 else 0) =
      (if Q.contains x y then 1 else 0) + (if R.contains x y then 1 else 0) := by
  obtain ⟨h1, h2, h3⟩ := hj
  simp only [Region.contains, h1, h2, h3, decide_eq_true_eq]
  by_cases c1 : R.startX ≤ x <;> by_cases c2 : x < R.endX <;> by_cases c3 : Q.startY ≤ y <;>
    by_cases c4 : y < R.startY <;> by_cases c5 : R.startY ≤ y <;> by_cases c6 : y < R.endY <;>
    simp [c1, c2, c3, c4, c5, c6] <;> omega

/-- The inner loop of the join for the region `R` that follows the regions `P1 ++ P2`, with
the scan at the first of `P2`: it ends, the region takes over the regions of `P2` that end
where it starts, the cells covered stay the same, and no region left before `R` ends where
`R` starts. -/
theorem joinInner_scan (U P2 : List Region) :
    ∀ (fuel : Nat) (P1 : List Region) (R : Region), P2.length + U.length + 2 ≤ fuel →
      R.startY < R.endY → (∀ Q ∈ P2, Q.startY < Q.endY) → (∀ X ∈ U, R.startY < X.endY) →
      (∀ X ∈ P1, ¬ (X.startX = R.startX ∧ X.endX = R.endX ∧ X.endY = R.startY)) →
      (∀ Q ∈ P2, ∀ X ∈ P1 ++ P2,
        ¬ (X.startX = Q.startX ∧ X.endX = Q.endX ∧ X.endY = Q.startY)) →
      ∃ (Pout : List Region) (R' : Region),
        joinInner fuel (P1 ++ P2 ++ R :: U) (P1.length + P2.length) P1.length =
          some (Pout ++ R' :: U, Pout.length) ∧
        R'.startX = R.startX ∧ R'.endX = R.endX ∧ R'.endY = R.endY ∧
        R'.startY ≤ R.startY ∧ R'.startY < R'.endY ∧
        (∀ Q ∈ Pout, Q ∈ P1 ++ P2) ∧
        (∀ x y, (Pout ++ [R']).countP (fun g => g.contains x y) =
          (P1 ++ P2 ++ [R]).countP (fun g => g.contains x y)) ∧
        (∀ X ∈ Pout, ¬ (X.startX = R'.startX ∧ X.endX = R'.endX ∧ X.endY = R'.startY)) := by
  induction P2 with
  | nil =>
    intro fuel P1 R hf wfR _ hU h1 _
    obtain ⟨f, rfl⟩ : ∃ f, fuel = f + 1 := ⟨fuel - 1, by omega⟩
    refine ⟨P1, R, ?_, rfl, rfl, rfl, le_refl _, wfR, fun Q hQ => by simpa using hQ,
      fun x y => by simp, h1⟩
    have hi : (P1 ++ R :: U)[P1.length]? = some R := by
      rw [List.getElem?_append_right (le_refl _)]
      simp
    have hlen : P1.length < (P1 ++ R :: U).length := by simp
    simp only [List.append_nil, List.length_nil, Nat.add_zero]
    rw [joinInner, if_pos hlen, hi]
    simp only [↓reduceIte]
    have := joinInner_rest P1 R U f [] (by simp at hf ⊢; omega)
      (fun X hX h => by have := hU X hX; omega)
    simpa using this
  | cons Q P2 ih =>
    intro fuel P1 R hf wfR wfP hU h1 hmax
    obtain ⟨f, rfl⟩ : ∃ f, fuel = f + 1 := ⟨fuel - 1, by omega⟩
    have hQ := wfP Q (List.mem_cons_self _ _)
    have e2 : P1.length + (Q :: P2).length = P1.length + 1 + P2.length := by simp; omega
    have hf' : P2.length + U.length + 2 ≤ f := by simp at hf; omega
    rw [e2]
    by_cases hj : Q.startX = R.startX ∧ Q.endX = R.endX ∧ Q.endY = R.startY
    · rw [joinInner_merge f P1 P2 U Q R hj]
      obtain ⟨Pout, R', h, a1, a2, a3, a4, a5, a6, a7, a8⟩ :=
        ih f P1 { R with startY := Q.startY } hf' (by show Q.startY < R.endY; omega)
          (fun X hX => wfP X (List.mem_cons_of_mem _ hX))
          (fun X hX => by have := hU X hX; show Q.startY < X.endY; omega)
          (fun X hX hh => hmax Q (List.mem_cons_self _ _) X (List.mem_append_left _ hX)
            ⟨hh.1.trans hj.1.symm, hh.2.1.trans hj.2.1.symm, hh.2.2⟩)
          (fun Q' hQ' X hX => hmax Q' (List.mem_cons_of_mem _ hQ') X (by
            rcases List.mem_append.mp hX with h | h
            · exact List.mem_append_left _ h
            · exact List.mem_append_right _ (List.mem_cons_of_mem _ h)))
      refine ⟨Pout, R', h, a1, a2, a3, ?_, a5, ?_, ?_, a8⟩
      · have : ({ R with startY := Q.startY } : Region).startY = Q.startY := rfl
        omega
      · intro X hX
        rcases List.mem_append.mp (a6 X hX) with h | h
        · exact List.mem_append_left _ h
        · exact List.mem_append_right _ (List.mem_cons_of_mem _ h)
      · intro x y
        rw [a7 x y]
        have hc := contains_join Q R x y hj hQ wfR
        simp only [List.countP_append, List.countP_cons, List.countP_nil, Nat.zero_add] at hc ⊢
        omega
    · rw [joinInner_keep f P1 P2 U Q R hj]
      obtain ⟨Pout, R', h, a1, a2, a3, a4, a5, a6, a7, a8⟩ :=
        ih f (P1 ++ [Q]) R hf' wfR
          (fun X hX => wfP X (List.mem_cons_of_mem _ hX)) hU
          (fun X hX => by
            rcases List.mem_append.mp hX with h | h
            · exact h1 X h
            · rw [List.mem_singleton.mp h]; exact hj)
          (fun Q' hQ' X hX => hmax Q' (List.mem_cons_of_mem _ hQ') X (by simpa using hX))
      refine ⟨Pout, R', ?_, a1, a2, a3, a4, a5, ?_, ?_, a8⟩
      · rw [← h]
        simp only [List.append_assoc, List.singleton_append, List.length_append,
          List.length_singleton]
      · intro X hX
        simpa using a6 X hX
      · intro x y
        rw [a7 x y]
        simp

/-- The join loop on the regions `P ++ U`, with the regions of `P` done: it ends, the
cells covered stay the same, and in the end no region ends where a region with the same
columns starts. -/
theorem joinOuter_spec (U : List Region) :
    ∀ (fuel : Nat) (P : List Region), U.length + 1 ≤ fuel →
      (∀ Q ∈ P ++ U, Q.startY < Q.endY) →
      U.Pairwise (fun a b => a.startY < b.endY) →
      (∀ Q ∈ P, ∀ X ∈ P ++ U,
        ¬ (X.startX = Q.startX ∧ X.endX = Q.endX ∧ X.endY = Q.startY)) →
      ∃ Rs : List Region, joinOuter fuel (P ++ U) P.length = some Rs ∧
        (∀ x y, Rs.countP (fun g => g.contains x y) =
          (P ++ U).countP (fun g => g.contains x y)) ∧
        (∀ Q ∈ Rs, ∀ X ∈ Rs,
          ¬ (X.startX = Q.startX ∧ X.endX = Q.endX ∧ X.endY = Q.startY)) := by
  induction U with
  | nil =>
    intro fuel P hf _ _ hmax
    obtain ⟨f, rfl⟩ : ∃ f, fuel = f + 1 := ⟨fuel - 1, by omega⟩
    refine ⟨P, ?_, fun x y => by simp, by simpa using hmax⟩
    rw [joinOuter, if_neg (by simp)]
    simp
  | cons R U ih =>
    intro fuel P hf wf hpw hmax
    obtain ⟨f, rfl⟩ : ∃ f, fuel = f + 1 := ⟨fuel - 1, by omega⟩
    obtain ⟨hRU, hpw'⟩ := List.pairwise_cons.mp hpw
    have wfR : R.startY < R.endY := wf R (by simp)
    obtain ⟨Pout, R', h, a1, a2, a3, a4, a5, a6, a7, a8⟩ :=
      joinInner_scan U P ((P ++ R :: U).length + 1) [] R (by simp; omega) wfR
        (fun Q hQ => wf Q (List.mem_append_left _ hQ)) hRU
        (fun X hX => absurd hX (List.not_mem_nil _))
        (fun Q hQ X hX => hmax Q hQ X (by
          rw [List.nil_append] at hX
          exact List.mem_append_left _ hX))
    simp only [List.nil_append, List.length_nil, Nat.zero_add] at h a6 a7
    have hsub : ∀ Q ∈ Pout, Q ∈ P := a6
    obtain ⟨Rs, g1, g2, g3⟩ := ih f (Pout ++ [R']) (by simp at hf; omega)
      (fun Q hQ => by
        rcases List.mem_append.mp hQ with hQ | hQ
        · rcases List.mem_append.mp hQ with hQ | hQ
          · exact wf Q (List.mem_append_left _ (hsub Q hQ))
          · rw [List.mem_singleton.mp hQ]; exact a5
        · exact wf Q (List.mem_append_right _ (List.mem_cons_of_mem _ hQ)))
      hpw'
      (fun Q hQ X hX => by
        rcases List.mem_append.mp hQ with hQ | hQ
        · have hQP := hsub Q hQ
          rcases List.mem_append.mp hX with hX | hX
          · rcases List.mem_append.mp hX with hX | hX
            · exact hmax Q hQP X (List.mem_append_left _ (hsub X hX))
            · rw [List.mem_singleton.mp hX]
              intro hh
              exact hmax Q hQP R (by simp) ⟨a1 ▸ hh.1, a2 ▸ hh.2.1, a3 ▸ hh.2.2⟩
          · exact hmax Q hQP X (List.mem_append_right _ (List.mem_cons_of_mem _ hX))
        · rw [List.mem_singleton.mp hQ]
          rcases List.mem_append.mp hX with hX | hX
          · rcases List.mem_append.mp hX with hX | hX
            · exact a8 X hX
            · rw [List.mem_singleton.mp hX]
              intro hh
              omega
          · intro hh
            have := hRU X hX
            omega)
    refine ⟨Rs, ?_, ?_, g3⟩
    · rw [joinOuter, if_pos (by simp), h]
      simp only
      rw [← g1]
      simp
    · intro x y
      rw [g2 x y]
      have := a7 x y
      simp only [List.countP_append, List.countP_cons, List.countP_nil, Nat.zero_add] at this ⊢
      omega

/-- One column of the loop over a row. -/
theorem rowLoop_cons (width : Nat) (masked : List Bool) (y x : Nat) (xs : List Nat)
    (rs : Option Nat) (regs : List Region) :
    rowLoop width masked y (x :: xs) rs regs =
      if mapGet masked ((y * width + x : Nat) : Int) then
        rowLoop width masked y xs (if rs = none then some x else rs) regs
      else
        match rs with
        | some s => rowLoop width masked y xs none (regs ++ [Region.mk s y x (y + 1)])
        | none => rowLoop width masked y xs none regs := rfl

/-- The runs of row `y` from column `x0` on, with the run that is open at `x0`: they lie on
row `y`, no cell is in two of them, and they hold the cells of the open run and the masked
cells from `x0` on. -/
theorem rowLoop_spec (width : Nat) (masked : List Bool) (y : Nat) :
    ∀ (k x0 : Nat) (rs : Option Nat) (regs : List Region), x0 + k = width →
      (∀ s, rs = some s → s ≤ x0) →
      ∃ new : List Region,
        (rowLoop width masked y (List.range' x0 k) rs regs).2 ++
          ((rowLoop width masked y (List.range' x0 k) rs regs).1.map
            (fun s => Region.mk s y width (y + 1))).toList = regs ++ new ∧
        (∀ g ∈ new, g.startY = y ∧ g.endY = y + 1) ∧
        (∀ x y', new.countP (fun g => g.contains x y') ≤ 1) ∧
        (∀ x y', 0 < new.countP (fun g => g.contains x y') ↔
          (y' = y ∧ ((∃ s, rs = some s ∧ s ≤ x ∧ x < x0) ∨
            (x0 ≤ x ∧ x < width ∧ mapGet masked ((y * width + x : Nat) : Int) = true)))) := by
  intro k
  induction k with
  | zero =>
    intro x0 rs regs hx hrs
    cases rs with
    | none =>
      refine ⟨[], by simp [rowLoop], by simp, by simp, ?_⟩
      intro x y'
      simp
      intro _ _ h; omega
    | some s =>
      refine ⟨[Region.mk s y width (y + 1)], by simp [rowLoop], by simp, ?_, ?_⟩
      · intro x y'
        simp only [List.countP_cons, List.countP_nil]
        split <;> omega
      · intro x y'
        simp only [List.countP_cons, List.countP_nil, Region.contains, Nat.zero_add]
        simp only [Option.some.injEq, exists_eq_left']
        constructor
        · intro h
          split at h
          · rename_i hc
            simp only [decide_eq_true_eq] at hc
            exact ⟨by omega, Or.inl ⟨hc.1, by omega⟩⟩
          · omega
        · rintro ⟨h1, h2 | h2⟩
          · rw [if_pos (by simp only [decide_eq_true_eq]; omega)]
            omega
          · omega
  | succ k ih =>
    intro x0 rs regs hx hrs
    rw [List.range'_succ, rowLoop_cons]
    by_cases hm : mapGet masked ((y * width + x0 : Nat) : Int) = true
    · rw [if_pos hm]
      obtain ⟨new, h1, h2, h3, h4⟩ := ih (x0 + 1) (if rs = none then some x0 else rs) regs
        (by omega) (fun s hs => by
          cases rs with
          | none => simp at hs; omega
          | some t => simp at hs; have := hrs t rfl; omega)
      refine ⟨new, h1, h2, h3, ?_⟩
      intro x y'
      rw [h4 x y']
      have hw : x0 < width := by omega
      cases rs with
      | none =>
        by_cases hx0 : x = x0
        · subst hx0
          have hm' := hm
          push_cast at hm'
          simp [hm', hw]
        · have e1 : x < x0 + 1 ↔ x < x0 := by omega
          have e2 : x0 + 1 ≤ x ↔ x0 ≤ x := by omega
          simp only [↓reduceIte, Option.some.injEq, exists_eq_left', e1, e2, reduceCtorEq,
            false_and, exists_false, false_or]
          constructor
          · rintro ⟨e, h | h⟩
            · omega
            · exact ⟨e, h⟩
          · rintro ⟨e, h⟩
            exact ⟨e, Or.inr h⟩
      | some t =>
        have ht := hrs t rfl
        by_cases hx0 : x = x0
        · subst hx0
          have hm' := hm
          push_cast at hm'
          simp [hm', hw, ht]
        · have e1 : x < x0 + 1 ↔ x < x0 := by omega
          have e2 : x0 + 1 ≤ x ↔ x0 ≤ x := by omega
          simp only [reduceCtorEq, ↓reduceIte, Option.some.injEq, exists_eq_left', e1, e2]
    · rw [if_neg hm]
      cases rs with
      | none =>
        simp only
        obtain ⟨new, h1, h2, h3, h4⟩ := ih (x0 + 1) none regs (by omega) (by simp)
        refine ⟨new, h1, h2, h3, ?_⟩
        intro x y'
        rw [h4 x y']
        simp only [reduceCtorEq, false_and, exists_false, false_or]
        constructor
        · rintro ⟨e, h⟩
          exact ⟨e, by omega, h.2.1, h.2.2⟩
        · rintro ⟨e, h5, h6, h7⟩
          refine ⟨e, ?_, h6, h7⟩
          by_contra hc
          have : x = x0 := by omega
          subst this
          exact hm h7
      | some t =>
        have ht := hrs t rfl
        simp only
        obtain ⟨new, h1, h2, h3, h4⟩ := ih (x0 + 1) none (regs ++ [Region.mk t y x0 (y + 1)])
          (by omega) (by simp)
        refine ⟨Region.mk t y x0 (y + 1) :: new, by rw [h1]; simp, ?_, ?_, ?_⟩
        · intro g hg
          rcases List.mem_cons.mp hg with rfl | hg
          · exact ⟨rfl, rfl⟩
          · exact h2 g hg
        · intro x y'
          rw [List.countP_cons]
          have h3' := h3 x y'
          split
          · rename_i hc
            simp only [Region.contains, decide_eq_true_eq] at hc
            have : ¬ 0 < new.countP (fun g => g.contains x y') := by
              rw [h4 x y']
              rintro ⟨-, h | h⟩
              · simp at h
              · omega
            omega
          · omega
        · intro x y'
          rw [List.countP_cons]
          simp only [Option.some.injEq, exists_eq_left']
          constructor
          · intro h
            by_cases hc : (Region.mk t y x0 (y + 1)).contains x y' = true
            · simp only [Region.contains, decide_eq_true_eq] at hc
              exact ⟨by omega, Or.inl ⟨hc.1, hc.2.1⟩⟩
            · rw [if_neg hc] at h
              obtain ⟨e, h | h⟩ := (h4 x y').mp (by omega)
              · simp at h
              · exact ⟨e, Or.inr ⟨by omega, h.2.1, h.2.2⟩⟩
          · rintro ⟨e, h | h⟩
            · rw [if_pos (by simp only [Region.contains, decide_eq_true_eq]; omega)]
              omega
            · have : 0 < new.countP (fun g => g.contains x y') := by
                rw [h4 x y']
                refine ⟨e, Or.inr ⟨?_, h.2.1, h.2.2⟩⟩
                by_contra hc
                have : x = x0 := by omega
                subst this
                exact hm h.2.2
              omega

/-- One row of the loop over the rows. -/
theorem regionLoop_cons (width : Nat) (masked : List Bool) (y : Nat) (ys : List Nat)
    (regs : List Region) :
    regionLoop width masked (y :: ys) regs =
      regionLoop width masked ys
        ((rowLoop width masked y (List.range width) none regs).2 ++
          ((rowLoop width masked y (List.range width) none regs).1.map
            (fun s => Region.mk s y width (y + 1))).toList) := by
  rw [regionLoop]
  cases h : (rowLoop width masked y (List.range width) none regs).1 <;> simp [h]

/-- The runs of the rows from `y0` on: they are one row high, in the order of the rows, no
cell is in two of them, and they hold the masked cells of these rows. -/
theorem regionLoop_spec (width : Nat) (masked : List Bool) :
    ∀ (k y0 : Nat) (regs : List Region),
      ∃ new : List Region,
        regionLoop width masked (List.range' y0 k) regs = regs ++ new ∧
        (∀ g ∈ new, y0 ≤ g.startY ∧ g.endY = g.startY + 1) ∧
        new.Pairwise (fun a b => a.startY ≤ b.startY) ∧
        (∀ x y, new.countP (fun g => g.contains x y) ≤ 1) ∧
        (∀ x y, 0 < new.countP (fun g => g.contains x y) ↔
          (y0 ≤ y ∧ y < y0 + k ∧ x < width ∧
            mapGet masked ((y * width + x : Nat) : Int) = true)) := by
  intro k
  induction k with
  | zero =>
    intro y0 regs
    refine ⟨[], by simp [regionLoop], by simp, by simp, by simp, ?_⟩
    intro x y
    simp
    intro _ _; omega
  | succ k ih =>
    intro y0 regs
    obtain ⟨new1, a1, a2, a3, a4⟩ := rowLoop_spec width masked y0 width 0 none regs
      (by omega) (by simp)
    rw [← List.range_eq_range'] at a1
    obtain ⟨new2, b1, b2, b3, b4, b5⟩ := ih (y0 + 1) (regs ++ new1)
    refine ⟨new1 ++ new2, ?_, ?_, ?_, ?_, ?_⟩
    · rw [List.range'_succ, regionLoop_cons, a1, b1, List.append_assoc]
    · intro g hg
      rcases List.mem_append.mp hg with hg | hg
      · have := a2 g hg
        omega
      · have := b2 g hg
        omega
    · rw [List.pairwise_append]
      refine ⟨?_, b3, ?_⟩
      · rw [List.pairwise_iff_forall_sublist]
        intro a b hab
        have ha := a2 a (hab.subset (by simp))
        have hb := a2 b (hab.subset (by simp))
        omega
      · intro a ha b hb
        have := a2 a ha
        have := b2 b hb
        omega
    · intro x y
      rw [List.countP_append]
      have h1 := a3 x y
      have h2 := b4 x y
      have h3 := a4 x y
      have h4 := b5 x y
      by_cases hy : y = y0
      · have : ¬ 0 < new2.countP (fun g => g.contains x y) := by
          rw [h4]; omega
        omega
      · have : ¬ 0 < new1.countP (fun g => g.contains x y) := by
          rw [h3]; tauto
        omega
    · intro x y
      rw [List.countP_append]
      have h3 := a4 x y
      have h4 := b5 x y
      simp only [reduceCtorEq, false_and, exists_false, false_or, Nat.zero_le, true_and] at h3
      constructor
      · intro h
        by_cases h1 : 0 < new1.countP (fun g => g.contains x y)
        · obtain ⟨e, hx, hm⟩ := h3.mp h1
          subst e
          exact ⟨by omega, by omega, hx, hm⟩
        · obtain ⟨e1, e2, hx, hm⟩ := h4.mp (by omega)
          exact ⟨by omega, by omega, hx, hm⟩
      · rintro ⟨e1, e2, hx, hm⟩
        by_cases hy : y = y0
        · subst hy
          have := h3.mpr ⟨rfl, hx, hm⟩
          omega
        · have := h4.mpr ⟨by omega, by omega, hx, hm⟩
          omega

/-- The clip regions of a set of masked cells: the join ends, every cell is in one region
when it is a masked cell of the grid and in none otherwise, and no region ends where a
region with the same columns starts. -/
theorem clipRegions_spec (width height : Nat) (masked : List Bool) :
    ∃ regions : List Region, clipRegions width height masked = some regions ∧
      (∀ x y, regions.countP (fun g => g.contains x y) ≤ 1) ∧
      (∀ x y, 0 < regions.countP (fun g => g.contains x y) ↔
        (x < width ∧ y < height ∧ mapGet masked ((y * width + x : Nat) : Int) = true)) ∧
      (∀ Q ∈ regions, ∀ X ∈ regions,
        ¬ (X.startX = Q.startX ∧ X.endX = Q.endX ∧ X.endY = Q.startY)) := by
  obtain ⟨new, b1, b2, b3, b4, b5⟩ := regionLoop_spec width masked height 0 []
  rw [← List.range_eq_range', List.nil_append] at b1
  obtain ⟨Rs, g1, g2, g3⟩ := joinOuter_spec new (new.length + 1) [] (le_refl _)
    (fun Q hQ => by have := b2 Q (by simpa using hQ); omega)
    (b3.imp_of_mem (fun {a b} _ hb hab => by have := b2 b hb; omega))
    (fun Q hQ => absurd hQ (List.not_mem_nil _))
  refine ⟨Rs, ?_, ?_, ?_, g3⟩
  · unfold clipRegions
    rw [b1]
    exact g1
  · intro x y
    rw [g2 x y]
    exact b4 x y
  · intro x y
    rw [g2 x y, List.nil_append, b5 x y]
    constructor
    · rintro ⟨-, h1, h2, h3⟩
      exact ⟨h2, by omega, h3⟩
    · rintro ⟨h1, h2, h3⟩
      exact ⟨Nat.zero_le _, by omega, h1, h3⟩

/-- Regions of which no cell is in two are pairwise disjoint. -/
theorem pairwise_of_countP_le_one (regions : List Region)
    (h : ∀ x y, regions.countP (fun g => g.contains x y) ≤ 1) :
    regions.Pairwise (fun g g' => ∀ x y, ¬ (g.contains x y = true ∧ g'.contains x y = true)) := by
  induction regions with
  | nil => exact List.Pairwise.nil
  | cons g l ih =>
    rw [List.pairwise_cons]
    refine ⟨?_, ih (fun x y => ?_)⟩
    · rintro g' hg' x y ⟨h1, h2⟩
      have := h x y
      rw [List.countP_cons, if_pos h1] at this
      have h3 : 0 < l.countP (fun g => g.contains x y) :=
        List.countP_pos_iff.mpr ⟨g', hg', h2⟩
      omega
    · have := h x y
      rw [List.countP_cons] at this
      omega

/-- C25: for every grid size and every set of masked cells, the loops that `draw` runs when
`graphics >= 1` (the runs of every row, then the join) end with a list of regions such
that a cell lies in a region exactly when it is a masked cell of the grid, and no cell lies
in two regions. -/
theorem clipRegions_cover (width height : Nat) (masked : List Bool) :
    ∃ regions : List Region, clipRegions width height masked = some regions ∧
      (∀ x y, (∃ g ∈ regions, g.contains x y = true) ↔
        (x < width ∧ y < height ∧ mapGet masked ((y * width + x : Nat) : Int) = true)) ∧
      regions.Pairwise
        (fun g g' => ∀ x y, ¬ (g.contains x y = true ∧ g'.contains x y = true)) := by
  obtain ⟨regions, h1, h2, h3, -⟩ := clipRegions_spec width height masked
  refine ⟨regions, h1, ?_, pairwise_of_countP_le_one regions h2⟩
  intro x y
  rw [← h3 x y, List.countP_pos_iff]

/-- What holds of every region before the inner loop of the join and is kept when two
regions are joined holds of every region after it. -/
theorem joinInner_inv (Inv : Region → Prop)
    (hjoin : ∀ Q R : Region, Q.startX = R.startX ∧ Q.endX = R.endX ∧ Q.endY = R.startY →
      Inv Q → Inv R → Inv { R with startY := Q.startY }) :
    ∀ (fuel : Nat) (regions : List Region) (i j : Nat) (out : List Region × Nat),
      (∀ g ∈ regions, Inv g) → joinInner fuel regions i j = some out →
      ∀ g ∈ out.1, Inv g := by
  intro fuel
  induction fuel with
  | zero =>
    intro regions i j out _ h
    rw [joinInner] at h
    exact absurd h (by simp)
  | succ fuel ih =>
    intro regions i j out hinv h
    rw [joinInner] at h
    split at h
    · split at h
      · rename_i region other hi hj
        have hr : region ∈ regions := List.getElem?_mem hi
        have ho : other ∈ regions := List.getElem?_mem hj
        split at h
        · exact ih _ _ _ _ hinv h
        · split at h
          · rename_i hcond
            refine ih _ _ _ _ ?_ h
            intro g hg
            rcases List.mem_or_eq_of_mem_set (List.mem_of_mem_eraseIdx hg) with hg | hg
            · exact hinv g hg
            · rw [hg]
              exact hjoin other region hcond (hinv _ ho) (hinv _ hr)
          · exact ih _ _ _ _ hinv h
      · exact absurd h (by simp)
    · rw [← Option.some.inj h]
      exact hinv

/-- What holds of every region before the join and is kept when two regions are joined
holds of every region after it. -/
theorem joinOuter_inv (Inv : Region → Prop)
    (hjoin : ∀ Q R : Region, Q.startX = R.startX ∧ Q.endX = R.endX ∧ Q.endY = R.startY →
      Inv Q → Inv R → Inv { R with startY := Q.startY }) :
    ∀ (fuel : Nat) (regions : List Region) (i : Nat) (out : List Region),
      (∀ g ∈ regions, Inv g) → joinOuter fuel regions i = some out →
      ∀ g ∈ out, Inv g := by
  intro fuel
  induction fuel with
  | zero =>
    intro regions i out _ h
    rw [joinOuter] at h
    exact absurd h (by simp)
  | succ fuel ih =>
    intro regions i out hinv h
    rw [joinOuter] at h
    split at h
    · split at h
      · rename_i regions' i' hin
        exact ih _ _ _ (joinInner_inv Inv hjoin _ _ _ _ _ hinv hin) h
      · exact absurd h (by simp)
    · rw [← Option.some.inj h]
      exact hinv

/-- The runs that the loop over row `y` adds are runs that cannot be extended: each ends
before an unmasked cell or at the last column, and starts after an unmasked cell or at the
first column. -/
theorem rowLoop_runs (width : Nat) (masked : List Bool) (y : Nat) :
    ∀ (k x0 : Nat) (rs : Option Nat) (regs : List Region), x0 + k = width →
      (rs = none → x0 = 0 ∨ mapGet masked ((y * width + (x0 - 1) : Nat) : Int) = false) →
      (∀ s, rs = some s →
        s < x0 ∧ (s = 0 ∨ mapGet masked ((y * width + (s - 1) : Nat) : Int) = false)) →
      ∀ g ∈ (rowLoop width masked y (List.range' x0 k) rs regs).2 ++
          ((rowLoop width masked y (List.range' x0 k) rs regs).1.map
            (fun s => Region.mk s y width (y + 1))).toList,
        g ∈ regs ∨ (g.startY = y ∧ g.endY = y + 1 ∧ g.startX < g.endX ∧ g.endX ≤ width ∧
          (g.startX = 0 ∨
            mapGet masked ((y * width + (g.startX - 1) : Nat) : Int) = false) ∧
          (g.endX = width ∨ mapGet masked ((y * width + g.endX : Nat) : Int) = false)) := by
  intro k
  induction k with
  | zero =>
    intro x0 rs regs hx hnone hsome g hg
    cases rs with
    | none =>
      left
      simpa [rowLoop] using hg
    | some s =>
      obtain ⟨h1, h2⟩ := hsome s rfl
      simp only [List.range'_zero, rowLoop, Option.map_some', Option.toList_some,
        List.mem_append, List.mem_singleton] at hg
      rcases hg with hg | hg
      · exact Or.inl hg
      · right
        rw [hg]
        exact ⟨rfl, rfl, by show s < width; omega, le_refl _, h2, Or.inl rfl⟩
  | succ k ih =>
    intro x0 rs regs hx hnone hsome g hg
    rw [List.range'_succ, rowLoop_cons] at hg
    by_cases hm : mapGet masked ((y * width + x0 : Nat) : Int) = true
    · rw [if_pos hm] at hg
      refine ih (x0 + 1) _ regs (by omega) ?_ ?_ g hg
      · intro h
        cases rs <;> simp at h
      · intro s hs
        cases rs with
        | none =>
          simp only [↓reduceIte, Option.some.injEq] at hs
          subst hs
          exact ⟨by omega, hnone rfl⟩
        | some t =>
          simp only [reduceCtorEq, ↓reduceIte, Option.some.injEq] at hs
          subst hs
          have := hsome t rfl
          exact ⟨by omega, this.2⟩
    · rw [if_neg hm] at hg
      have hm' : mapGet masked ((y * width + x0 : Nat) : Int) = false := by
        cases h : mapGet masked ((y * width + x0 : Nat) : Int)
        · rfl
        · exact absurd h hm
      cases rs with
      | none =>
        simp only at hg
        exact ih (x0 + 1) none regs (by omega) (fun _ => Or.inr (by simpa using hm'))
          (fun s hs => by simp at hs) g hg
      | some t =>
        simp only at hg
        obtain ⟨h1, h2⟩ := hsome t rfl
        rcases ih (x0 + 1) none (regs ++ [Region.mk t y x0 (y + 1)]) (by omega)
          (fun _ => Or.inr (by simpa using hm')) (fun s hs => by simp at hs) g hg with h | h
        · rcases List.mem_append.mp h with h | h
          · exact Or.inl h
          · right
            rw [List.mem_singleton.mp h]
            exact ⟨rfl, rfl, h1, by show x0 ≤ width; omega, h2, Or.inr hm'⟩
        · exact Or.inr h

/-- The runs that the loop over the rows adds: one row high, inside the grid, and runs of
their row that cannot be extended. -/
theorem regionLoop_runs (width : Nat) (masked : List Bool) :
    ∀ (k y0 : Nat) (regs : List Region),
      ∀ g ∈ regionLoop width masked (List.range' y0 k) regs,
        g ∈ regs ∨ (g.startY < y0 + k ∧ g.endY = g.startY + 1 ∧ g.startX < g.endX ∧
          g.endX ≤ width ∧
          (g.startX = 0 ∨
            mapGet masked ((g.startY * width + (g.startX - 1) : Nat) : Int) = false) ∧
          (g.endX = width ∨
            mapGet masked ((g.startY * width + g.endX : Nat) : Int) = false)) := by
  intro k
  induction k with
  | zero =>
    intro y0 regs g hg
    left
    simpa [regionLoop] using hg
  | succ k ih =>
    intro y0 regs g hg
    rw [List.range'_succ, regionLoop_cons] at hg
    rcases ih (y0 + 1) _ g hg with h | h
    · rw [List.range_eq_range'] at h
      rcases rowLoop_runs width masked y0 width 0 none regs (by omega) (fun _ => Or.inl rfl)
        (fun s hs => by simp at hs) g h with h | ⟨h1, h2, h3, h4, h5, h6⟩
      · exact Or.inl h
      · right
        rw [h1]
        exact ⟨by omega, by omega, h3, h4, h5, h6⟩
    · right
      obtain ⟨h1, h2⟩ := h
      exact ⟨by omega, h2⟩

/-- Every clip region is inside the grid, and on each of its rows it starts after an
unmasked cell or at the first column and ends before an unmasked cell or at the last
column. -/
theorem clipRegions_runs (width height : Nat) (masked : List Bool) (regions : List Region)
    (h : clipRegions width height masked = some regions) :
    ∀ g ∈ regions, g.startX < g.endX ∧ g.endX ≤ width ∧ g.endY ≤ height ∧
      ∀ y, g.startY ≤ y → y < g.endY →
        (g.startX = 0 ∨ mapGet masked ((y * width + (g.startX - 1) : Nat) : Int) = false) ∧
        (g.endX = width ∨ mapGet masked ((y * width + g.endX : Nat) : Int) = false) := by
  unfold clipRegions at h
  refine joinOuter_inv _ ?_ _ _ _ _ ?_ h
  · rintro Q R ⟨e1, e2, e3⟩ ⟨q1, q2, q3, q4⟩ ⟨r1, r2, r3, r4⟩
    refine ⟨r1, r2, r3, ?_⟩
    intro y hy1 hy2
    by_cases hy : y < Q.endY
    · have := q4 y hy1 hy
      rw [e1, e2] at this
      exact this
    · exact r4 y (by rw [← e3]; omega) hy2
  · intro g hg
    rw [List.range_eq_range'] at hg
    rcases regionLoop_runs width masked height 0 [] g hg with hg | ⟨h1, h2, h3, h4, h5, h6⟩
    · exact absurd hg (List.not_mem_nil _)
    · refine ⟨h3, h4, by omega, ?_⟩
      intro y hy1 hy2
      have : y = g.startY := by omega
      rw [this]
      exact ⟨h5, h6⟩

/-- Two runs of a row that share a cell are the same run. -/
theorem isRun_unique (width height : Nat) (masked : List Bool) (y a b a' b' x : Nat)
    (h : isRun width height masked y a b) (h' : isRun width height masked y a' b')
    (hx : a ≤ x ∧ x < b) (hx' : a' ≤ x ∧ x < b') : a = a' ∧ b = b' := by
  obtain ⟨-, -, c0, c1, c2, c3⟩ := h
  obtain ⟨-, -, d0, d1, d2, d3⟩ := h'
  have key : ∀ p q : Nat,
      mapGet masked ((y * width + p : Nat) : Int) = true →
      mapGet masked ((y * width + q : Nat) : Int) = false → p ≠ q := by
    intro p q hp hq hpq
    rw [hpq, hq] at hp
    exact absurd hp (by decide)
  constructor
  · by_contra hne
    rcases Nat.lt_or_gt_of_ne hne with hlt | hlt
    · rcases d2 with d2 | d2
      · omega
      · exact key (a' - 1) (a' - 1) (c1 (a' - 1) (by omega) (by omega)) d2 rfl
    · rcases c2 with c2 | c2
      · omega
      · exact key (a - 1) (a - 1) (d1 (a - 1) (by omega) (by omega)) c2 rfl
  · by_contra hne
    rcases Nat.lt_or_gt_of_ne hne with hlt | hlt
    · rcases c3 with c3 | c3
      · omega
      · exact key b b (d1 b (by omega) (by omega)) c3 rfl
    · rcases d3 with d3 | d3
      · omega
      · exact key b' b' (c1 b' (by omega) (by omega)) d3 rfl

/-- Among regions of which no cell is in two, the region of a cell is unique. -/
theorem region_unique (regions : List Region)
    (h : ∀ x y, regions.countP (fun g => g.contains x y) ≤ 1) (g g' : Region)
    (hg : g ∈ regions) (hg' : g' ∈ regions) (x y : Nat) (hc : g.contains x y = true)
    (hc' : g'.contains x y = true) : g = g' := by
  induction regions with
  | nil => exact absurd hg (List.not_mem_nil _)
  | cons r l ih =>
    have hxy := h x y
    rw [List.countP_cons] at hxy
    have hl : ∀ x y, l.countP (fun g => g.contains x y) ≤ 1 := by
      intro x y
      have := h x y
      rw [List.countP_cons] at this
      omega
    rcases List.mem_cons.mp hg with e1 | m1
    · rcases List.mem_cons.mp hg' with e2 | m2
      · rw [e1, e2]
      · have : 0 < l.countP (fun g => g.contains x y) :=
          List.countP_pos_iff.mpr ⟨g', m2, hc'⟩
        rw [← e1, if_pos hc] at hxy
        omega
    · rcases List.mem_cons.mp hg' with e2 | m2
      · have : 0 < l.countP (fun g => g.contains x y) :=
          List.countP_pos_iff.mpr ⟨g, m1, hc⟩
        rw [← e2, if_pos hc'] at hxy
        omega
      · exact ih hl m1 m2

/-- The clip regions of a grid 2 wide and 4 high whose first column is masked: the four runs
of one cell are joined to one region, 4 rows high. -/
theorem clipRegions_column :
    clipRegions 2 4 [true, false, true, false, true, false, true, false] =
      some [Region.mk 0 0 1 4] := by
  decide

/-- C26: for every grid size and every set of masked cells, the join loop of `draw` ends,
and then no region that is left ends on the row where a region with the same first and last
column starts; on each of its rows a region is a run of that row; and the rows of every
chain, rows `y0` to `y0 + n` that all have the run from column `a` to column `b`, lie in
one single region with these columns. -/
theorem clipRegions_joined (width height : Nat) (masked : List Bool) :
    ∃ regions : List Region, clipRegions width height masked = some regions ∧
      (∀ g ∈ regions, ∀ g' ∈ regions,
        ¬ (g'.startX = g.startX ∧ g'.endX = g.endX ∧ g'.endY = g.startY)) ∧
      (∀ g ∈ regions, ∀ y, g.startY ≤ y → y < g.endY →
        isRun width height masked y g.startX g.endX) ∧
      (∀ a b y0 n : Nat, (∀ y, y0 ≤ y → y ≤ y0 + n → isRun width height masked y a b) →
        ∃ g ∈ regions, g.startX = a ∧ g.endX = b ∧ g.startY ≤ y0 ∧ y0 + n < g.endY) := by
  obtain ⟨regions, h1, h2, h3, h4⟩ := clipRegions_spec width height masked
  have hruns := clipRegions_runs width height masked regions h1
  have hrow : ∀ g ∈ regions, ∀ y, g.startY ≤ y → y < g.endY →
      isRun width height masked y g.startX g.endX := by
    intro g hg y hy1 hy2
    obtain ⟨r1, r2, r3, r4⟩ := hruns g hg
    refine ⟨by omega, r1, r2, ?_, (r4 y hy1 hy2).1, (r4 y hy1 hy2).2⟩
    intro x hx1 hx2
    have hc : g.contains x y = true := by
      simp only [Region.contains, decide_eq_true_eq]
      exact ⟨hx1, hx2, hy1, hy2⟩
    exact ((h3 x y).mp (List.countP_pos_iff.mpr ⟨g, hg, hc⟩)).2.2
  have hcell : ∀ a b y, isRun width height masked y a b →
      ∃ g ∈ regions, g.startX = a ∧ g.endX = b ∧ g.startY ≤ y ∧ y < g.endY := by
    intro a b y hr
    obtain ⟨c0, c1, c2, c3, -, -⟩ := id hr
    obtain ⟨g, hg, hc⟩ := List.countP_pos_iff.mp
      ((h3 a y).mpr ⟨by omega, c0, c3 a (le_refl _) c1⟩)
    simp only [Region.contains, decide_eq_true_eq] at hc
    obtain ⟨e1, e2⟩ := isRun_unique width height masked y g.startX g.endX a b a
      (hrow g hg y hc.2.2.1 hc.2.2.2) hr ⟨hc.1, hc.2.1⟩ ⟨le_refl _, c1⟩
    exact ⟨g, hg, e1, e2, hc.2.2.1, hc.2.2.2⟩
  refine ⟨regions, h1, h4, hrow, ?_⟩
  intro a b y0 n
  induction n with
  | zero =>
    intro hch
    exact hcell a b y0 (hch y0 (le_refl _) (le_refl _))
  | succ n ih =>
    intro hch
    obtain ⟨g, hg, e1, e2, e3, e4⟩ := ih (fun y hy1 hy2 => hch y hy1 (by omega))
    by_cases hlt : y0 + (n + 1) < g.endY
    · exact ⟨g, hg, e1, e2, e3, hlt⟩
    · exfalso
      have hend : g.endY = y0 + n + 1 := by omega
      have hr := hch (y0 + n + 1) (by omega) (by omega)
      obtain ⟨g', hg', f1, f2, f3, f4⟩ := hcell a b (y0 + n + 1) hr
      by_cases hs : g'.startY = y0 + n + 1
      · exact h4 g' hg' g hg ⟨e1.trans f1.symm, e2.trans f2.symm, hend.trans hs.symm⟩
      · have ha : a < b := hr.2.1
        have hc : g.contains a (y0 + n) = true := by
          simp only [Region.contains, decide_eq_true_eq]
          exact ⟨by omega, by omega, by omega, by omega⟩
        have hc' : g'.contains a (y0 + n) = true := by
          simp only [Region.contains, decide_eq_true_eq]
          exact ⟨by omega, by omega, by omega, by omega⟩
        have := region_unique regions h2 g g' hg hg' a (y0 + n) hc hc'
        rw [this] at hend
        omega

end CanvasRenderer

end ESPTerm
